import Mathlib

/-!
Verification of the `secureprompt` scrubbing pipeline.

This file gives a shallow embedding, in Lean 4, of the core of the
`ing-secure-prompt` repository: the SHA-256 based identifier derivation,
the regex detector set (`secureprompt/entities/detectors.py`), the scrub
pipeline (`secureprompt/scrub/pipeline.py`), the receipt store and descrub
service (`secureprompt/receipts/store.py`, `secureprompt/receipts/descrub.py`),
the hash-chained audit log (`secureprompt/audit/log.py`), and the IBAN
validator of `src/strategies/regex_strategy.py`.

Python strings are modelled as Lean `String`/`List Char`; byte-level hashing
goes through an explicit UTF-8 encoder so that the embedded SHA-256 agrees
byte-for-byte with `hashlib.sha256` on the Python side.  Fernet encryption is
modelled by an abstract `Crypto` structure: an encryption function together
with a decryption partial inverse.  Machine integers do not occur; the SHA-256
core works on `Nat` with explicit reduction modulo `2 ^ 32`.
-/

set_option maxRecDepth 1000000

namespace Secureprompt

/-! ## 32-bit words and SHA-256

A faithful executable SHA-256 (FIPS 180-4) over `Nat`, used by
`hashlib.sha256(...).hexdigest()` call sites in the source: identifier
derivation and the audit hash chain.  Words are naturals kept below `2 ^ 32`
by explicit `%`. -/

/-- Bitwise exclusive or on 32-bit words (arguments assumed `< 2 ^ 32`). -/
def xor32 (a b : Nat) : Nat := Nat.xor a b

/-- Bitwise and on 32-bit words. -/
def and32 (a b : Nat) : Nat := Nat.land a b

/-- Bitwise complement on a 32-bit word. -/
def not32 (a : Nat) : Nat := 4294967295 - a

/-- Addition modulo `2 ^ 32`. -/
def add32 (a b : Nat) : Nat := (a + b) % 4294967296

/-- Right rotation of a 32-bit word by `k` places. -/
def rotr32 (k a : Nat) : Nat := a / 2 ^ k + a % 2 ^ k * 2 ^ (32 - k)

/-- Logical right shift of a 32-bit word by `k` places. -/
def shr32 (k a : Nat) : Nat := a / 2 ^ k

/-- The SHA-256 round constants. -/
def sha256K : List Nat :=
  [1116352408, 1899447441, 3049323471, 3921009573, 961987163, 1508970993, 2453635748, 2870763221,
   3624381080, 310598401, 607225278, 1426881987, 1925078388, 2162078206, 2614888103, 3248222580,
   3835390401, 4022224774, 264347078, 604807628, 770255983, 1249150122, 1555081692, 1996064986,
   2554220882, 2821834349, 2952996808, 3210313671, 3336571891, 3584528711, 113926993, 338241895,
   666307205, 773529912, 1294757372, 1396182291, 1695183700, 1986661051, 2177026350, 2456956037,
   2730485921, 2820302411, 3259730800, 3345764771, 3516065817, 3600352804, 4094571909, 275423344,
   430227734, 506948616, 659060556, 883997877, 958139571, 1322822218, 1537002063, 1747873779,
   1955562222, 2024104815, 2227730452, 2361852424, 2428436474, 2756734187, 3204031479, 3329325298]

/-- The SHA-256 initial state. -/
def sha256Init : List Nat :=
  [1779033703, 3144134277, 1013904242, 2773480762, 1359893119, 2600822924, 528734635, 1541459225]

/-- SHA-256 big sigma 0. -/
def bigSigma0 (x : Nat) : Nat := xor32 (rotr32 2 x) (xor32 (rotr32 13 x) (rotr32 22 x))

/-- SHA-256 big sigma 1. -/
def bigSigma1 (x : Nat) : Nat := xor32 (rotr32 6 x) (xor32 (rotr32 11 x) (rotr32 25 x))

/-- SHA-256 small sigma 0. -/
def smallSigma0 (x : Nat) : Nat := xor32 (rotr32 7 x) (xor32 (rotr32 18 x) (shr32 3 x))

/-- SHA-256 small sigma 1. -/
def smallSigma1 (x : Nat) : Nat := xor32 (rotr32 17 x) (xor32 (rotr32 19 x) (shr32 10 x))

/-- SHA-256 choice function. -/
def chF (x y z : Nat) : Nat := xor32 (and32 x y) (and32 (not32 x) z)

/-- SHA-256 majority function. -/
def majF (x y z : Nat) : Nat := xor32 (and32 x y) (xor32 (and32 x z) (and32 y z))

/-- UTF-8 byte encoding of one character, as Python `str.encode` produces. -/
def utf8Char (c : Char) : List Nat :=
  let n := c.toNat
  if n < 0x80 then [n]
  else if n < 0x800 then [0xC0 + n / 64, 0x80 + n % 64]
  else if n < 0x10000 then [0xE0 + n / 4096, 0x80 + n / 64 % 64, 0x80 + n % 64]
  else [0xF0 + n / 262144, 0x80 + n / 4096 % 64, 0x80 + n / 64 % 64, 0x80 + n % 64]

/-- UTF-8 byte encoding of a character list. -/
def utf8Bytes (s : List Char) : List Nat := s.flatMap utf8Char

/-- SHA-256 message padding: append `0x80`, zero bytes, and the 64-bit
big-endian bit length, reaching a multiple of 64 bytes. -/
def padMsg (msg : List Nat) : List Nat :=
  let L := msg.length
  let zeros := (64 - (L + 9) % 64) % 64
  msg ++ [0x80] ++ List.replicate zeros 0 ++
    [L * 8 / 2 ^ 56 % 256, L * 8 / 2 ^ 48 % 256, L * 8 / 2 ^ 40 % 256, L * 8 / 2 ^ 32 % 256,
     L * 8 / 2 ^ 24 % 256, L * 8 / 2 ^ 16 % 256, L * 8 / 2 ^ 8 % 256, L * 8 % 256]

/-- Pack bytes into big-endian 32-bit words. -/
def toWords : List Nat → List Nat
  | b0 :: b1 :: b2 :: b3 :: rest => (((b0 * 256 + b1) * 256 + b2) * 256 + b3) :: toWords rest
  | _ => []

/-- Extend a 16-word block to the 64-word message schedule (`fuel` = 48). -/
def schedule (fuel : Nat) (w : List Nat) : List Nat :=
  match fuel with
  | 0 => w
  | f + 1 =>
    let n := w.length
    let a := w.getD (n - 16) 0
    let b := w.getD (n - 15) 0
    let c := w.getD (n - 7) 0
    let d := w.getD (n - 2) 0
    schedule f (w ++ [add32 (add32 (smallSigma1 d) c) (add32 (smallSigma0 b) a)])

/-- One SHA-256 compression round on the eight-word working state. -/
def round1 (st : List Nat) (kw : Nat × Nat) : List Nat :=
  match st with
  | [a, b, c, d, e, f, g, h] =>
    let t1 := add32 h (add32 (bigSigma1 e) (add32 (chF e f g) (add32 kw.1 kw.2)))
    let t2 := add32 (bigSigma0 a) (majF a b c)
    [add32 t1 t2, a, b, c, add32 d t1, e, f, g]
  | st => st

/-- Compress one 64-byte block into the hash state. -/
def compress (st : List Nat) (block : List Nat) : List Nat :=
  let w := schedule 48 (toWords block)
  let st' := (sha256K.zip w).foldl (fun s kw => round1 s kw) st
  (st.zip st').map (fun p => add32 p.1 p.2)

/-- Split a byte list into 64-byte chunks (`fuel` bounds the recursion). -/
def chunks64 : Nat → List Nat → List (List Nat)
  | 0, _ => []
  | _, [] => []
  | f + 1, l => l.take 64 :: chunks64 f (l.drop 64)

/-- Lower-case hexadecimal digit for a nibble. -/
def hexDigit (n : Nat) : Char := if n < 10 then Char.ofNat (48 + n) else Char.ofNat (87 + n)

/-- Eight lower-case hex characters of a 32-bit word, most significant first. -/
def wordHex (w : Nat) : List Char :=
  [hexDigit (w / 2 ^ 28 % 16), hexDigit (w / 2 ^ 24 % 16), hexDigit (w / 2 ^ 20 % 16),
   hexDigit (w / 2 ^ 16 % 16), hexDigit (w / 2 ^ 12 % 16), hexDigit (w / 2 ^ 8 % 16),
   hexDigit (w / 2 ^ 4 % 16), hexDigit (w % 16)]

/-- SHA-256 hex digest of a character list (UTF-8 encoded), 64 hex characters. -/
def sha256HexChars (s : List Char) : List Char :=
  let padded := padMsg (utf8Bytes s)
  let st := (chunks64 (padded.length + 1) padded).foldl compress sha256Init
  st.flatMap wordHex

/-- Embedding of Python `hashlib.sha256(s.encode("utf-8")).hexdigest()`. -/
def sha256Hex (s : String) : String := ⟨sha256HexChars s.data⟩

/-! ## List and string helpers

Executable counterparts of the Python string operations the pipeline uses:
slicing, containment, single-occurrence replacement. -/

/-- Whether `hay` starts with `needle` (on character lists). -/
def startsWithL : List Char → List Char → Bool
  | [], _ => true
  | _ :: _, [] => false
  | a :: xs, b :: ys => a == b && startsWithL xs ys

/-- Whether `needle` occurs as a contiguous substring of `hay`
(Python `needle in hay`). -/
def containsL (needle : List Char) : List Char → Bool
  | [] => startsWithL needle []
  | c :: rest => startsWithL needle (c :: rest) || containsL needle rest

/-- Whether string `n` occurs as a substring of string `h`. -/
def containsS (h n : String) : Bool := containsL n.data h.data

/-- Python slice `t[a:b]`. -/
def sliceL (t : List Char) (a b : Nat) : List Char := (t.take b).drop a

/-- Python `s.replace(old, new, 1)`: replace the leftmost occurrence of
`old` (if any) by `new`. -/
def replaceOnceL (s old new : List Char) : List Char :=
  match s with
  | [] => if startsWithL old [] then new else []
  | c :: rest =>
    if startsWithL old (c :: rest) then new ++ (c :: rest).drop old.length
    else c :: replaceOnceL rest old new

/-- String form of `replaceOnceL`. -/
def replaceOnceS (s old new : String) : String := ⟨replaceOnceL s.data old.data new.data⟩

/-- ASCII lower-casing of one character. -/
def asciiLower (c : Char) : Char :=
  if 65 ≤ c.toNat ∧ c.toNat ≤ 90 then Char.ofNat (c.toNat + 32) else c

/-- ASCII upper-casing of one character. -/
def asciiUpper (c : Char) : Char :=
  if 97 ≤ c.toNat ∧ c.toNat ≤ 122 then Char.ofNat (c.toNat - 32) else c

/-- ASCII upper-casing of a string (Python `str.upper` on the ASCII range). -/
def upperS (s : String) : String := ⟨s.data.map asciiUpper⟩

/-- Python `str.isdigit` on one ASCII character. -/
def isDigitC (c : Char) : Bool := 48 ≤ c.toNat && c.toNat ≤ 57

/-- Numeric value of an ASCII digit character. -/
def digitVal (c : Char) : Nat := c.toNat - 48

end Secureprompt

namespace Secureprompt

/-! ## A small backtracking regex engine

The detectors in `secureprompt/entities/detectors.py` are `re` patterns
searched with `finditer`.  The engine below interprets a regex AST with
Python's backtracking semantics: ordered alternation, greedy quantifiers,
word boundaries, fixed-width negative lookbehind, and numbered capture
groups.  `run t re p` returns all ways the pattern can match starting at
position `p`, in backtracking priority order, as (captures, end position)
pairs; Python's match is the head of that list.  Unicode-aware details
(`\s`, `\b`, case folding) are modelled on the ASCII range, which covers
every character class the detector patterns use. -/

/-- A character class: ranges plus individual characters, with negation and
case-insensitivity flags. -/
structure CC where
  ranges : List (Char × Char)
  chars : List Char
  neg : Bool
  ci : Bool
deriving Repr, DecidableEq

/-- Membership of a character in the un-negated, case-sensitive part of a
class. -/
def inBase (cc : CC) (c : Char) : Bool :=
  cc.ranges.any (fun p => p.1 ≤ c && c ≤ p.2) || cc.chars.contains c

/-- Class matching, honouring the case-insensitive and negation flags. -/
def ccMatches (cc : CC) (c : Char) : Bool :=
  let hit := inBase cc c || (cc.ci && (inBase cc (asciiLower c) || inBase cc (asciiUpper c)))
  if cc.neg then !hit else hit

/-- Regex abstract syntax: epsilon, character class, sequencing, ordered
alternation, bounded repetition `{lo,hi}`, unbounded greedy star, greedy
option, word boundary, capture group, and fixed-width negative lookbehind. -/
inductive RE where
  | eps
  | cls (cc : CC)
  | seq (a b : RE)
  | alt (a b : RE)
  | rep (lo hi : Nat) (r : RE)
  | star (r : RE)
  | opt (r : RE)
  | wb
  | grp (i : Nat) (r : RE)
  | lbn (w : Nat) (r : RE)
deriving Repr, DecidableEq

/-- Capture list: (group index, start, end) triples. -/
abbrev Caps : Type := List (Nat × Nat × Nat)

/-- Python word character on the ASCII range (`[A-Za-z0-9_]`). -/
def isWordC (c : Char) : Bool :=
  (65 ≤ c.toNat && c.toNat ≤ 90) || (97 ≤ c.toNat && c.toNat ≤ 122) ||
    (48 ≤ c.toNat && c.toNat ≤ 57) || c == '_'

/-- Whether the character at position `p` exists and is a word character. -/
def wordAt (t : List Char) (p : Nat) : Bool :=
  match t.get? p with
  | some c => isWordC c
  | none => false

/-- Python `\b`: a word boundary at position `p`. -/
def isWB (t : List Char) (p : Nat) : Bool :=
  (if p = 0 then false else wordAt t (p - 1)) != wordAt t p

/-- Greedy unbounded repetition: iterate the body (which must consume at
least one character to iterate) as many times as possible, preferring more
iterations; `fuel` bounds the recursion. -/
def starAux (runr : Nat → List (Caps × Nat)) : Nat → Nat → List (Caps × Nat)
  | 0, p => [([], p)]
  | f + 1, p =>
    (runr p).flatMap (fun cp =>
      if p < cp.2 then (starAux runr f cp.2).map (fun cq => (cp.1 ++ cq.1, cq.2)) else []) ++
      [([], p)]

/-- Greedy bounded repetition `{lo,hi}`: structural on `hi`, preferring more
iterations, allowed to stop once `lo` reaches zero. -/
def repAux (runr : Nat → List (Caps × Nat)) : Nat → Nat → Nat → List (Caps × Nat)
  | lo, 0, p => if lo = 0 then [([], p)] else []
  | lo, hi + 1, p =>
    (runr p).flatMap (fun cp =>
      (repAux runr (lo - 1) hi cp.2).map (fun cq => (cp.1 ++ cq.1, cq.2))) ++
      (if lo = 0 then [([], p)] else [])

/-- Run a regex at position `p` of `t`; all matches in backtracking order. -/
def run (t : List Char) : RE → Nat → List (Caps × Nat)
  | .eps, p => [([], p)]
  | .cls cc, p =>
    match t.get? p with
    | some c => if ccMatches cc c then [([], p + 1)] else []
    | none => []
  | .seq a b, p =>
    (run t a p).flatMap (fun cp => (run t b cp.2).map (fun cq => (cp.1 ++ cq.1, cq.2)))
  | .alt a b, p => run t a p ++ run t b p
  | .rep lo hi r, p => repAux (run t r) lo hi p
  | .star r, p => starAux (run t r) (t.length + 1) p
  | .opt r, p => run t r p ++ [([], p)]
  | .wb, p => if isWB t p then [([], p)] else []
  | .grp i r, p => (run t r p).map (fun cp => ((i, p, cp.2) :: cp.1, cp.2))
  | .lbn w r, p =>
    if w ≤ p && (run t r (p - w)).any (fun cp => cp.2 == p) then [] else [([], p)]

/-- One match as `finditer` reports it: span plus captures. -/
structure MatchData where
  mstart : Nat
  mend : Nat
  caps : Caps
deriving Repr, DecidableEq

/-- Scan of `finditer`: try each position left to right, emit the first
(backtracking-preferred) match at the first position that matches, and
continue after its end (one past it for an empty match). -/
def finditerAux (re : RE) (t : List Char) : Nat → Nat → List MatchData
  | 0, _ => []
  | f + 1, p =>
    if t.length < p then []
    else
      match run t re p with
      | [] => finditerAux re t f (p + 1)
      | cp :: _ => ⟨p, cp.2, cp.1⟩ :: finditerAux re t f (max cp.2 (p + 1))

/-- Python `re.finditer(pattern, t)`: the non-overlapping match list. -/
def finditer (re : RE) (t : List Char) : List MatchData :=
  finditerAux re t (t.length + 1) 0

/-- The span of capture group `i` in a match, when the group participated. -/
def groupSpan (m : MatchData) (i : Nat) : Option (Nat × Nat) :=
  (m.caps.find? (fun g => g.1 == i)).map (fun g => g.2)

/-- The text of capture group `i` (empty if the group did not participate;
the detector patterns' groups always participate). -/
def groupSlice (m : MatchData) (i : Nat) (t : List Char) : List Char :=
  match groupSpan m i with
  | some s => sliceL t s.1 s.2
  | none => []

end Secureprompt

namespace Secureprompt

/-! ## Detector patterns

Transcriptions of the compiled regexes of
`secureprompt/entities/detectors.py` into the engine's AST.  Classes carry
`ci := true` exactly for the patterns compiled with `re.IGNORECASE`
(`IBAN_RX`, `CUR_AMT_RX1/2`, `PHONE_RX`, `STATUS_RX`, `XFER_RX`). -/

/-- Build a sequence from a list of regexes. -/
def seqL : List RE → RE
  | [] => .eps
  | [r] => r
  | r :: rest => .seq r (seqL rest)

/-- Build an ordered alternation from a non-empty list of regexes. -/
def altL : List RE → RE
  | [] => .eps
  | [r] => r
  | r :: rest => .alt r (altL rest)

/-- Literal character. -/
def chC (c : Char) : RE := .cls ⟨[], [c], false, false⟩

/-- Literal character, case-insensitive. -/
def chCI (c : Char) : RE := .cls ⟨[], [c], false, true⟩

/-- Literal string. -/
def litS (s : String) : RE := seqL (s.data.map chC)

/-- Literal string, case-insensitive. -/
def litCI (s : String) : RE := seqL (s.data.map chCI)

/-- Python `+`: one repetition then a greedy star. -/
def plusR (r : RE) : RE := .seq r (.star r)

/-- Python `\s` on the ASCII range. -/
def wsChars : List Char := [' ', '\t', '\n', '\r', '\x0b', '\x0c']

/-- Class `\s`. -/
def wsCC : CC := ⟨[], wsChars, false, false⟩

/-- Class `\s` under `re.IGNORECASE` (same characters). -/
def wsCI : CC := ⟨[], wsChars, false, true⟩

/-- Class `\d`. -/
def digitCC : CC := ⟨[('0', '9')], [], false, false⟩

/-- Class `\d` under `re.IGNORECASE`. -/
def digitCI : CC := ⟨[('0', '9')], [], false, true⟩

/-- Class `[A-Z]` under `re.IGNORECASE`. -/
def upperCI : CC := ⟨[('A', 'Z')], [], false, true⟩

/-- Class `[A-Z]`, case-sensitive. -/
def upperCC : CC := ⟨[('A', 'Z')], [], false, false⟩

/-- Class `[a-z]`, case-sensitive. -/
def lowerCC : CC := ⟨[('a', 'z')], [], false, false⟩

/-- Class `[A-Z0-9]` under `re.IGNORECASE`. -/
def alnumUpCI : CC := ⟨[('A', 'Z'), ('0', '9')], [], false, true⟩

/-- Class `[A-Z0-9]`, case-sensitive. -/
def alnumUpCC : CC := ⟨[('A', 'Z'), ('0', '9')], [], false, false⟩

/-- Class `[a-zA-Z0-9._%+\-]` (email local part). -/
def emailLocalCC : CC := ⟨[('a', 'z'), ('A', 'Z'), ('0', '9')], ['.', '_', '%', '+', '-'], false, false⟩

/-- Class `[a-zA-Z0-9.\-]` (email domain part). -/
def emailDomCC : CC := ⟨[('a', 'z'), ('A', 'Z'), ('0', '9')], ['.', '-'], false, false⟩

/-- Class `[A-Za-z]`. -/
def alphaCC : CC := ⟨[('A', 'Z'), ('a', 'z')], [], false, false⟩

/-- Class `[:\s]`. -/
def colonWsCC : CC := ⟨[], ':' :: wsChars, false, false⟩

/-- Class `[:\s]` under `re.IGNORECASE` (for `XFER_RX`'s `[:=\s\-]`). -/
def xferSepCI : CC := ⟨[], ':' :: '=' :: '-' :: wsChars, false, true⟩

/-- Class `[ -]` (PAN separators). -/
def panSepCC : CC := ⟨[], [' ', '-'], false, false⟩

/-- Class `[\d\-\s().]` (phone middle) under `re.IGNORECASE`. -/
def phoneMidCI : CC := ⟨[('0', '9')], '-' :: '(' :: ')' :: '.' :: wsChars, false, true⟩

/-- Class `[A-Za-z0-9]` under `re.IGNORECASE`. -/
def alnumCI : CC := ⟨[('A', 'Z'), ('a', 'z'), ('0', '9')], [], false, true⟩

/-- Class `[A-Za-z0-9\-_.]` under `re.IGNORECASE`. -/
def xferBodyCI : CC := ⟨[('A', 'Z'), ('a', 'z'), ('0', '9')], ['-', '_', '.'], false, true⟩

/-- Class `[Bb]`. -/
def bBCC : CC := ⟨[], ['B', 'b'], false, false⟩

/-- Class `[\/\-]`. -/
def dobSepCC : CC := ⟨[], ['/', '-'], false, false⟩

/-- Class `[\/\-\.]`. -/
def dateSepCC : CC := ⟨[], ['/', '-', '.'], false, false⟩

/-- Class `[ ,]` under `re.IGNORECASE` (thousands separators). -/
def amtKSepCI : CC := ⟨[], [' ', ','], false, true⟩

/-- Class `[.,]` under `re.IGNORECASE` (decimal separators). -/
def amtDSepCI : CC := ⟨[], ['.', ','], false, true⟩

/-- `IBAN_RX`: `\b(?:IBAN\s*)?([A-Z]{2}\d{2}(?:[ ]?[A-Z0-9]{3,4}){2,7})\b`,
compiled with `re.IGNORECASE`. -/
def IBAN_RX : RE :=
  seqL [.wb,
        .opt (.seq (litCI ("IBAN")) (.star (.cls wsCI))),
        .grp 1 (seqL [.rep 2 2 (.cls upperCI), .rep 2 2 (.cls digitCI),
                      .rep 2 7 (.seq (.opt (chCI ' ')) (.rep 3 4 (.cls alnumUpCI)))]),
        .wb]

/-- `BIC_RX`: `\b(?:BIC[:\s]*)?([A-Z]{4}[A-Z]{2}[A-Z0-9]{2}(?:[A-Z0-9]{3})?)\b`. -/
def BIC_RX : RE :=
  seqL [.wb,
        .opt (.seq (litS ("BIC")) (.star (.cls colonWsCC))),
        .grp 1 (seqL [.rep 4 4 (.cls upperCC), .rep 2 2 (.cls upperCC),
                      .rep 2 2 (.cls alnumUpCC), .opt (.rep 3 3 (.cls alnumUpCC))]),
        .wb]

/-- `EMAIL_RX`: `\b[a-zA-Z0-9._%+\-]+@[a-zA-Z0-9.\-]+\.[A-Za-z]{2,24}\b`. -/
def EMAIL_RX : RE :=
  seqL [.wb, plusR (.cls emailLocalCC), chC '@', plusR (.cls emailDomCC),
        chC '.', .rep 2 24 (.cls alphaCC), .wb]

/-- The ISO date alternative `\d{4}-\d{2}-\d{2}`. -/
def isoDateRE : RE :=
  seqL [.rep 4 4 (.cls digitCC), chC '-', .rep 2 2 (.cls digitCC), chC '-',
        .rep 2 2 (.cls digitCC)]

/-- `DOB_CTX_RX`:
`\b(?:DOB|[Bb]irth(?:\s*date)?|born(?:\s*on)?)[:\s]+(?P<date>(?:\d{4}-\d{2}-\d{2}|\d{2}[\/\-]\d{2}[\/\-]\d{4}))\b`
(the named group `date` is group 1). -/
def DOB_CTX_RX : RE :=
  seqL [.wb,
        altL [litS ("DOB"),
              seqL [.cls bBCC, litS ("irth"), .opt (.seq (.star (.cls wsCC)) (litS ("date")))],
              seqL [litS ("born"), .opt (.seq (.star (.cls wsCC)) (litS ("on")))]],
        plusR (.cls colonWsCC),
        .grp 1 (altL [isoDateRE,
                      seqL [.rep 2 2 (.cls digitCC), .cls dobSepCC, .rep 2 2 (.cls digitCC),
                            .cls dobSepCC, .rep 4 4 (.cls digitCC)]]),
        .wb]

/-- `DATE_RX`: `\b(?:\d{4}-\d{2}-\d{2}|\d{2}[\/\-\.]\d{2}[\/\-\.]\d{4})\b`. -/
def DATE_RX : RE :=
  seqL [.wb,
        altL [isoDateRE,
              seqL [.rep 2 2 (.cls digitCC), .cls dateSepCC, .rep 2 2 (.cls digitCC),
                    .cls dateSepCC, .rep 4 4 (.cls digitCC)]],
        .wb]

/-- `YEAR_RX`: `\b(19\d{2}|20\d{2})\b`. -/
def YEAR_RX : RE :=
  seqL [.wb,
        .grp 1 (altL [.seq (litS ("19")) (.rep 2 2 (.cls digitCC)),
                      .seq (litS ("20")) (.rep 2 2 (.cls digitCC))]),
        .wb]

/-- The currency codes alternation of `CODES`, in source order. -/
def curCodes : List String :=
  ["EUR", "USD", "GBP", "CHF", "JPY", "AUD", "CAD", "CNY", "INR", "SEK", "NOK", "DKK",
   "PLN", "HUF", "CZK", "RON", "TRY", "RUB", "ZAR", "NZD", "MXN", "BRL", "SGD", "HKD"]

/-- The currency alternation `(?:€|\$|£|¥|EUR|...)` (case-insensitive). -/
def curRE : RE := altL ([chCI '€', chCI '$', chCI '£', chCI '¥'] ++ curCodes.map litCI)

/-- The amount alternation
`\d{1,3}(?:[ ,]\d{3})*(?:[.,]\d{2})?|\d+(?:[.,]\d{2})?` (case-insensitive). -/
def amtRE : RE :=
  altL [seqL [.rep 1 3 (.cls digitCI), .star (.seq (.cls amtKSepCI) (.rep 3 3 (.cls digitCI))),
              .opt (.seq (.cls amtDSepCI) (.rep 2 2 (.cls digitCI)))],
        seqL [plusR (.cls digitCI), .opt (.seq (.cls amtDSepCI) (.rep 2 2 (.cls digitCI)))]]

/-- `CUR_AMT_RX1`: currency then amount; group 1 = `cur`, group 2 = `amt`. -/
def CUR_AMT_RX1 : RE :=
  seqL [.wb, .grp 1 curRE, .star (.cls wsCI), .grp 2 amtRE, .wb]

/-- `CUR_AMT_RX2`: amount then currency; group 1 = `amt`, group 2 = `cur`. -/
def CUR_AMT_RX2 : RE :=
  seqL [.wb, .grp 1 amtRE, .star (.cls wsCI), .grp 2 curRE, .wb]

/-- `PAN_RX`: `\b(?:\d[ -]?){13,19}\d\b`. -/
def PAN_RX : RE :=
  seqL [.wb, .rep 13 19 (.seq (.cls digitCC) (.opt (.cls panSepCC))), .cls digitCC, .wb]

/-- `PHONE_RX` (verbose, `re.IGNORECASE`):
`(?<!IBAN )(?<![A-Z]{2}\d{2} )\b(?:\+?\d[\d\-\s().]{6,18}\d)\b`. -/
def PHONE_RX : RE :=
  seqL [.lbn 5 (litCI ("IBAN ")),
        .lbn 5 (seqL [.cls upperCI, .cls upperCI, .cls digitCI, .cls digitCI, chC ' ']),
        .wb, .opt (chC '+'), .cls digitCI, .rep 6 18 (.cls phoneMidCI), .cls digitCI, .wb]

/-- The status keyword list, in source order. -/
def statusWords : List String :=
  ["approved", "declined", "pending", "failed", "successful", "success", "canceled",
   "cancelled", "completed", "processing", "scheduled", "rejected", "verified", "denied",
   "refunded"]

/-- `STATUS_RX`: `\b(?P<status>approved|...|refunded)\b` with `re.IGNORECASE`;
the named group `status` is group 1. -/
def STATUS_RX : RE := seqL [.wb, .grp 1 (altL (statusWords.map litCI)), .wb]

/-- `XFER_RX`:
`\b(?:TX|TRX|TID|Transfer(?:\s*ID)?)[:=\s\-]*([A-Za-z0-9][A-Za-z0-9\-_.]{4,36})\b`
with `re.IGNORECASE`. -/
def XFER_RX : RE :=
  seqL [.wb,
        altL [litCI ("TX"), litCI ("TRX"), litCI ("TID"),
              .seq (litCI ("Transfer")) (.opt (.seq (.star (.cls wsCI)) (litCI ("ID"))))],
        .star (.cls xferSepCI),
        .grp 1 (.seq (.cls alnumCI) (.rep 4 36 (.cls xferBodyCI))),
        .wb]

/-- `NAME_RX`: `\b([A-Z][a-z]+(?:\s+[A-Z][a-z]+)+)\b`. -/
def NAME_RX : RE :=
  seqL [.wb,
        .grp 1 (seqL [.cls upperCC, plusR (.cls lowerCC),
                      plusR (seqL [plusR (.cls wsCC), .cls upperCC, plusR (.cls lowerCC)])]),
        .wb]

end Secureprompt

namespace Secureprompt

/-! ## Detector passes (`secureprompt/entities/detectors.py`)

The `_entity` dictionaries are modelled by the `Hit` structure.  Fields of
`_entity` that nothing downstream ever reads again (`span` as a duplicate of
`start`/`end`, the detector-local `identifier`, `mask_preview` and
`explanation`, all recomputed or replaced by the scrub pipeline) are not
carried.  Confidences are exact hundredths (`0.99` ↦ `99`), which is
injective on every confidence the source uses. -/

/-- Embedding of `_luhn_ok`: filter digits, require at least 13, double every
second digit counting from parity `(len-2) % 2`, fold the checksum over all
but the last digit, add the last digit, and test divisibility by 10. -/
def luhnOk (number : List Char) : Bool :=
  let digits := (number.filter isDigitC).map digitVal
  if digits.length < 13 then false
  else
    let parity := (digits.length - 2) % 2
    let checksum := digits.dropLast.enum.foldl
      (fun acc iv =>
        let v := if iv.1 % 2 = parity then (if iv.2 * 2 > 9 then iv.2 * 2 - 9 else iv.2 * 2) else iv.2
        acc + v) 0
    (checksum + digits.getLastD 0) % 10 == 0

/-- A detection hit: the fields of `_entity` that the pipeline consumes. -/
structure Hit where
  label : String
  hstart : Nat
  hstop : Nat
  detector : String
  value : String
  clevel : String
  action : String
  conf : Nat
deriving Repr, DecidableEq

/-- Embedding of `_overlaps`: half-open interval intersection. -/
def overlapsB (a b : Nat × Nat) : Bool := !(a.2 ≤ b.1 || b.2 ≤ a.1)

/-- Embedding of `_free`: the span intersects no span of `taken`. -/
def spanFree (s : Nat × Nat) (taken : List (Nat × Nat)) : Bool :=
  taken.all (fun t => !(overlapsB s t))

/-- Embedding of `_append_non_overlapping`: accept each candidate whose span
is free, appending it to the output and its span to `taken`. -/
def appendNO : List Hit → List (Nat × Nat) → List Hit → List Hit × List (Nat × Nat)
  | out, taken, [] => (out, taken)
  | out, taken, e :: rest =>
    if spanFree (e.hstart, e.hstop) taken then
      appendNO (out ++ [e]) (taken ++ [(e.hstart, e.hstop)]) rest
    else appendNO out taken rest

/-- Python `str.strip()`: drop leading and trailing whitespace. -/
def stripL (s : List Char) : List Char :=
  ((s.dropWhile (fun c => wsChars.contains c)).reverse.dropWhile
    (fun c => wsChars.contains c)).reverse

/-- The `_pass_iban` detector: every `IBAN_RX` match, value = group 1
stripped, no checksum validation. -/
def passIban (t : List Char) (_taken : List (Nat × Nat)) : List Hit :=
  (finditer IBAN_RX t).map (fun m =>
    ⟨"IBAN", m.mstart, m.mend, "IBAN_generic", ⟨stripL (groupSlice m 1 t)⟩, "C3", "redact", 99⟩)

/-- Python `re.match(r"^[A-Z]{4}[A-Z]{2}", val)` as `_pass_bic` uses it. -/
def bicPrefixOk (val : List Char) : Bool :=
  (run val (seqL ((List.replicate 6 (RE.cls upperCC))) ) 0).isEmpty = false

/-- The `_pass_bic` detector: `BIC_RX` matches whose group starts with six
upper-case letters. -/
def passBic (t : List Char) (_taken : List (Nat × Nat)) : List Hit :=
  ((finditer BIC_RX t).filter (fun m => bicPrefixOk (stripL (groupSlice m 1 t)))).map (fun m =>
    ⟨"BIC", m.mstart, m.mend, "BIC_swift", ⟨stripL (groupSlice m 1 t)⟩, "C3", "redact", 97⟩)

/-- The `_pass_email` detector. -/
def passEmail (t : List Char) (_taken : List (Nat × Nat)) : List Hit :=
  (finditer EMAIL_RX t).map (fun m =>
    ⟨"EMAIL", m.mstart, m.mend, "EMAIL_simple", ⟨sliceL t m.mstart m.mend⟩, "C4", "mask", 98⟩)

/-- The `_pass_dob` detector: span and value are those of the `date` group
(present in every match of the pattern; a groupless match would make Python
raise and is dropped here). -/
def passDob (t : List Char) (_taken : List (Nat × Nat)) : List Hit :=
  (finditer DOB_CTX_RX t).filterMap (fun m =>
    (groupSpan m 1).map (fun s =>
      ⟨"DOB", s.1, s.2, "DOB_ctx", ⟨sliceL t s.1 s.2⟩, "C3", "redact", 96⟩))

/-- The `_pass_date` detector. -/
def passDate (t : List Char) (_taken : List (Nat × Nat)) : List Hit :=
  (finditer DATE_RX t).map (fun m =>
    ⟨"DATE", m.mstart, m.mend, "DATE_generic", ⟨sliceL t m.mstart m.mend⟩, "C3", "mask", 94⟩)

/-- The `_pass_year` detector. -/
def passYear (t : List Char) (_taken : List (Nat × Nat)) : List Hit :=
  (finditer YEAR_RX t).map (fun m =>
    ⟨"YEAR", m.mstart, m.mend, "YEAR_1900_2099", ⟨sliceL t m.mstart m.mend⟩, "C3", "mask", 92⟩)

/-- Embedding of `_emit_amount_currency`: a CURRENCY hit if the currency span
is free, then an AMOUNT hit if the amount span is free. -/
def emitAmountCurrency (t : List Char) (amtSpan curSpan : Nat × Nat)
    (taken : List (Nat × Nat)) : List Hit :=
  (if spanFree curSpan taken then
    [⟨"CURRENCY", curSpan.1, curSpan.2, "CUR_code_or_symbol", ⟨sliceL t curSpan.1 curSpan.2⟩,
      "C3", "mask", 96⟩]
   else []) ++
  (if spanFree amtSpan taken then
    [⟨"AMOUNT", amtSpan.1, amtSpan.2, "AMOUNT_near_currency", ⟨sliceL t amtSpan.1 amtSpan.2⟩,
      "C3", "mask", 96⟩]
   else [])

/-- The `_pass_amount_currency` detector: both orders, currency-first regex
then amount-first regex; group 1/2 are `cur`/`amt` in `CUR_AMT_RX1` and
`amt`/`cur` in `CUR_AMT_RX2`. -/
def passAmountCurrency (t : List Char) (taken : List (Nat × Nat)) : List Hit :=
  (finditer CUR_AMT_RX1 t).flatMap (fun m =>
    match groupSpan m 1, groupSpan m 2 with
    | some curS, some amtS => emitAmountCurrency t amtS curS taken
    | _, _ => []) ++
  (finditer CUR_AMT_RX2 t).flatMap (fun m =>
    match groupSpan m 1, groupSpan m 2 with
    | some amtS, some curS => emitAmountCurrency t amtS curS taken
    | _, _ => [])

/-- Embedding of `_clean_pan`: strip every non-digit character. -/
def cleanPan (value : List Char) : List Char := value.filter isDigitC

/-- The `_pass_pan` detector: `PAN_RX` matches whose digit count is within
13–19 and whose digits pass `_luhn_ok`, on spans free at generation time. -/
def passPan (t : List Char) (taken : List (Nat × Nat)) : List Hit :=
  (finditer PAN_RX t).filterMap (fun m =>
    let raw := sliceL t m.mstart m.mend
    let digits := cleanPan raw
    if digits.length < 13 || 19 < digits.length then none
    else if !(luhnOk digits) then none
    else if spanFree (m.mstart, m.mend) taken then
      some ⟨"PAN", m.mstart, m.mend, "PAN_luhn", ⟨raw⟩, "C4", "redact", 98⟩
    else none)

/-- The `_pass_status` detector: span and value of the `status` group. -/
def passStatus (t : List Char) (_taken : List (Nat × Nat)) : List Hit :=
  (finditer STATUS_RX t).filterMap (fun m =>
    (groupSpan m 1).map (fun s =>
      ⟨"STATUS", s.1, s.2, "STATUS_words", ⟨sliceL t s.1 s.2⟩, "C2", "mask", 90⟩))

/-- The `_pass_transfer_id` detector: span and value of group 1. -/
def passTransferId (t : List Char) (_taken : List (Nat × Nat)) : List Hit :=
  (finditer XFER_RX t).filterMap (fun m =>
    (groupSpan m 1).map (fun s =>
      ⟨"TRANSFER_ID", s.1, s.2, "XFER_id_like", ⟨sliceL t s.1 s.2⟩, "C3", "redact", 95⟩))

/-- The `_pass_phone` detector. -/
def passPhone (t : List Char) (_taken : List (Nat × Nat)) : List Hit :=
  (finditer PHONE_RX t).map (fun m =>
    ⟨"PHONE", m.mstart, m.mend, "PHONE_e164ish", ⟨sliceL t m.mstart m.mend⟩, "C4", "mask", 97⟩)

/-- The name prefixes `_pass_name` rejects. -/
def namePrefixes : List String := ["Transfer", "Invoice", "Order", "Bank", "Account"]

/-- The `_pass_name` detector: capitalised bigrams not starting with a known
business prefix (span = full match, value = group 1; they coincide). -/
def passName (t : List Char) (_taken : List (Nat × Nat)) : List Hit :=
  ((finditer NAME_RX t).filter (fun m =>
    !(namePrefixes.any (fun p => startsWithL p.data (groupSlice m 1 t))))).map (fun m =>
    ⟨"NAME", m.mstart, m.mend, "NAME_capitalized_bigram", ⟨groupSlice m 1 t⟩, "C2", "mask", 93⟩)

/-- Lexicographic strict order on `Nat` lists. -/
def natListLt : List Nat → List Nat → Bool
  | [], [] => false
  | [], _ :: _ => true
  | _ :: _, [] => false
  | x :: xs, y :: ys => x < y || (x == y && natListLt xs ys)

/-- The sort key of `detect`: the `(start, end, label)` tuple, as a `Nat`
list (label compared by code points, exactly Python's string order). -/
def detectKey (h : Hit) : List Nat := h.hstart :: h.hstop :: h.label.data.map Char.toNat

/-- Non-strict comparison of detect sort keys. -/
def detectLe (a b : Hit) : Prop := natListLt (detectKey a) (detectKey b) || detectKey a == detectKey b

instance : DecidableRel detectLe := fun a b => by unfold detectLe; infer_instance

/-- Embedding of `detect`: run the twelve passes in priority order through
`_append_non_overlapping`, then sort by `(start, end, label)` (a stable
sort, as Python's `list.sort`). -/
def detect (text : String) : List Hit :=
  let t := text.data
  if t.isEmpty then []
  else
    let s1 := appendNO [] [] (passIban t [])
    let s2 := appendNO s1.1 s1.2 (passBic t s1.2)
    let s3 := appendNO s2.1 s2.2 (passEmail t s2.2)
    let s4 := appendNO s3.1 s3.2 (passDob t s3.2)
    let s5 := appendNO s4.1 s4.2 (passDate t s4.2)
    let s6 := appendNO s5.1 s5.2 (passYear t s5.2)
    let s7 := appendNO s6.1 s6.2 (passAmountCurrency t s6.2)
    let s8 := appendNO s7.1 s7.2 (passPan t s7.2)
    let s9 := appendNO s8.1 s8.2 (passStatus t s8.2)
    let s10 := appendNO s9.1 s9.2 (passTransferId t s9.2)
    let s11 := appendNO s10.1 s10.2 (passPhone t s10.2)
    let s12 := appendNO s11.1 s11.2 (passName t s11.2)
    List.insertionSort detectLe s12.1

end Secureprompt

namespace Secureprompt

/-! ## Confidence annotation (`secureprompt/entities/confidence.py`) -/

/-- The `BASE_RULE_CONF` table in exact hundredths, with its `0.90` default. -/
def baseRuleConf (label : String) : Nat :=
  if label = "EMAIL" then 98
  else if label = "IBAN" then 99
  else if label = "PAN" then 99
  else if label = "PHONE" then 98
  else if label = "NAME" then 90
  else if label = "ADDRESS" then 90
  else 90

/-- Decimal digit character. -/
def digitChar (n : Nat) : Char := Char.ofNat (48 + n)

/-- Python `f"{conf:.2f}"` for the table confidences (all below `1.00`). -/
def confFmt (n : Nat) : String := ⟨['0', '.', digitChar (n / 10 % 10), digitChar (n % 10)]⟩

/-- A hit after `add_confidence`: confidence replaced by the rule table value
and the explanation string attached (the `confidence_sources` singleton
`{"rule": conf}` is reconstructed from `conf` where it is consumed). -/
structure CHit where
  label : String
  hstart : Nat
  hstop : Nat
  detector : String
  value : String
  clevel : String
  action : String
  conf : Nat
  explanation : String
deriving Repr, DecidableEq

/-- Embedding of `add_confidence`. -/
def addConfidence (hits : List Hit) : List CHit :=
  hits.map (fun h =>
    let lbl := upperS h.label
    let rc := baseRuleConf lbl
    { label := h.label, hstart := h.hstart, hstop := h.hstop, detector := h.detector,
      value := h.value, clevel := h.clevel, action := h.action, conf := rc,
      explanation := "rule " ++ (if lbl.data.isEmpty then "?" else lbl) ++
        " (base " ++ confFmt rc ++ ")" })

/-! ## Encryption model and receipts (`secureprompt/receipts/store.py`)

Fernet encryption is an external authenticated-encryption library; it is
modelled by an abstract pair of functions where decryption is a partial left
inverse of encryption (`decrypt_text` raises — here `none` — on any token
that is not a valid encryption). -/

/-- Abstract model of the Fernet cipher behind `encrypt_text`/`decrypt_text`. -/
structure Crypto where
  enc : String → String
  dec : String → Option String
  dec_enc : ∀ s, dec (enc s) = some s

/-- A trivially lawful cipher instance (used to witness satisfiability). -/
def idCrypto : Crypto := ⟨fun s => s, fun s => some s, fun _ => rfl⟩

/-- A receipt entity as `write_receipt` serialises it: stable metadata plus
the encrypted original value (`confidence_sources` is omitted as a duplicate
of `confidence`). -/
structure ReceiptEntity where
  identifier : String
  label : String
  detector : String
  clevel : Option String
  confidence : Nat
  span : Nat × Nat
  explanation : String
  originalEnc : String
deriving DecidableEq

/-- A pre-serialisation receipt entity, as the pipeline accumulates them
(`receipt_entities` in `scrub_text`): carries the raw original value. -/
structure RcptPre where
  identifier : String
  label : String
  detector : String
  clevel : String
  confidence : Nat
  span : Nat × Nat
  original : String
  action : String
  explanation : String
deriving DecidableEq

/-- The persisted receipt (`write_receipt`'s JSON), restricted to the fields
some claim reads: hashes, clearance, placeholder map, scrubbed text and the
entity list.  `created_at`, `filename`, `policy_version` and `receipt_path`
are opaque strings no claim touches. -/
structure Receipt where
  operationId : String
  originalHash : String
  scrubbedHash : String
  clevel : String
  placeholderMap : List (String × String)
  scrubbedText : String
  entities : List ReceiptEntity
deriving DecidableEq

/-- First-match lookup in an association-list model of a Python dict. -/
def lookupAL (m : List (String × String)) (k : String) : Option String :=
  (m.find? (fun p => p.1 == k)).map (fun p => p.2)

/-- Embedding of `write_receipt`: hash original and scrubbed text, encrypt
each entity's original value, and assemble the receipt record. -/
def writeReceipt (c : Crypto) (operationId text scrubbed : String)
    (entities : List RcptPre) (clevel : String)
    (placeholderMap : List (String × String)) : Receipt :=
  { operationId := operationId,
    originalHash := sha256Hex text,
    scrubbedHash := sha256Hex scrubbed,
    clevel := clevel,
    placeholderMap := placeholderMap,
    scrubbedText := scrubbed,
    entities := entities.map (fun e =>
      { identifier := e.identifier, label := e.label, detector := e.detector,
        clevel := some e.clevel, confidence := e.confidence, span := e.span,
        explanation := e.explanation, originalEnc := c.enc e.original }) }

/-! ## The scrub pipeline (`secureprompt/scrub/pipeline.py`) -/

/-- The `CLEARANCE_ORDER` table with the `.get(level, 1)` default. -/
def clearanceOrder (level : String) : Nat :=
  if level = "C1" then 1 else if level = "C2" then 2
  else if level = "C3" then 3 else if level = "C4" then 4 else 1

/-- The `ENTITY_DEFAULT_C_LEVEL` table, falling back to the requested tier. -/
def entityDefaultCLevel (label : String) (requested : String) : String :=
  if label = "EMAIL" then "C3"
  else if label = "PHONE" then "C4"
  else if label = "NAME" then "C3"
  else if label = "ADDRESS" then "C3"
  else if label = "PAN" then "C4"
  else if label = "CCV" then "C4"
  else if label = "EXPIRY_DATE" then "C4"
  else if label = "IBAN" then "C3"
  else if label = "PIN" then "C4"
  else if label = "PASSWORD" then "C4"
  else if label = "NATIONAL_ID" then "C4"
  else requested

/-- The hashing salt `_salt()` returns when `SECUREPROMPT_SALT` is unset:
the shipped default `"change-me"`. -/
def saltDefault : String := "change-me"

/-- Embedding of `_identifier`: `{c_level}::{label}::{sha256(salt+value)[:10]}`. -/
def identifierOf (label value clevel : String) : String :=
  clevel ++ "::" ++ label ++ "::" ++ ⟨(sha256HexChars (saltDefault ++ value).data).take 10⟩

/-- Embedding of `_mask_value`: asterisks preserving length, at least three. -/
def maskValue (value : String) : String := ⟨List.replicate (max value.data.length 3) '*'⟩

/-- A public entity of the scrub result: identifiers, metadata and an
optional mask preview — by construction it has no raw-value field. -/
structure PublicEntity where
  label : String
  span : Nat × Nat
  detector : String
  confidence : Nat
  clevel : String
  identifier : String
  action : String
  explanation : String
  maskPreview : Option String
deriving DecidableEq

/-- Python slice assignment `out[:s] + mid + out[e:]`. -/
def spliceL (out : List Char) (s e : Nat) (mid : List Char) : List Char :=
  out.take s ++ mid ++ out.drop e

/-- The descending-start processing order of `scrub_text`
(`sorted(hits, key=lambda x: x["start"], reverse=True)`, a stable sort). -/
def descByStart (a b : CHit) : Prop := b.hstart ≤ a.hstart

instance : DecidableRel descByStart := fun a b => by unfold descByStart; infer_instance

/-- One splice step of the scrub loop: replace `[start, end)` of the working
text by the hit's identifier and emit the public and receipt entity rows. -/
def scrubStep (requested : String) (st : List Char × List PublicEntity × List RcptPre)
    (hit : CHit) : List Char × List PublicEntity × List RcptPre :=
  let entityLevel := entityDefaultCLevel hit.label requested
  let ident := identifierOf hit.label hit.value entityLevel
  let defaultAction := if upperS entityLevel = "C1" ∨ upperS entityLevel = "C2" then "allow" else "mask"
  let action := if hit.action = "" then defaultAction else hit.action
  let maskPreview := if action = "mask" then some (maskValue hit.value) else none
  let out := spliceL st.1 hit.hstart hit.hstop ident.data
  let pe : PublicEntity :=
    { label := hit.label, span := (hit.hstart, hit.hstop), detector := hit.detector,
      confidence := hit.conf, clevel := entityLevel, identifier := ident, action := action,
      explanation := hit.explanation, maskPreview := maskPreview }
  let re : RcptPre :=
    { identifier := ident, label := hit.label, detector := hit.detector, clevel := entityLevel,
      confidence := hit.conf, span := (hit.hstart, hit.hstop), original := hit.value,
      action := action, explanation := hit.explanation }
  (out, st.2.1 ++ [pe], st.2.2 ++ [re])

/-- The `_sort_key` ordering of public entities: clearance rank descending,
confidence descending, then label and identifier ascending. -/
def pubLe (a b : PublicEntity) : Prop :=
  (let o1 := clearanceOrder (upperS (if a.clevel = "" then "C1" else a.clevel))
   let o2 := clearanceOrder (upperS (if b.clevel = "" then "C1" else b.clevel))
   if o1 = o2 then
     if a.confidence = b.confidence then
       if a.label = b.label then
         natListLt (a.identifier.data.map Char.toNat) (b.identifier.data.map Char.toNat) ||
           a.identifier == b.identifier
       else natListLt (a.label.data.map Char.toNat) (b.label.data.map Char.toNat)
     else b.confidence < a.confidence
   else o2 < o1 : Bool)

instance : DecidableRel pubLe := fun a b => by unfold pubLe; infer_instance

/-- The scrub result dictionary (`scrubbed_ids` duplicates `scrubbed` in the
source and is not repeated; the receipt value stands for the record behind
`receipt_path`).  `vaultItems` is the `vault_items` list handed to
`Vault.put_many`. -/
structure ScrubOutcome where
  originalHash : String
  scrubbed : String
  entities : List PublicEntity
  operationId : String
  receipt : Receipt
  vaultItems : List (String × String × String)
deriving DecidableEq

/-- Embedding of `scrub_text` (with the process-supplied operation id as a
parameter standing for `uuid4().hex`): detect, annotate confidence, splice
identifiers right-to-left by start offset, accumulate the public and receipt
entity lists, and persist the receipt. -/
def scrubText (c : Crypto) (operationId : String) (text : String)
    (clevel : String := "C3") : ScrubOutcome :=
  let hits := addConfidence (detect text)
  let hitsDesc := List.insertionSort descByStart hits
  let st := hitsDesc.foldl (scrubStep clevel) (text.data, [], [])
  let publicEntities := st.2.1.reverse
  let rcptEntities := st.2.2.reverse
  let publicSorted := List.insertionSort pubLe publicEntities
  let placeholderMap := publicEntities.map (fun e => (e.identifier, e.identifier))
  let vaultItems := (st.2.2.filter (fun e => e.identifier ≠ "" ∧ e.original ≠ "")).map
    (fun e => (e.identifier, e.label, e.original))
  let receipt := writeReceipt c operationId text ⟨st.1⟩ rcptEntities clevel placeholderMap
  { originalHash := sha256Hex text, scrubbed := ⟨st.1⟩, entities := publicSorted,
    operationId := operationId, receipt := receipt, vaultItems := vaultItems }

/-- Embedding of `scrub_text`'s persistence behaviour: the Vault write
(`Vault.put_many`) is wrapped in `try: ... except Exception: pass`, so a
vault failure is swallowed; the receipt write is not guarded, so its failure
aborts the call without a result.  `vaultOk`/`receiptOk` say whether the
respective write succeeds. -/
def scrubTextPersisted (c : Crypto) (operationId : String) (text : String)
    (clevel : String) (vaultOk receiptOk : Bool) : Option ScrubOutcome :=
  if receiptOk then some (scrubText c operationId text clevel) else none

/-! ## The descrub service (`secureprompt/receipts/descrub.py`) -/

/-- Embedding of `_rank`: a missing or empty clearance field and any string
outside the `_ORDER` table rank as 4 (most restrictive). -/
def rankLevel : Option String → Nat
  | none => 4
  | some l =>
    if l = "" then 4
    else
      let u := upperS l
      if u = "C1" then 1 else if u = "C2" then 2 else if u = "C3" then 3
      else if u = "C4" then 4 else 4

/-- The allow-list rejection test of the loop: with a normalised id set
present, an identifier outside it is rejected; with none, nothing is. -/
def idsRejects (idsSet : Option (List String)) (ident : String) : Bool :=
  match idsSet with
  | some l => !(l.contains ident)
  | none => false

/-- The loop body of `descrub_text` over the receipt entities. -/
def descrubGo (c : Crypto) (placeholderMap : List (String × String))
    (idsSet : Option (List String)) (clearanceRank : Nat) :
    List Char → List ReceiptEntity → List Char
  | res, [] => res
  | res, e :: rest =>
    if e.identifier = "" then descrubGo c placeholderMap idsSet clearanceRank res rest
    else if idsRejects idsSet e.identifier then
      descrubGo c placeholderMap idsSet clearanceRank res rest
    else if clearanceRank < rankLevel e.clevel then
      descrubGo c placeholderMap idsSet clearanceRank res rest
    else
      match c.dec e.originalEnc with
      | none => descrubGo c placeholderMap idsSet clearanceRank res rest
      | some original =>
        let token := (lookupAL placeholderMap e.identifier).getD e.identifier
        descrubGo c placeholderMap idsSet clearanceRank
          (replaceOnceL res token.data original.data) rest

/-- Normalisation of the `ids` argument of `descrub_text`
(`set(ids) if ids else None`): an absent or empty list admits everything. -/
def normIds (ids : Option (List String)) : Option (List String) :=
  match ids with
  | none => none
  | some l => if l.isEmpty then none else some l

/-- Embedding of `descrub_text`: replace, once each and in receipt order, the
placeholder of every entity that the id allow-list admits and whose tier is
within the requester's clearance, skipping entities that fail to decrypt.
An empty or absent `ids` admits every identifier. -/
def descrubText (c : Crypto) (scrubbedText : String) (receipt : Receipt)
    (clearance : String) (ids : Option (List String) := none) : String :=
  let idsSet : Option (List String) := normIds ids
  let clearanceRank := rankLevel (some clearance)
  ⟨descrubGo c receipt.placeholderMap idsSet clearanceRank scrubbedText.data receipt.entities⟩

end Secureprompt

namespace Secureprompt

/-! ## The audit log (`secureprompt/audit/log.py`)

`append` stamps a timestamp, links to the previous record's hash, and hashes
the canonical JSON serialisation of the record-without-hash prepended by the
previous hash.  The canonical serialisation (`json.dumps(obj, sort_keys=True,
separators=(",", ":"))`, `ensure_ascii` on) is embedded concretely; the hash
function is a parameter `H` instantiated with `sha256Hex` where concrete
values are computed, and constrained only by injectivity where
collision-resistance is the needed cryptographic property. -/

/-- An event as callers pass it to `append` (`{"event": ..,
"operation_id": ..}` plus the stamped timestamp). -/
structure AuditEvent where
  event : String
  operationId : String
  ts : String
deriving DecidableEq

/-- A stored audit record: the event fields enriched with `prev_hash` and
`hash` exactly as `append` writes them. -/
structure AuditRecord where
  event : String
  operationId : String
  ts : String
  prevHash : Option String
  hash : String
deriving DecidableEq

/-- Four hex characters of `n < 0x10000`, lower case (Python `"%04x"`). -/
def hex4 (n : Nat) : List Char :=
  [hexDigit (n / 4096 % 16), hexDigit (n / 256 % 16), hexDigit (n / 16 % 16), hexDigit (n % 16)]

/-- Python `json` escaping of one character with `ensure_ascii`: the two
self-escapes, the five named control escapes, `\uXXXX` for other control or
non-ASCII characters, and a surrogate pair beyond the basic plane. -/
def pyEsc (c : Char) : List Char :=
  if c = '"' then ['\\', '"']
  else if c = '\\' then ['\\', '\\']
  else if c = '\x08' then ['\\', 'b']
  else if c = '\x09' then ['\\', 't']
  else if c = '\x0a' then ['\\', 'n']
  else if c = '\x0c' then ['\\', 'f']
  else if c = '\x0d' then ['\\', 'r']
  else if 32 ≤ c.toNat ∧ c.toNat ≤ 126 then [c]
  else if c.toNat < 65536 then '\\' :: 'u' :: hex4 c.toNat
  else
    let m := c.toNat - 65536
    '\\' :: 'u' :: hex4 (55296 + m / 1024) ++ '\\' :: 'u' :: hex4 (56320 + m % 1024)

/-- A JSON string literal: quote, escaped characters, quote. -/
def jstr (s : String) : List Char := '"' :: s.data.flatMap pyEsc ++ ['"']

/-- A JSON string-or-null for the optional previous hash. -/
def jopt : Option String → List Char
  | none => ['n', 'u', 'l', 'l']
  | some s => jstr s

/-- The canonical serialisation `_canon` of a record without its `hash`
field: keys sorted (`event`, `operation_id`, `prev_hash`, `ts`), compact
separators. -/
def canonNoHash (r : AuditRecord) : List Char :=
  '\x7b' :: ("\"event\":").data ++ jstr r.event ++
    (",\"operation_id\":").data ++ jstr r.operationId ++
    (",\"prev_hash\":").data ++ jopt r.prevHash ++
    (",\"ts\":").data ++ jstr r.ts ++ ['\x7d']

/-- The `_chain_hash` input: `(prev or "") + "\n" + canon(event)`. -/
def chainInput (prev : Option String) (canonStr : List Char) : String :=
  ⟨(prev.getD "").data ++ '\n' :: canonStr⟩

/-- Embedding of `append`: stamp the event, link `prev_hash` to the last
record's hash (`None` on an empty log), compute
`hash = H(prev ‖ "\n" ‖ canon(record-without-hash))`, and append. -/
def appendLog (H : String → String) (chain : List AuditRecord) (e : AuditEvent) :
    List AuditRecord :=
  let prev := (chain.getLast?).map (fun r => r.hash)
  let pre : AuditRecord :=
    { event := e.event, operationId := e.operationId, ts := e.ts, prevHash := prev, hash := "" }
  let h := H (chainInput prev (canonNoHash pre))
  chain ++ [{ pre with hash := h }]

/-- The audit log built by a sequence of `append` calls from an empty log. -/
def buildLog (H : String → String) (events : List AuditEvent) : List AuditRecord :=
  events.foldl (appendLog H) []

/-- Modelled from the spec: the repository stores the chain but ships no
verifier; §8 prescribes "recomputing `hash` for every stored record from
`prev_hash` and `payload` matches the stored `hash`" together with the §3
link invariant "`prev_hash` of record `n` equals `hash` of record `n−1`".
One record's check: recomputation of its hash from its own stored fields,
and the link to its predecessor. -/
def recordOk (H : String → String) (prev : Option String) (r : AuditRecord) : Bool :=
  r.hash == H (chainInput r.prevHash (canonNoHash r)) && r.prevHash == prev

/-- Modelled from the spec: whole-chain verification, checking every record
against its predecessor (genesis links to `None`). -/
def chainOkGo (H : String → String) : Option String → List AuditRecord → Bool
  | _, [] => true
  | prev, r :: rest => recordOk H prev r && chainOkGo H (some r.hash) rest

/-- Modelled from the spec: verification of a stored chain from genesis. -/
def chainOk (H : String → String) (rs : List AuditRecord) : Bool := chainOkGo H none rs

/-! ## The phase-1 strategy validator (`src/strategies/regex_strategy.py`) -/

/-- Decimal digits of the code `str(ord(c) - ord('A') + 10)` for the
characters the IBAN pattern admits (codes below 100). -/
def letterCode (n : Nat) : List Nat := if n < 10 then [n] else [n / 10 % 10, n % 10]

/-- Embedding of `RegexStrategy._validate_iban`: strip spaces and hyphens,
bound the length to 15–34, rotate the first four characters to the end, map
letters to two-digit codes (`A` ↦ 10 … `Z` ↦ 35), read the digit string as a
decimal number, and test `% 97 == 1`. -/
def validateIban (iban : String) : Bool :=
  let s := iban.data.filter (fun c => !(c == ' ') && !(c == '-'))
  if s.length < 15 || 34 < s.length then false
  else
    let rearranged := s.drop 4 ++ s.take 4
    let numeric := rearranged.flatMap
      (fun c => if isDigitC c then [digitVal c] else letterCode (c.toNat - 55))
    let value := numeric.foldl (fun acc d => acc * 10 + d) 0
    value % 97 == 1

/-! ## Specification-side definitions

Named `spec...`, these follow the wording of the specification rather than
any source function, for the refinement comparisons the claims call for. -/

/-- Following the spec's words: the ISO 7064 mod-97 value of an IBAN — first
four characters rotated to the end, letters mapped `A=10 … Z=35`, the
resulting decimal numeral reduced modulo 97. -/
def specMod97 (s : List Char) : Nat :=
  ((s.drop 4 ++ s.take 4).foldl
    (fun acc c => if isDigitC c then acc * 10 + digitVal c else acc * 100 + (c.toNat - 55)) 0) % 97

/-- Following the spec's words: the Luhn checksum — walking from the
rightmost digit leftwards, double every second digit (reducing by 9 above
9), and sum. `dbl` says whether the current (leftmost-processed) position is
doubled; the rightmost digit is not. -/
def specLuhnGo (dbl : Bool) : List Nat → Nat
  | [] => 0
  | d :: rest =>
    (if dbl then (if d * 2 > 9 then d * 2 - 9 else d * 2) else d) + specLuhnGo (!dbl) rest

/-- Following the spec's words: the Luhn checksum of a digit sequence,
reduced modulo 10 (a valid PAN has checksum 0). -/
def specLuhn (ds : List Nat) : Nat := specLuhnGo false ds.reverse % 10

end Secureprompt

namespace Secureprompt

/-! ## Further specification-side definitions used by the claims -/

/-- Lower-case hexadecimal digit character. -/
def isHexChar (c : Char) : Bool :=
  (48 ≤ c.toNat && c.toNat ≤ 57) || (97 ≤ c.toNat && c.toNat ≤ 102)

/-- Following the spec's words: whether `s` matches the identifier pattern
`{tier}::{label}::[0-9a-f]{10}` exactly. -/
def matchesIdPattern (tier label s : String) : Bool :=
  let pre := (tier ++ "::" ++ label ++ "::").data
  startsWithL pre s.data &&
    (s.data.drop pre.length).length == 10 && (s.data.drop pre.length).all isHexChar

/-- The inclusion test of the `descrub_text` loop, as one predicate: the
entity has an identifier, the (normalised) allow-list admits it, and its
rank is within the requester's clearance. -/
def allowedEntity (clearanceRank : Nat) (idsSet : Option (List String))
    (e : ReceiptEntity) : Bool :=
  !(e.identifier == "") && !(idsRejects idsSet e.identifier) &&
    !(clearanceRank < rankLevel e.clevel)

/-- A receipt clearance field that is absent, empty, or not one of `C1..C4`
(up to case): the situations claim C10 calls invalid. -/
def invalidTier : Option String → Bool
  | none => true
  | some s =>
    s == "" ||
      (!(upperS s == "C1") && !(upperS s == "C2") && !(upperS s == "C3") && !(upperS s == "C4"))

/-- The string of a digit sequence. -/
def digitStr (ds : List Nat) : String := ⟨ds.map digitChar⟩

/-- Following the spec's words: the scrubbed text as the original with each
detected span `[s, e)` replaced, left to right, by its identifier — the
segments of `t` between consecutive spans interleaved with the identifiers. -/
def scrubSegments (t : List Char) : Nat → List (Nat × Nat × String) → List Char
  | prevEnd, [] => t.drop prevEnd
  | prevEnd, (s, e, ident) :: rest => sliceL t prevEnd s ++ ident.data ++ scrubSegments t e rest

/-- Syntactic check that every successful match of a regex consumes at least
one character. -/
def consumesRE : RE → Bool
  | .eps => false
  | .cls _ => true
  | .seq a b => consumesRE a || consumesRE b
  | .alt a b => consumesRE a && consumesRE b
  | .rep lo _ r => 0 < lo && consumesRE r
  | .star _ => false
  | .opt _ => false
  | .wb => false
  | .grp _ r => consumesRE r
  | .lbn _ _ => false

/-- Syntactic check that every capture group in the regex has a consuming
body (so every reported group span is non-empty). -/
def capsConsume : RE → Bool
  | .eps => true
  | .cls _ => true
  | .seq a b => capsConsume a && capsConsume b
  | .alt a b => capsConsume a && capsConsume b
  | .rep _ _ r => capsConsume r
  | .star r => capsConsume r
  | .opt r => capsConsume r
  | .wb => true
  | .grp _ r => consumesRE r && capsConsume r
  | .lbn _ _ => true

/-! ## A parser inverting the canonical JSON serialisation

Used to prove the canonical serialisation of audit records injective: a
decoder that, on every output of `canonNoHash`, recovers the record.  The
escape decoder mirrors `pyEsc` case by case. -/

/-- Numeric value of a lower-case hexadecimal digit character. -/
def hexVal (c : Char) : Nat :=
  if c.toNat ≤ 57 then c.toNat - 48 else c.toNat - 87

/-- Decode four hex characters. -/
def unhex4 (a b c d : Char) : Nat :=
  ((hexVal a * 16 + hexVal b) * 16 + hexVal c) * 16 + hexVal d

/-- Decode one escaped or plain character at the head of the input; returns
the character and the remaining input.  Surrogate pairs are recombined. -/
def parseEsc : List Char → Option (Char × List Char)
  | '\\' :: '"' :: rest => some ('"', rest)
  | '\\' :: '\\' :: rest => some ('\\', rest)
  | '\\' :: 'b' :: rest => some ('\x08', rest)
  | '\\' :: 't' :: rest => some ('\x09', rest)
  | '\\' :: 'n' :: rest => some ('\x0a', rest)
  | '\\' :: 'f' :: rest => some ('\x0c', rest)
  | '\\' :: 'r' :: rest => some ('\x0d', rest)
  | '\\' :: 'u' :: a :: b :: c :: d :: rest =>
    let n := unhex4 a b c d
    if 55296 ≤ n ∧ n ≤ 56319 then
      match rest with
      | '\\' :: 'u' :: a2 :: b2 :: c2 :: d2 :: rest2 =>
        let m := unhex4 a2 b2 c2 d2
        some (Char.ofNat (65536 + (n - 55296) * 1024 + (m - 56320)), rest2)
      | _ => none
    else
      if n < 55296 ∨ 57343 < n then some (Char.ofNat n, rest)
      else none
  | '\\' :: _ => none
  | '"' :: _ => none
  | c :: rest => some (c, rest)
  | [] => none

/-- Decode a JSON string body up to its closing quote; `fuel` bounds the
recursion by the input length. -/
def parseStrAux : Nat → List Char → Option (List Char × List Char)
  | 0, _ => none
  | _, '"' :: rest => some ([], rest)
  | fuel + 1, input =>
    match parseEsc input with
    | none => none
    | some (c, rest) =>
      match parseStrAux fuel rest with
      | none => none
      | some (s, rest2) => some (c :: s, rest2)

/-- Decode a JSON string literal (opening quote onwards). -/
def parseJStr (input : List Char) : Option (List Char × List Char) :=
  match input with
  | '"' :: rest => parseStrAux (rest.length + 1) rest
  | _ => none

/-- Decode `null` or a string literal. -/
def parseJOpt (input : List Char) : Option (Option (List Char) × List Char) :=
  match input with
  | 'n' :: 'u' :: 'l' :: 'l' :: rest => some (none, rest)
  | _ =>
    match parseJStr input with
    | some (s, rest) => some (some s, rest)
    | none => none

/-- Drop an expected literal prefix. -/
def expectL (pre : List Char) (input : List Char) : Option (List Char) :=
  if startsWithL pre input then some (input.drop pre.length) else none

/-- Decode the output of `canonNoHash` back into its four fields. -/
def parseCanon (input : List Char) : Option (String × String × Option String × String) :=
  match expectL ('\x7b' :: ("\"event\":").data) input with
  | none => none
  | some i1 =>
    match parseJStr i1 with
    | none => none
    | some (ev, i2) =>
      match expectL ((",\"operation_id\":").data) i2 with
      | none => none
      | some i3 =>
        match parseJStr i3 with
        | none => none
        | some (op, i4) =>
          match expectL ((",\"prev_hash\":").data) i4 with
          | none => none
          | some i5 =>
            match parseJOpt i5 with
            | none => none
            | some (ph, i6) =>
              match expectL ((",\"ts\":").data) i6 with
              | none => none
              | some i7 =>
                match parseJStr i7 with
                | none => none
                | some (ts, i8) =>
                  if i8 = ['\x7d'] then some (⟨ev⟩, ⟨op⟩, ph.map (fun l => ⟨l⟩), ⟨ts⟩)
                  else none

/-- Decoder for one `pyEsc`-escaped character, written with explicit head
and drop accesses; a proof device used to invert the canonical
serialisation. -/
def unescOne (l : List Char) : Option (Char × List Char) :=
  if l.headI = '"' then none
  else if l.headI = '\\' then
    if l.tail.headI = '"' then some ('"', l.drop 2)
    else if l.tail.headI = '\\' then some ('\\', l.drop 2)
    else if l.tail.headI = 'b' then some ('\x08', l.drop 2)
    else if l.tail.headI = 't' then some ('\x09', l.drop 2)
    else if l.tail.headI = 'n' then some ('\x0a', l.drop 2)
    else if l.tail.headI = 'f' then some ('\x0c', l.drop 2)
    else if l.tail.headI = 'r' then some ('\x0d', l.drop 2)
    else if 55296 ≤ unhex4 ((l.drop 2).headI) ((l.drop 3).headI) ((l.drop 4).headI)
          ((l.drop 5).headI) ∧
        unhex4 ((l.drop 2).headI) ((l.drop 3).headI) ((l.drop 4).headI) ((l.drop 5).headI)
          ≤ 56319 then
      some (Char.ofNat (65536 +
        (unhex4 ((l.drop 2).headI) ((l.drop 3).headI) ((l.drop 4).headI) ((l.drop 5).headI)
          - 55296) * 1024 +
        (unhex4 ((l.drop 8).headI) ((l.drop 9).headI) ((l.drop 10).headI) ((l.drop 11).headI)
          - 56320)), l.drop 12)
    else
      some (Char.ofNat (unhex4 ((l.drop 2).headI) ((l.drop 3).headI) ((l.drop 4).headI)
        ((l.drop 5).headI)), l.drop 6)
  else some (l.headI, l.drop 1)

/-- The hash a chain verifier expects record `k` to link to: the stored
hash of record `k-1`, or the genesis link `prev` for the first record. -/
def prevAt (prev : Option String) (rs : List AuditRecord) : Nat → Option String
  | 0 => prev
  | k + 1 => (rs.get? k).map (fun x => x.hash)

/-- The link the next appended record must carry after `xs`, for a chain
starting at `prev`. -/
def linkOf (prev : Option String) : List AuditRecord → Option String
  | [] => prev
  | x :: xs => linkOf (some x.hash) xs

/-- An injective stand-in hash: prefix the input with a marker character. -/
def hashSharp (s : String) : String := ⟨'#' :: s.data⟩

/-- Luhn contribution sum from index `i`, doubling positions whose index has
parity `P` (proof bridge between the source's `enumerate` loop and the
spec's right-to-left description). -/
def luhnSum (P : Nat) : Nat → List Nat → Nat
  | _, [] => 0
  | i, d :: r =>
    (if i % 2 = P then (if d * 2 > 9 then d * 2 - 9 else d * 2) else d) + luhnSum P (i + 1) r

/-- Syntactic fixed consumption width of a regex: `some w` only when every
successful match consumes exactly `w` characters. -/
def fixedWidth : RE → Option Nat
  | .eps => some 0
  | .cls _ => some 1
  | .seq a b =>
    match fixedWidth a, fixedWidth b with
    | some x, some y => some (x + y)
    | _, _ => none
  | .alt a b =>
    match fixedWidth a, fixedWidth b with
    | some x, some y => if x = y then some x else none
    | _, _ => none
  | .rep lo hi r => if lo = hi then (fixedWidth r).map (fun w => lo * w) else none
  | .star _ => none
  | .opt _ => none
  | .wb => some 0
  | .grp _ r => fixedWidth r
  | .lbn _ _ => some 0

/-- The identifier `scrub_text` assigns to a detected hit. -/
def scrubIdentOf (requested : String) (h : CHit) : String :=
  identifierOf h.label h.value (entityDefaultCLevel h.label requested)

/-- The public entity row `scrub_text` emits for a detected hit. -/
def pubOf (requested : String) (h : CHit) : PublicEntity :=
  let entityLevel := entityDefaultCLevel h.label requested
  let ident := identifierOf h.label h.value entityLevel
  let defaultAction :=
    if upperS entityLevel = "C1" ∨ upperS entityLevel = "C2" then "allow" else "mask"
  let action := if h.action = "" then defaultAction else h.action
  { label := h.label, span := (h.hstart, h.hstop), detector := h.detector,
    confidence := h.conf, clevel := entityLevel, identifier := ident, action := action,
    explanation := h.explanation,
    maskPreview := if action = "mask" then some (maskValue h.value) else none }

end Secureprompt

namespace Secureprompt

/-! ## Lemmas about the descrub loop -/

/-- The empty entity list leaves the text unchanged. -/
theorem descrubGo_nil (c : Crypto) (pm : List (String × String)) (ids : Option (List String))
    (cr : Nat) (res : List Char) : descrubGo c pm ids cr res [] = res := rfl

/-- A skipped entity (no identifier, rejected by the allow-list, above the
clearance, or failing decryption) does not change the loop state. -/
theorem descrubGo_cons_skip (c : Crypto) (pm : List (String × String))
    (ids : Option (List String)) (cr : Nat) (res : List Char) (e : ReceiptEntity)
    (rest : List ReceiptEntity)
    (h : e.identifier = "" ∨ idsRejects ids e.identifier = true ∨
         cr < rankLevel e.clevel ∨ c.dec e.originalEnc = none) :
    descrubGo c pm ids cr res (e :: rest) = descrubGo c pm ids cr res rest := by
  conv_lhs => rw [descrubGo.eq_2]
  by_cases h1 : e.identifier = ""
  · rw [if_pos h1]
  · rw [if_neg h1]
    by_cases h2 : idsRejects ids e.identifier = true
    · rw [if_pos h2]
    · rw [if_neg h2]
      by_cases h3 : cr < rankLevel e.clevel
      · rw [if_pos h3]
      · rw [if_neg h3]
        have h4 : c.dec e.originalEnc = none := by tauto
        rw [h4]

/-- An admitted, decryptable entity replaces the first occurrence of its
placeholder token and the loop continues. -/
theorem descrubGo_cons_subst (c : Crypto) (pm : List (String × String))
    (ids : Option (List String)) (cr : Nat) (res : List Char) (e : ReceiptEntity)
    (rest : List ReceiptEntity) (orig : String)
    (ha : allowedEntity cr ids e = true) (hdec : c.dec e.originalEnc = some orig) :
    descrubGo c pm ids cr res (e :: rest) =
      descrubGo c pm ids cr
        (replaceOnceL res ((lookupAL pm e.identifier).getD e.identifier).data orig.data) rest := by
  unfold allowedEntity at ha
  simp only [Bool.and_eq_true, Bool.not_eq_true'] at ha
  obtain ⟨⟨h1, h2⟩, h3⟩ := ha
  have h1p : ¬ (e.identifier = "") := by simpa using h1
  have h2p : ¬ (idsRejects ids e.identifier = true) := by rw [h2]; simp
  have h3p : ¬ (cr < rankLevel e.clevel) := by simpa using h3
  conv_lhs => rw [descrubGo.eq_2]
  rw [if_neg h1p, if_neg h2p, if_neg h3p, hdec]

/-- Rejected entities contribute nothing: the descrub loop equals the loop
over the allowed sublist. -/
theorem descrubGo_filter (c : Crypto) (pm : List (String × String))
    (ids : Option (List String)) (cr : Nat) (res : List Char)
    (l : List ReceiptEntity) :
    descrubGo c pm ids cr res l =
      descrubGo c pm ids cr res (l.filter (allowedEntity cr ids)) := by
  induction l generalizing res with
  | nil => rfl
  | cons e rest ih =>
    by_cases ha : allowedEntity cr ids e = true
    · rw [List.filter_cons_of_pos ha]
      cases hdec : c.dec e.originalEnc with
      | none =>
        rw [descrubGo_cons_skip c pm ids cr res e rest (by tauto),
          descrubGo_cons_skip c pm ids cr res e _ (by tauto)]
        exact ih res
      | some orig =>
        rw [descrubGo_cons_subst c pm ids cr res e rest orig ha hdec,
          descrubGo_cons_subst c pm ids cr res e _ orig ha hdec]
        exact ih _
    · have ha' : allowedEntity cr ids e = false := by simpa using ha
      unfold allowedEntity at ha'
      have hcases : e.identifier = "" ∨ idsRejects ids e.identifier = true ∨
          cr < rankLevel e.clevel ∨ c.dec e.originalEnc = none := by
        simp only [Bool.and_eq_false_iff, Bool.not_eq_false', Bool.not_eq_true'] at ha'
        rcases ha' with (h1 | h2) | h3
        · exact Or.inl (by simpa using h1)
        · exact Or.inr (Or.inl h2)
        · exact Or.inr (Or.inr (Or.inl (by simpa using h3)))
      rw [List.filter_cons_of_neg (by simpa using ha),
        descrubGo_cons_skip c pm ids cr res e rest hcases]
      exact ih res

end Secureprompt

namespace Secureprompt

/-- C3: for every clearance, receipt, scrubbed text and id allow-list,
`descrub_text` never substitutes the original of a receipt entity whose tier
exceeds the requester's clearance — the output equals the descrub of the
receipt restricted to the admitted entities, and every admitted entity has
rank at most the requester's and (when an allow-list is given) an identifier
it contains. -/
theorem C3_clearance_gating (c : Crypto) (s : String) (r : Receipt) (X : String)
    (ids : Option (List String)) :
    descrubText c s r X ids =
      descrubText c s
        { r with entities := r.entities.filter (allowedEntity (rankLevel (some X)) (normIds ids)) }
        X ids ∧
    ∀ e ∈ r.entities.filter (allowedEntity (rankLevel (some X)) (normIds ids)),
      rankLevel e.clevel ≤ rankLevel (some X) ∧
        ∀ l, normIds ids = some l → e.identifier ∈ l := by
  constructor
  · exact congrArg String.mk
      (descrubGo_filter c r.placeholderMap (normIds ids) (rankLevel (some X)) s.data r.entities)
  · intro e he
    have ha := (List.mem_filter.mp he).2
    unfold allowedEntity at ha
    simp only [Bool.and_eq_true, Bool.not_eq_true'] at ha
    obtain ⟨⟨h1, h2⟩, h3⟩ := ha
    constructor
    · simpa using h3
    · intro l hl
      unfold idsRejects at h2
      rw [hl] at h2
      simpa using h2

/-- C10: a receipt entity whose clearance field is absent, empty, or not one
of `C1..C4` ranks as 4 (most restrictive); for any requester clearance among
`C1..C3` such an entity is never admitted — descrub equals descrub over the
admitted entities, a set excluding it — and at clearance `C4` it is admitted
exactly when it has an identifier the allow-list does not reject. -/
theorem C10_invalid_tier_most_restrictive (c : Crypto) (s : String) (r : Receipt)
    (ids : Option (List String)) (e : ReceiptEntity) (X : String)
    (hinv : invalidTier e.clevel = true)
    (hX : X = "C1" ∨ X = "C2" ∨ X = "C3") :
    rankLevel e.clevel = 4 ∧
    descrubText c s r X ids =
      descrubText c s
        { r with entities := r.entities.filter (allowedEntity (rankLevel (some X)) (normIds ids)) }
        X ids ∧
    allowedEntity (rankLevel (some X)) (normIds ids) e = false ∧
    allowedEntity (rankLevel (some ("C4"))) (normIds ids) e =
      (!(e.identifier == "") && !(idsRejects (normIds ids) e.identifier)) := by
  have hrank : rankLevel e.clevel = 4 := by
    cases hcl : e.clevel with
    | none => rfl
    | some lv =>
      rw [hcl] at hinv
      unfold invalidTier at hinv
      simp only [rankLevel]
      by_cases h0 : lv = ""
      · rw [if_pos h0]
      · rw [if_neg h0]
        have hb : (!(upperS lv == "C1") && !(upperS lv == "C2") &&
            !(upperS lv == "C3") && !(upperS lv == "C4")) = true := by
          rcases Bool.or_eq_true_iff.mp hinv with h | h
          · exact absurd (by simpa using h) h0
          · exact h
        have h1 : ¬ (upperS lv = "C1") := by intro hc; rw [hc] at hb; simp at hb
        have h2 : ¬ (upperS lv = "C2") := by intro hc; rw [hc] at hb; simp at hb
        have h3 : ¬ (upperS lv = "C3") := by intro hc; rw [hc] at hb; simp at hb
        have h4 : ¬ (upperS lv = "C4") := by intro hc; rw [hc] at hb; simp at hb
        rw [if_neg h1, if_neg h2, if_neg h3, if_neg h4]
  have hXr : rankLevel (some X) < 4 := by
    rcases hX with h | h | h <;> rw [h] <;> decide
  refine ⟨hrank, ?_, ?_, ?_⟩
  · exact congrArg String.mk
      (descrubGo_filter c r.placeholderMap (normIds ids) (rankLevel (some X)) s.data r.entities)
  · unfold allowedEntity
    rw [hrank]
    have : (rankLevel (some X) < 4) = True := by simp [hXr]
    simp [hXr]
  · unfold allowedEntity
    rw [hrank]
    simp [rankLevel, upperS, asciiUpper]

/-- Witness for C10 at a concrete invalid-tier entity and clearance `C1`. -/
theorem C10_witness :
    invalidTier (some ("classified")) = true ∧
    (rankLevel (some ("classified")) = 4 ∧
     descrubText idCrypto ("text") ⟨"op", "h1", "h2", "C3", [],
        "text", [⟨"id1", "L", "d", some ("classified"), 90, (0, 1), "x", "v"⟩]⟩ ("C1") none =
       descrubText idCrypto ("text") ⟨"op", "h1", "h2", "C3", [], "text",
          ([⟨"id1", "L", "d", some ("classified"), 90, (0, 1), "x", "v"⟩].filter
            (allowedEntity (rankLevel (some ("C1"))) (normIds none)))⟩ ("C1") none ∧
     allowedEntity (rankLevel (some ("C1"))) (normIds none)
        ⟨"id1", "L", "d", some ("classified"), 90, (0, 1), "x", "v"⟩ = false ∧
     allowedEntity (rankLevel (some ("C4"))) (normIds none)
        ⟨"id1", "L", "d", some ("classified"), 90, (0, 1), "x", "v"⟩ =
       (!(("id1" : String) == "") && !(idsRejects (normIds none) ("id1")))) := by
  refine ⟨by decide, ?_⟩
  exact C10_invalid_tier_most_restrictive idCrypto ("text")
    ⟨"op", "h1", "h2", "C3", [], "text", [⟨"id1", "L", "d", some ("classified"), 90, (0, 1), "x", "v"⟩]⟩
    none ⟨"id1", "L", "d", some ("classified"), 90, (0, 1), "x", "v"⟩ ("C1")
    (by decide) (Or.inl rfl)

end Secureprompt

namespace Secureprompt

/-- C5: if the Vault write fails, `scrub_text` still returns the full
success result (its `put_many` call sits in `try: ... except Exception:
pass`), with scrubbed text and a non-empty vault item list that was never
persisted; only a receipt-write failure aborts the operation. -/
theorem C5_vault_failure_swallowed (c : Crypto) (op : String) :
    scrubTextPersisted c op ("IBAN BE68 5390 0754 7034") ("C3") false true =
      some (scrubText c op ("IBAN BE68 5390 0754 7034") ("C3")) ∧
    (scrubText c op ("IBAN BE68 5390 0754 7034") ("C3")).scrubbed = "C3::IBAN::e8e2f50808" ∧
    (scrubText c op ("IBAN BE68 5390 0754 7034") ("C3")).vaultItems =
      [("C3::IBAN::e8e2f50808", "IBAN", "BE68 5390 0754 7034")] ∧
    (∀ vaultOk : Bool,
      scrubTextPersisted c op ("IBAN BE68 5390 0754 7034") ("C3") vaultOk false = none) :=
  ⟨rfl, rfl, rfl, fun _ => rfl⟩

end Secureprompt

namespace Secureprompt

/-- Unfolding equation for `descrub_text`. -/
theorem descrubText_eq (c : Crypto) (s : String) (r : Receipt) (X : String)
    (ids : Option (List String)) :
    descrubText c s r X ids =
      ⟨descrubGo c r.placeholderMap (normIds ids) (rankLevel (some X)) s.data r.entities⟩ := rfl

/-- C1 counterexample: on `"approved approvedX"` the pipeline detects the
STATUS value `"approved"` (span `[0, 8)`), yet the scrubbed text still
contains the byte-exact substring `"approved"` inside the undetected word
`"approvedX"` — the claim's universal no-raw-substring property is false. -/
theorem C1_counterexample :
    (detect ("approved approvedX")).map (fun h => (h.label, h.value, h.hstart, h.hstop)) =
      [("STATUS", "approved", 0, 8)] ∧
    (scrubText idCrypto ("op1") ("approved approvedX") ("C3")).scrubbed =
      "C3::STATUS::3a07b1833f approvedX" ∧
    containsS (scrubText idCrypto ("op1") ("approved approvedX") ("C3")).scrubbed
      ("approved") = true := by
  refine ⟨by decide, by decide, by decide⟩

/-- C6 counterexample: `"BE00 1234 5678 9012"` matches the IBAN surface
pattern and fails the mod-97 check (the `RegexStrategy` validator rejects
it), yet the pipeline's IBAN detector emits an IBAN entity for it. -/
theorem C6_counterexample :
    (detect ("BE00 1234 5678 9012")).map (fun h => (h.label, h.value)) =
      [("IBAN", "BE00 1234 5678 9012")] ∧
    validateIban ("BE00 1234 5678 9012") = false ∧
    specMod97 (("BE00123456789012").data) = 45 := by
  refine ⟨by decide, by decide, by decide⟩

/-- C7 counterexample: the thirteen-zero digit sequence has Luhn checksum
zero and length 13, yet the detector set emits no PAN entity for it — the
PAN surface regex requires at least 14 digits. -/
theorem C7_counterexample :
    specLuhn (List.replicate 13 0) = 0 ∧
    (List.replicate 13 0).length = 13 ∧
    (detect (digitStr (List.replicate 13 0))).filter (fun h => h.label == "PAN") = [] := by
  refine ⟨by decide, by decide, by decide⟩

end Secureprompt

namespace Secureprompt

/-- C2 failing input: `_pass_iban` replaces the full match span — which
swallows the `"IBAN "` context prefix — but stores only capture group 1 as
the original value, so descrubbing the scrub of
`"IBAN BE68 5390 0754 7034"` at full clearance with all ids returns
`"BE68 5390 0754 7034"`: the `"IBAN "` prefix is lost and the round trip
fails on the code, for every lawful cipher. -/
theorem C2_roundtrip_fails (c : Crypto) (op : String) :
    descrubText c (scrubText c op ("IBAN BE68 5390 0754 7034") ("C3")).scrubbed
        (scrubText c op ("IBAN BE68 5390 0754 7034") ("C3")).receipt ("C4") none =
      "BE68 5390 0754 7034" ∧
    ("BE68 5390 0754 7034" : String) ≠ "IBAN BE68 5390 0754 7034" := by
  constructor
  · have hents : (scrubText c op ("IBAN BE68 5390 0754 7034") ("C3")).receipt.entities =
        [⟨"C3::IBAN::e8e2f50808", "IBAN", "IBAN_generic", some ("C3"), 99, (0, 24),
          "rule IBAN (base 0.99)", c.enc ("BE68 5390 0754 7034")⟩] := rfl
    have hpm : (scrubText c op ("IBAN BE68 5390 0754 7034") ("C3")).receipt.placeholderMap =
        [("C3::IBAN::e8e2f50808", "C3::IBAN::e8e2f50808")] := rfl
    have hscr : (scrubText c op ("IBAN BE68 5390 0754 7034") ("C3")).scrubbed =
        "C3::IBAN::e8e2f50808" := rfl
    rw [descrubText_eq, hents, hpm, hscr]
    rw [show normIds none = none from rfl]
    have hall : allowedEntity (rankLevel (some ("C4"))) none
        ⟨"C3::IBAN::e8e2f50808", "IBAN", "IBAN_generic", some ("C3"), 99, (0, 24),
          "rule IBAN (base 0.99)", c.enc ("BE68 5390 0754 7034")⟩ = true := rfl
    rw [descrubGo_cons_subst c _ none _ _ _ _ ("BE68 5390 0754 7034") hall
      (c.dec_enc ("BE68 5390 0754 7034"))]
    rw [descrubGo_nil]
    rfl
  · decide

end Secureprompt

namespace Secureprompt

/-- C9: scrubbing `"Email a@b.com; Card 4111 1111 1111 1111"` at requested
tier C3 yields the email identifier `C3::EMAIL::6e28563491` and the PAN
identifier `C4::PAN::e2292d1b12` in the scrubbed text (both of the
`TIER::LABEL::[0-9a-f]{10}` shape, the PAN tier forced to C4 for every
requested tier); descrubbing at C4 with both identifiers restores the text
exactly, and descrubbing at C3 restores only the email. -/
theorem C9_scenario (c : Crypto) (op : String) :
    (scrubText c op ("Email a@b.com; Card 4111 1111 1111 1111") ("C3")).scrubbed =
      "Email C3::EMAIL::6e28563491; Card C4::PAN::e2292d1b12" ∧
    containsS (scrubText c op ("Email a@b.com; Card 4111 1111 1111 1111") ("C3")).scrubbed
      ("C3::EMAIL::6e28563491") = true ∧
    matchesIdPattern ("C3") ("EMAIL") ("C3::EMAIL::6e28563491") = true ∧
    containsS (scrubText c op ("Email a@b.com; Card 4111 1111 1111 1111") ("C3")).scrubbed
      ("C4::PAN::e2292d1b12") = true ∧
    matchesIdPattern ("C4") ("PAN") ("C4::PAN::e2292d1b12") = true ∧
    (∀ L : String, entityDefaultCLevel ("PAN") L = "C4") ∧
    descrubText c (scrubText c op ("Email a@b.com; Card 4111 1111 1111 1111") ("C3")).scrubbed
        (scrubText c op ("Email a@b.com; Card 4111 1111 1111 1111") ("C3")).receipt
        ("C4") (some ["C3::EMAIL::6e28563491", "C4::PAN::e2292d1b12"]) =
      "Email a@b.com; Card 4111 1111 1111 1111" ∧
    descrubText c (scrubText c op ("Email a@b.com; Card 4111 1111 1111 1111") ("C3")).scrubbed
        (scrubText c op ("Email a@b.com; Card 4111 1111 1111 1111") ("C3")).receipt
        ("C3") (some ["C3::EMAIL::6e28563491", "C4::PAN::e2292d1b12"]) =
      "Email a@b.com; Card C4::PAN::e2292d1b12" := by
  have hents : (scrubText c op ("Email a@b.com; Card 4111 1111 1111 1111") ("C3")).receipt.entities =
      [⟨"C3::EMAIL::6e28563491", "EMAIL", "EMAIL_simple", some ("C3"), 98, (6, 13),
         "rule EMAIL (base 0.98)", c.enc ("a@b.com")⟩,
       ⟨"C4::PAN::e2292d1b12", "PAN", "PAN_luhn", some ("C4"), 99, (20, 39),
         "rule PAN (base 0.99)", c.enc ("4111 1111 1111 1111")⟩] := rfl
  have hpm : (scrubText c op ("Email a@b.com; Card 4111 1111 1111 1111") ("C3")).receipt.placeholderMap =
      [("C3::EMAIL::6e28563491", "C3::EMAIL::6e28563491"),
       ("C4::PAN::e2292d1b12", "C4::PAN::e2292d1b12")] := rfl
  have hscr : (scrubText c op ("Email a@b.com; Card 4111 1111 1111 1111") ("C3")).scrubbed =
      "Email C3::EMAIL::6e28563491; Card C4::PAN::e2292d1b12" := rfl
  refine ⟨hscr, by rw [hscr]; decide, by decide, by rw [hscr]; decide, by decide,
    fun L => rfl, ?_, ?_⟩
  · rw [descrubText_eq, hents, hpm, hscr]
    rw [show normIds (some ["C3::EMAIL::6e28563491", "C4::PAN::e2292d1b12"]) =
      some ["C3::EMAIL::6e28563491", "C4::PAN::e2292d1b12"] from rfl]
    have hallE : allowedEntity (rankLevel (some ("C4")))
        (some ["C3::EMAIL::6e28563491", "C4::PAN::e2292d1b12"])
        ⟨"C3::EMAIL::6e28563491", "EMAIL", "EMAIL_simple", some ("C3"), 98, (6, 13),
          "rule EMAIL (base 0.98)", c.enc ("a@b.com")⟩ = true := rfl
    have hallP : allowedEntity (rankLevel (some ("C4")))
        (some ["C3::EMAIL::6e28563491", "C4::PAN::e2292d1b12"])
        ⟨"C4::PAN::e2292d1b12", "PAN", "PAN_luhn", some ("C4"), 99, (20, 39),
          "rule PAN (base 0.99)", c.enc ("4111 1111 1111 1111")⟩ = true := rfl
    rw [descrubGo_cons_subst c _ _ _ _ _ _ ("a@b.com") hallE (c.dec_enc ("a@b.com"))]
    rw [descrubGo_cons_subst c _ _ _ _ _ _ ("4111 1111 1111 1111") hallP
      (c.dec_enc ("4111 1111 1111 1111"))]
    rfl
  · rw [descrubText_eq, hents, hpm, hscr]
    rw [show normIds (some ["C3::EMAIL::6e28563491", "C4::PAN::e2292d1b12"]) =
      some ["C3::EMAIL::6e28563491", "C4::PAN::e2292d1b12"] from rfl]
    have hallE : allowedEntity (rankLevel (some ("C3")))
        (some ["C3::EMAIL::6e28563491", "C4::PAN::e2292d1b12"])
        ⟨"C3::EMAIL::6e28563491", "EMAIL", "EMAIL_simple", some ("C3"), 98, (6, 13),
          "rule EMAIL (base 0.98)", c.enc ("a@b.com")⟩ = true := rfl
    rw [descrubGo_cons_subst c _ _ _ _ _ _ ("a@b.com") hallE (c.dec_enc ("a@b.com"))]
    rfl

end Secureprompt

namespace Secureprompt

/-- Folding a decimal accumulator over a flatMap equals folding the digit
groups characterwise. -/
theorem foldl_flatMap_dec (f : Char → List Nat) (l : List Char) (acc : Nat) :
    ((l.flatMap f).foldl (fun a d => a * 10 + d) acc) =
      l.foldl (fun a c => (f c).foldl (fun a2 d => a2 * 10 + d) a) acc := by
  induction l generalizing acc with
  | nil => rfl
  | cons c rest ih =>
    rw [List.flatMap_cons, List.foldl_append, List.foldl_cons, ih]

/-- The decimal fold over one character's code group: a digit appends one
digit, a letter appends its two-digit code. -/
theorem code_foldl_step (c : Char) (a : Nat)
    (hc : ('A' ≤ c ∧ c ≤ 'Z') ∨ ('0' ≤ c ∧ c ≤ '9')) :
    ((if isDigitC c then [digitVal c] else letterCode (c.toNat - 55)).foldl
        (fun a2 d => a2 * 10 + d) a) =
      (if isDigitC c then a * 10 + digitVal c else a * 100 + (c.toNat - 55)) := by
  by_cases hd : isDigitC c = true
  · rw [if_pos hd, if_pos hd]
    rfl
  · rw [if_neg hd, if_neg hd]
    have hAZ : 65 ≤ c.toNat ∧ c.toNat ≤ 90 := by
      rcases hc with ⟨h1, h2⟩ | ⟨h1, h2⟩
      · exact ⟨h1, h2⟩
      · exfalso
        apply hd
        unfold isDigitC
        have g1 : 48 ≤ c.toNat := h1
        have g2 : c.toNat ≤ 57 := h2
        simp [g1, g2]
    have hn : 10 ≤ c.toNat - 55 ∧ c.toNat - 55 ≤ 35 := by omega
    unfold letterCode
    rw [if_neg (by omega)]
    simp only [List.foldl_cons, List.foldl_nil]
    omega

/-- C6 (amended): the pipeline's `_pass_iban` applies no checksum (the
counterexample exhibits an accepted IBAN-shaped string with an invalid
checksum); mod-97 validation lives in `RegexStrategy._validate_iban`, which
accepts a candidate over `A–Z`/`0–9` exactly when its length lies in 15–34
and its ISO 7064 mod-97 value (first four characters rotated to the end,
letters mapped A=10…Z=35) equals 1. -/
theorem C6_validate_iban_iff (s : List Char)
    (hchars : ∀ c ∈ s, ('A' ≤ c ∧ c ≤ 'Z') ∨ ('0' ≤ c ∧ c ≤ '9')) :
    validateIban ⟨s⟩ = ((15 ≤ s.length && s.length ≤ 34) && (specMod97 s == 1)) := by
  have hfilter : s.filter (fun c => !(c == ' ') && !(c == '-')) = s := by
    apply List.filter_eq_self.mpr
    intro c hc
    rcases hchars c hc with ⟨h1, h2⟩ | ⟨h1, h2⟩ <;>
    · have hne1 : c ≠ ' ' := by rintro rfl; revert h1; decide
      have hne2 : c ≠ '-' := by rintro rfl; revert h1; decide
      simp [hne1, hne2]
  unfold validateIban
  simp only [hfilter]
  by_cases hlen : s.length < 15 ∨ 34 < s.length
  · have hbr : (s.length < 15 || 34 < s.length) = true := by
      rcases hlen with h | h <;> simp [h]
    rw [if_pos hbr]
    have : (15 ≤ s.length && s.length ≤ 34) = false := by
      rcases hlen with h | h
      · have : ¬ (15 ≤ s.length) := by omega
        simp [this]
      · have : ¬ (s.length ≤ 34) := by omega
        simp [this]
    rw [this, Bool.false_and]
  · have h1 : ¬ (s.length < 15) := by omega
    have h2 : ¬ (34 < s.length) := by omega
    have hbr : (s.length < 15 || 34 < s.length) = false := by simp [h1, h2]
    rw [if_neg (by simp [hbr])]
    have hle : (15 ≤ s.length && s.length ≤ 34) = true := by
      simp only [Bool.and_eq_true, decide_eq_true_eq]
      omega
    rw [hle, Bool.true_and]
    have hchars2 : ∀ c ∈ s.drop 4 ++ s.take 4, ('A' ≤ c ∧ c ≤ 'Z') ∨ ('0' ≤ c ∧ c ≤ '9') := by
      intro c hc
      rcases List.mem_append.mp hc with h | h
      · exact hchars c (List.mem_of_mem_drop h)
      · exact hchars c (List.mem_of_mem_take h)
    have hfold2 : ∀ (l : List Char), (∀ c ∈ l, ('A' ≤ c ∧ c ≤ 'Z') ∨ ('0' ≤ c ∧ c ≤ '9')) →
        ∀ acc, (l.foldl (fun a c =>
            ((if isDigitC c then [digitVal c] else letterCode (c.toNat - 55)).foldl
              (fun a2 d => a2 * 10 + d) a)) acc) =
          l.foldl (fun acc c =>
            if isDigitC c then acc * 10 + digitVal c else acc * 100 + (c.toNat - 55)) acc := by
      intro l hl
      induction l with
      | nil => intro acc; rfl
      | cons c rest ih =>
        intro acc
        rw [List.foldl_cons, List.foldl_cons, code_foldl_step c acc (hl c (by simp))]
        exact ih (fun x hx => hl x (by simp [hx])) _
    have hfold : (((s.drop 4 ++ s.take 4).flatMap
          (fun c => if isDigitC c then [digitVal c] else letterCode (c.toNat - 55))).foldl
            (fun a d => a * 10 + d) 0) =
        ((s.drop 4 ++ s.take 4).foldl
          (fun acc c => if isDigitC c then acc * 10 + digitVal c else acc * 100 + (c.toNat - 55)) 0) := by
      rw [foldl_flatMap_dec]
      exact hfold2 _ hchars2 0
    rw [hfold]
    unfold specMod97
    rfl

end Secureprompt

namespace Secureprompt

/-- Witness for C6 at the checksum-valid IBAN `BE68539007547034`. -/
theorem C6_witness :
    (∀ c ∈ ("BE68539007547034").data, ('A' ≤ c ∧ c ≤ 'Z') ∨ ('0' ≤ c ∧ c ≤ '9')) ∧
    validateIban ⟨("BE68539007547034").data⟩ =
      ((15 ≤ ("BE68539007547034").data.length && ("BE68539007547034").data.length ≤ 34) &&
        (specMod97 (("BE68539007547034").data) == 1)) :=
  ⟨by decide, C6_validate_iban_iff (("BE68539007547034").data) (by decide)⟩

end Secureprompt

namespace Secureprompt

/-- Span overlap is symmetric. -/
theorem overlapsB_symm (a b : Nat × Nat) : overlapsB a b = overlapsB b a := by
  unfold overlapsB
  by_cases h1 : a.2 ≤ b.1 <;> by_cases h2 : b.2 ≤ a.1 <;> simp [h1, h2]

/-- Strict lexicographic order on `Nat` lists is trichotomous. -/
theorem natListLt_trichot : ∀ a b : List Nat,
    natListLt a b = true ∨ a = b ∨ natListLt b a = true := by
  intro a
  induction a with
  | nil =>
    intro b
    cases b with
    | nil => exact Or.inr (Or.inl rfl)
    | cons y ys => exact Or.inl rfl
  | cons x xs ih =>
    intro b
    cases b with
    | nil => exact Or.inr (Or.inr rfl)
    | cons y ys =>
      rcases Nat.lt_trichotomy x y with h | h | h
      · exact Or.inl (by simp [natListLt, h])
      · subst h
        rcases ih ys with h2 | h2 | h2
        · exact Or.inl (by simp [natListLt, h2])
        · exact Or.inr (Or.inl (by rw [h2]))
        · exact Or.inr (Or.inr (by simp [natListLt, h2]))
      · exact Or.inr (Or.inr (by simp [natListLt, h]))

/-- Strict lexicographic order on `Nat` lists is transitive. -/
theorem natListLt_trans : ∀ a b c : List Nat,
    natListLt a b = true → natListLt b c = true → natListLt a c = true := by
  intro a
  induction a with
  | nil =>
    intro b c hab hbc
    cases b with
    | nil => exact absurd hab (by simp [natListLt])
    | cons y ys =>
      cases c with
      | nil => exact absurd hbc (by simp [natListLt])
      | cons z zs => rfl
  | cons x xs ih =>
    intro b c hab hbc
    cases b with
    | nil => exact absurd hab (by simp [natListLt])
    | cons y ys =>
      cases c with
      | nil => exact absurd hbc (by simp [natListLt])
      | cons z zs =>
        simp only [natListLt, Bool.or_eq_true, Bool.and_eq_true, decide_eq_true_eq,
          beq_iff_eq] at hab hbc ⊢
        rcases hab with h1 | ⟨h1, h1l⟩
        · rcases hbc with h2 | ⟨h2, h2l⟩
          · exact Or.inl (Nat.lt_trans h1 h2)
          · exact Or.inl (h2 ▸ h1)
        · rcases hbc with h2 | ⟨h2, h2l⟩
          · exact Or.inl (h1 ▸ h2)
          · exact Or.inr ⟨h1.trans h2, ih ys zs h1l h2l⟩

instance : IsTotal Hit detectLe := by
  constructor
  intro a b
  unfold detectLe
  rcases natListLt_trichot (detectKey a) (detectKey b) with h | h | h
  · exact Or.inl (by simp [h])
  · exact Or.inl (by simp [h])
  · exact Or.inr (by simp [h])

instance : IsTrans Hit detectLe := by
  constructor
  intro a b c hab hbc
  unfold detectLe at hab hbc ⊢
  simp only [Bool.or_eq_true, beq_iff_eq] at hab hbc ⊢
  rcases hab with h1 | h1
  · rcases hbc with h2 | h2
    · exact Or.inl (natListLt_trans _ _ _ h1 h2)
    · exact Or.inl (h2 ▸ h1)
  · rcases hbc with h2 | h2
    · exact Or.inl (h1 ▸ h2)
    · exact Or.inr (h1.trans h2)

/-- The non-overlap relation on hits. -/
def hitsDisjoint (a b : Hit) : Prop := overlapsB (a.hstart, a.hstop) (b.hstart, b.hstop) = false

/-- The `_append_non_overlapping` accumulator keeps the output spans in
`taken`, `taken` pairwise disjoint, and the output pairwise disjoint. -/
theorem appendNO_invariant (cands : List Hit) :
    ∀ (out : List Hit) (taken : List (Nat × Nat)),
    (∀ h ∈ out, (h.hstart, h.hstop) ∈ taken) →
    List.Pairwise (fun a b => overlapsB a b = false) taken →
    List.Pairwise hitsDisjoint out →
    (∀ h ∈ (appendNO out taken cands).1, (h.hstart, h.hstop) ∈ (appendNO out taken cands).2) ∧
    List.Pairwise (fun a b => overlapsB a b = false) (appendNO out taken cands).2 ∧
    List.Pairwise hitsDisjoint (appendNO out taken cands).1 := by
  induction cands with
  | nil =>
    intro out taken hmem htk hout
    exact ⟨hmem, htk, hout⟩
  | cons e rest ih =>
    intro out taken hmem htk hout
    rw [appendNO]
    by_cases hfree : spanFree (e.hstart, e.hstop) taken = true
    · rw [if_pos hfree]
      apply ih
      · intro h hh
        rcases List.mem_append.mp hh with h1 | h1
        · exact List.mem_append.mpr (Or.inl (hmem h h1))
        · rw [List.mem_singleton.mp h1]
          exact List.mem_append.mpr (Or.inr (List.mem_singleton.mpr rfl))
      · rw [List.pairwise_append]
        refine ⟨htk, List.pairwise_singleton _ _, ?_⟩
        intro t ht t2 ht2
        rw [List.mem_singleton.mp ht2]
        have := (List.all_eq_true.mp hfree) t ht
        rw [overlapsB_symm]
        simpa using this
      · rw [List.pairwise_append]
        refine ⟨hout, List.pairwise_singleton _ _, ?_⟩
        intro h hh h2 hh2
        rw [List.mem_singleton.mp hh2]
        have hmem2 := hmem h hh
        have := (List.all_eq_true.mp hfree) _ hmem2
        unfold hitsDisjoint
        rw [overlapsB_symm]
        simpa using this
    · rw [if_neg hfree]
      exact ih out taken hmem htk hout

/-- The `_append_non_overlapping` invariant carried through a chain of
detector passes, each seeing the `taken` list of its predecessors. -/
theorem appendNO_chain (passes : List (List (Nat × Nat) → List Hit)) :
    ∀ (st : List Hit × List (Nat × Nat)),
    (∀ h ∈ st.1, (h.hstart, h.hstop) ∈ st.2) →
    List.Pairwise (fun a b => overlapsB a b = false) st.2 →
    List.Pairwise hitsDisjoint st.1 →
    (∀ h ∈ (passes.foldl (fun st2 p => appendNO st2.1 st2.2 (p st2.2)) st).1,
      (h.hstart, h.hstop) ∈ (passes.foldl (fun st2 p => appendNO st2.1 st2.2 (p st2.2)) st).2) ∧
    List.Pairwise (fun a b => overlapsB a b = false)
      (passes.foldl (fun st2 p => appendNO st2.1 st2.2 (p st2.2)) st).2 ∧
    List.Pairwise hitsDisjoint
      (passes.foldl (fun st2 p => appendNO st2.1 st2.2 (p st2.2)) st).1 := by
  induction passes with
  | nil =>
    intro st h1 h2 h3
    exact ⟨h1, h2, h3⟩
  | cons p rest ih =>
    intro st h1 h2 h3
    rw [List.foldl_cons]
    have step := appendNO_invariant (p st.2) st.1 st.2 h1 h2 h3
    exact ih (appendNO st.1 st.2 (p st.2)) step.1 step.2.1 step.2.2

/-- The hits `detect` accepts are pairwise disjoint. -/
theorem detect_disjoint (text : String) : List.Pairwise hitsDisjoint (detect text) := by
  have hsym : Symmetric hitsDisjoint := by
    intro a b h
    unfold hitsDisjoint at *
    rw [overlapsB_symm]
    exact h
  unfold detect
  by_cases hemp : text.data.isEmpty = true
  · simp [hemp]
  · simp only [hemp, Bool.false_eq_true, if_false]
    apply ((List.perm_insertionSort detectLe _).pairwise_iff (fun hxy => hsym hxy)).mpr
    have hinv := appendNO_chain
      [fun tk => passIban text.data tk, fun tk => passBic text.data tk,
       fun tk => passEmail text.data tk, fun tk => passDob text.data tk,
       fun tk => passDate text.data tk, fun tk => passYear text.data tk,
       fun tk => passAmountCurrency text.data tk, fun tk => passPan text.data tk,
       fun tk => passStatus text.data tk, fun tk => passTransferId text.data tk,
       fun tk => passPhone text.data tk, fun tk => passName text.data tk]
      ([], [])
      (fun h hh => absurd hh (List.not_mem_nil h)) List.Pairwise.nil List.Pairwise.nil
    exact hinv.2.2

/-- The hits `detect` returns are sorted by the `(start, end, label)` key. -/
theorem detect_le_sorted (text : String) : List.Sorted detectLe (detect text) := by
  unfold detect
  by_cases hemp : text.data.isEmpty = true
  · simp [hemp, List.Sorted]
  · simp only [hemp, Bool.false_eq_true, if_false]
    exact List.sorted_insertionSort detectLe _

/-- C8: for every input text, the entities `detect` returns have pairwise
non-overlapping half-open spans and are sorted ascending by the
`(start, end, label)` key. -/
theorem C8_detect_disjoint_sorted (text : String) :
    List.Pairwise hitsDisjoint (detect text) ∧ List.Sorted detectLe (detect text) :=
  ⟨detect_disjoint text, detect_le_sorted text⟩

end Secureprompt

namespace Secureprompt

/-- Bounds invariant of the greedy star helper: results stay within
`[p, n]`, and every capture lies within the covered region (strictly
non-empty when the body's captures are). -/
theorem starAuxWF (runr : Nat → List (Caps × Nat)) (n : Nat) (cc : Bool)
    (hr : ∀ p, p ≤ n → ∀ cp ∈ runr p,
      p ≤ cp.2 ∧ cp.2 ≤ n ∧
      ∀ g ∈ cp.1, p ≤ g.2.1 ∧ g.2.1 ≤ g.2.2 ∧ g.2.2 ≤ cp.2 ∧ (cc = true → g.2.1 < g.2.2)) :
    ∀ fuel p, p ≤ n → ∀ cp ∈ starAux runr fuel p,
      p ≤ cp.2 ∧ cp.2 ≤ n ∧
      ∀ g ∈ cp.1, p ≤ g.2.1 ∧ g.2.1 ≤ g.2.2 ∧ g.2.2 ≤ cp.2 ∧ (cc = true → g.2.1 < g.2.2) := by
  intro fuel
  induction fuel with
  | zero =>
    intro p hp cp hm
    simp only [starAux, List.mem_singleton] at hm
    subst hm
    exact ⟨le_refl p, hp, by intro g hg; exact absurd hg (List.not_mem_nil g)⟩
  | succ f ih =>
    intro p hp cp hm
    simp only [starAux, List.mem_append, List.mem_singleton, List.mem_flatMap] at hm
    rcases hm with ⟨cp0, hcp0, hin⟩ | hm
    · by_cases hlt : p < cp0.2
      · rw [if_pos hlt] at hin
        rcases List.mem_map.mp hin with ⟨cq, hcq, heq⟩
        obtain ⟨h01, h02, h0g⟩ := hr p hp cp0 hcp0
        obtain ⟨hq1, hq2, hqg⟩ := ih cp0.2 h02 cq hcq
        subst heq
        refine ⟨h01.trans hq1, hq2, ?_⟩
        intro g hg
        rcases List.mem_append.mp hg with hg | hg
        · obtain ⟨a1, a2, a3, a4⟩ := h0g g hg
          exact ⟨a1, a2, a3.trans hq1, a4⟩
        · obtain ⟨a1, a2, a3, a4⟩ := hqg g hg
          exact ⟨h01.trans a1, a2, a3, a4⟩
      · rw [if_neg hlt] at hin
        exact absurd hin (List.not_mem_nil cp)
    · subst hm
      exact ⟨le_refl p, hp, by intro g hg; exact absurd hg (List.not_mem_nil g)⟩

/-- Bounds invariant of the bounded-repetition helper; when the body always
consumes and at least one iteration is mandatory, the result consumed. -/
theorem repAuxWF (runr : Nat → List (Caps × Nat)) (n : Nat) (cc cr : Bool)
    (hr : ∀ p, p ≤ n → ∀ cp ∈ runr p,
      p ≤ cp.2 ∧ cp.2 ≤ n ∧ (cr = true → p < cp.2) ∧
      ∀ g ∈ cp.1, p ≤ g.2.1 ∧ g.2.1 ≤ g.2.2 ∧ g.2.2 ≤ cp.2 ∧ (cc = true → g.2.1 < g.2.2)) :
    ∀ hi lo p, p ≤ n → ∀ cp ∈ repAux runr lo hi p,
      p ≤ cp.2 ∧ cp.2 ≤ n ∧ (cr = true → 0 < lo → p < cp.2) ∧
      ∀ g ∈ cp.1, p ≤ g.2.1 ∧ g.2.1 ≤ g.2.2 ∧ g.2.2 ≤ cp.2 ∧ (cc = true → g.2.1 < g.2.2) := by
  intro hi
  induction hi with
  | zero =>
    intro lo p hp cp hm
    simp only [repAux] at hm
    by_cases hlo : lo = 0
    · rw [if_pos hlo] at hm
      rcases List.mem_singleton.mp hm with rfl
      refine ⟨le_refl p, hp, ?_, by intro g hg; exact absurd hg (List.not_mem_nil g)⟩
      intro _ h0
      exact absurd hlo (by omega)
    · rw [if_neg hlo] at hm
      exact absurd hm (List.not_mem_nil cp)
  | succ f ih =>
    intro lo p hp cp hm
    simp only [repAux, List.mem_append, List.mem_flatMap] at hm
    rcases hm with ⟨cp0, hcp0, hin⟩ | hm
    · rcases List.mem_map.mp hin with ⟨cq, hcq, heq⟩
      obtain ⟨h01, h02, h0c, h0g⟩ := hr p hp cp0 hcp0
      obtain ⟨hq1, hq2, hqc, hqg⟩ := ih (lo - 1) cp0.2 h02 cq hcq
      subst heq
      refine ⟨h01.trans hq1, hq2, ?_, ?_⟩
      · intro hcr _
        exact Nat.lt_of_lt_of_le (h0c hcr) hq1
      · intro g hg
        rcases List.mem_append.mp hg with hg | hg
        · obtain ⟨a1, a2, a3, a4⟩ := h0g g hg
          exact ⟨a1, a2, a3.trans hq1, a4⟩
        · obtain ⟨a1, a2, a3, a4⟩ := hqg g hg
          exact ⟨h01.trans a1, a2, a3, a4⟩
    · by_cases hlo : lo = 0
      · rw [if_pos hlo] at hm
        rcases List.mem_singleton.mp hm with rfl
        refine ⟨le_refl p, hp, ?_, by intro g hg; exact absurd hg (List.not_mem_nil g)⟩
        intro _ h0
        exact absurd hlo (by omega)
      · rw [if_neg hlo] at hm
        exact absurd hm (List.not_mem_nil cp)

/-- Well-formedness of the engine: a run from `p ≤ |t|` ends within
`[p, |t|]`, consumes when the pattern syntactically must, and reports
captures inside the covered region (non-empty when `capsConsume` holds). -/
theorem runWF (t : List Char) : ∀ (re : RE) (p : Nat), p ≤ t.length →
    ∀ cp ∈ run t re p,
      p ≤ cp.2 ∧ cp.2 ≤ t.length ∧ (consumesRE re = true → p < cp.2) ∧
      ∀ g ∈ cp.1, p ≤ g.2.1 ∧ g.2.1 ≤ g.2.2 ∧ g.2.2 ≤ cp.2 ∧
        (capsConsume re = true → g.2.1 < g.2.2) := by
  intro re
  induction re with
  | eps =>
    intro p hp cp hm
    rcases List.mem_singleton.mp hm with rfl
    exact ⟨le_refl p, hp, by intro h; exact absurd h (by simp [consumesRE]),
      by intro g hg; exact absurd hg (List.not_mem_nil g)⟩
  | cls cc =>
    intro p hp cp hm
    simp only [run] at hm
    cases hget : t.get? p with
    | none => rw [hget] at hm; exact absurd hm (List.not_mem_nil cp)
    | some ch =>
      rw [hget] at hm
      have hm2 : cp ∈ (if ccMatches cc ch = true then [(([] : Caps), p + 1)] else []) := hm
      by_cases hmt : ccMatches cc ch = true
      · rw [if_pos hmt] at hm2
        rcases List.mem_singleton.mp hm2 with rfl
        have hplen : p < t.length := by
          by_contra hc
          rw [List.get?_eq_none.mpr (by omega)] at hget
          exact Option.noConfusion hget
        exact ⟨Nat.le_succ p, hplen, fun _ => Nat.lt_succ_self p,
          by intro g hg; exact absurd hg (List.not_mem_nil g)⟩
      · rw [if_neg hmt] at hm2
        exact absurd hm2 (List.not_mem_nil cp)
  | seq a b iha ihb =>
    intro p hp cp hm
    simp only [run, List.mem_flatMap] at hm
    rcases hm with ⟨cp0, hcp0, hin⟩
    rcases List.mem_map.mp hin with ⟨cq, hcq, heq⟩
    obtain ⟨h01, h02, h0c, h0g⟩ := iha p hp cp0 hcp0
    obtain ⟨hq1, hq2, hqc, hqg⟩ := ihb cp0.2 h02 cq hcq
    subst heq
    refine ⟨h01.trans hq1, hq2, ?_, ?_⟩
    · intro hc
      rcases Bool.or_eq_true_iff.mp (by simpa [consumesRE] using hc) with h | h
      · exact Nat.lt_of_lt_of_le (h0c h) hq1
      · exact Nat.lt_of_le_of_lt h01 (hqc h)
    · intro g hg
      have hcapsplit : capsConsume (RE.seq a b) = true →
          capsConsume a = true ∧ capsConsume b = true := by
        intro h
        simpa [capsConsume, Bool.and_eq_true] using h
      rcases List.mem_append.mp hg with hg | hg
      · obtain ⟨a1, a2, a3, a4⟩ := h0g g hg
        exact ⟨a1, a2, a3.trans hq1, fun h => a4 (hcapsplit h).1⟩
      · obtain ⟨a1, a2, a3, a4⟩ := hqg g hg
        exact ⟨h01.trans a1, a2, a3, fun h => a4 (hcapsplit h).2⟩
  | alt a b iha ihb =>
    intro p hp cp hm
    simp only [run, List.mem_append] at hm
    have hcsplit : consumesRE (RE.alt a b) = true →
        consumesRE a = true ∧ consumesRE b = true := by
      intro h
      simpa [consumesRE, Bool.and_eq_true] using h
    have hcapsplit : capsConsume (RE.alt a b) = true →
        capsConsume a = true ∧ capsConsume b = true := by
      intro h
      simpa [capsConsume, Bool.and_eq_true] using h
    rcases hm with hm | hm
    · obtain ⟨h1, h2, h3, h4⟩ := iha p hp cp hm
      exact ⟨h1, h2, fun h => h3 (hcsplit h).1,
        fun g hg => by
          obtain ⟨a1, a2, a3, a4⟩ := h4 g hg
          exact ⟨a1, a2, a3, fun h => a4 (hcapsplit h).1⟩⟩
    · obtain ⟨h1, h2, h3, h4⟩ := ihb p hp cp hm
      exact ⟨h1, h2, fun h => h3 (hcsplit h).2,
        fun g hg => by
          obtain ⟨a1, a2, a3, a4⟩ := h4 g hg
          exact ⟨a1, a2, a3, fun h => a4 (hcapsplit h).2⟩⟩
  | rep lo hi r ihr =>
    intro p hp cp hm
    simp only [run] at hm
    have hrep := repAuxWF (run t r) t.length (capsConsume r) (consumesRE r)
      (fun q hq cq hcq => by
        obtain ⟨h1, h2, h3, h4⟩ := ihr q hq cq hcq
        exact ⟨h1, h2, h3, h4⟩) hi lo p hp cp hm
    obtain ⟨h1, h2, h3, h4⟩ := hrep
    refine ⟨h1, h2, ?_, ?_⟩
    · intro hc
      have : 0 < lo ∧ consumesRE r = true := by
        simpa [consumesRE, Bool.and_eq_true] using hc
      exact h3 this.2 this.1
    · intro g hg
      obtain ⟨a1, a2, a3, a4⟩ := h4 g hg
      exact ⟨a1, a2, a3, fun h => a4 (by simpa [capsConsume] using h)⟩
  | star r ihr =>
    intro p hp cp hm
    simp only [run] at hm
    have hst := starAuxWF (run t r) t.length (capsConsume r)
      (fun q hq cq hcq => by
        obtain ⟨h1, h2, _h3, h4⟩ := ihr q hq cq hcq
        exact ⟨h1, h2, h4⟩) (t.length + 1) p hp cp hm
    obtain ⟨h1, h2, h4⟩ := hst
    refine ⟨h1, h2, by intro h; exact absurd h (by simp [consumesRE]), ?_⟩
    intro g hg
    obtain ⟨a1, a2, a3, a4⟩ := h4 g hg
    exact ⟨a1, a2, a3, fun h => a4 (by simpa [capsConsume] using h)⟩
  | opt r ihr =>
    intro p hp cp hm
    simp only [run, List.mem_append, List.mem_singleton] at hm
    rcases hm with hm | hm
    · obtain ⟨h1, h2, _h3, h4⟩ := ihr p hp cp hm
      refine ⟨h1, h2, by intro h; exact absurd h (by simp [consumesRE]), ?_⟩
      intro g hg
      obtain ⟨a1, a2, a3, a4⟩ := h4 g hg
      exact ⟨a1, a2, a3, fun h => a4 (by simpa [capsConsume] using h)⟩
    · subst hm
      exact ⟨le_refl p, hp, by intro h; exact absurd h (by simp [consumesRE]),
        by intro g hg; exact absurd hg (List.not_mem_nil g)⟩
  | wb =>
    intro p hp cp hm
    simp only [run] at hm
    by_cases hb : isWB t p = true
    · rw [if_pos hb] at hm
      rcases List.mem_singleton.mp hm with rfl
      exact ⟨le_refl p, hp, by intro h; exact absurd h (by simp [consumesRE]),
        by intro g hg; exact absurd hg (List.not_mem_nil g)⟩
    · rw [if_neg hb] at hm
      exact absurd hm (List.not_mem_nil cp)
  | grp i r ihr =>
    intro p hp cp hm
    simp only [run] at hm
    rcases List.mem_map.mp hm with ⟨cq, hcq, heq⟩
    obtain ⟨h1, h2, h3, h4⟩ := ihr p hp cq hcq
    subst heq
    refine ⟨h1, h2, by intro h; exact h3 (by simpa [consumesRE] using h), ?_⟩
    intro g hg
    have hcapsplit : capsConsume (RE.grp i r) = true →
        consumesRE r = true ∧ capsConsume r = true := by
      intro h
      simpa [capsConsume, Bool.and_eq_true] using h
    rcases List.mem_cons.mp hg with hg | hg
    · subst hg
      exact ⟨le_refl p, h1, le_refl cq.2, fun h => h3 (hcapsplit h).1⟩
    · obtain ⟨a1, a2, a3, a4⟩ := h4 g hg
      exact ⟨a1, a2, a3, fun h => a4 (hcapsplit h).2⟩
  | lbn w r ihr =>
    intro p hp cp hm
    simp only [run] at hm
    by_cases hcond : (w ≤ p && (run t r (p - w)).any (fun cp2 => cp2.2 == p)) = true
    · rw [if_pos hcond] at hm
      exact absurd hm (List.not_mem_nil cp)
    · rw [if_neg hcond] at hm
      rcases List.mem_singleton.mp hm with rfl
      exact ⟨le_refl p, hp, by intro h; exact absurd h (by simp [consumesRE]),
        by intro g hg; exact absurd hg (List.not_mem_nil g)⟩

end Secureprompt

namespace Secureprompt

/-- Every `finditer` match of a consuming pattern has a non-empty span
within the text, its captures inside the span (strictly non-empty under
`capsConsume`). -/
theorem finditerAuxWF (re : RE) (t : List Char)
    (hcons : consumesRE re = true) :
    ∀ fuel p, ∀ m ∈ finditerAux re t fuel p,
      p ≤ m.mstart ∧ m.mstart < m.mend ∧ m.mend ≤ t.length ∧
      ∀ g ∈ m.caps, m.mstart ≤ g.2.1 ∧ g.2.1 ≤ g.2.2 ∧ g.2.2 ≤ m.mend ∧
        (capsConsume re = true → g.2.1 < g.2.2) := by
  intro fuel
  induction fuel with
  | zero => intro p m hm; exact absurd hm (List.not_mem_nil m)
  | succ f ih =>
    intro p m hm
    simp only [finditerAux] at hm
    by_cases hgt : t.length < p
    · rw [if_pos hgt] at hm
      exact absurd hm (List.not_mem_nil m)
    · rw [if_neg hgt] at hm
      cases hr : run t re p with
      | nil =>
        rw [hr] at hm
        obtain ⟨h1, h2, h3, h4⟩ := ih (p + 1) m hm
        exact ⟨by omega, h2, h3, h4⟩
      | cons cp rest =>
        rw [hr] at hm
        rcases List.mem_cons.mp hm with rfl | hm
        · obtain ⟨h1, h2, h3, h4⟩ := runWF t re p (by omega) cp (hr ▸ List.mem_cons_self cp rest)
          exact ⟨le_refl p, h3 hcons, h2, fun g hg => h4 g hg⟩
        · obtain ⟨h1, h2, h3, h4⟩ := ih (max cp.2 (p + 1)) m hm
          have hpm : p ≤ max cp.2 (p + 1) := le_trans (by omega) (le_max_right cp.2 (p + 1))
          exact ⟨hpm.trans h1, h2, h3, h4⟩

/-- A reported group span lies in the match's captures. -/
theorem groupSpan_mem (m : MatchData) (i : Nat) (sp : Nat × Nat)
    (h : groupSpan m i = some sp) : ∃ g ∈ m.caps, g.2 = sp := by
  unfold groupSpan at h
  cases hf : m.caps.find? (fun g => g.1 == i) with
  | none => rw [hf] at h; exact Option.noConfusion h
  | some g =>
    rw [hf] at h
    refine ⟨g, List.mem_of_find?_eq_some hf, ?_⟩
    simpa using h

end Secureprompt

namespace Secureprompt

/-- Full-match spans of `finditer` on a consuming pattern are non-empty and
in bounds. -/
theorem finditer_span_bounds (re : RE) (t : List Char) (hcons : consumesRE re = true) :
    ∀ m ∈ finditer re t, m.mstart < m.mend ∧ m.mend ≤ t.length := by
  intro m hm
  obtain ⟨_, h2, h3, _⟩ := finditerAuxWF re t hcons (t.length + 1) 0 m hm
  exact ⟨h2, h3⟩

/-- Group spans of `finditer` matches are non-empty and in bounds when every
group body consumes. -/
theorem finditer_group_bounds (re : RE) (t : List Char)
    (hcons : consumesRE re = true) (hcaps : capsConsume re = true) :
    ∀ m ∈ finditer re t, ∀ i sp, groupSpan m i = some sp →
      sp.1 < sp.2 ∧ sp.2 ≤ t.length := by
  intro m hm i sp hsp
  obtain ⟨_, _, h3, h4⟩ := finditerAuxWF re t hcons (t.length + 1) 0 m hm
  obtain ⟨g, hg, hgeq⟩ := groupSpan_mem m i sp hsp
  obtain ⟨a1, a2, a3, a4⟩ := h4 g hg
  subst hgeq
  exact ⟨a4 hcaps, a3.trans h3⟩

/-- Every hit `emitAmountCurrency` returns carries either the currency span
or the amount span. -/
theorem emitAC_span {t : List Char} {amtSpan curSpan : Nat × Nat}
    {taken : List (Nat × Nat)} {h : Hit}
    (hm : h ∈ emitAmountCurrency t amtSpan curSpan taken) :
    (h.hstart = curSpan.1 ∧ h.hstop = curSpan.2) ∨
    (h.hstart = amtSpan.1 ∧ h.hstop = amtSpan.2) := by
  unfold emitAmountCurrency at hm
  rcases List.mem_append.mp hm with hin | hin
  · by_cases hfree : spanFree curSpan taken = true
    · rw [if_pos hfree] at hin
      rcases List.mem_singleton.mp hin with rfl
      exact Or.inl ⟨rfl, rfl⟩
    · rw [if_neg hfree] at hin
      exact absurd hin (List.not_mem_nil h)
  · by_cases hfree : spanFree amtSpan taken = true
    · rw [if_pos hfree] at hin
      rcases List.mem_singleton.mp hin with rfl
      exact Or.inr ⟨rfl, rfl⟩
    · rw [if_neg hfree] at hin
      exact absurd hin (List.not_mem_nil h)

/-- Every hit any of the twelve passes emits has a non-empty span inside the
text. -/
theorem pass_hit_bounds (t : List Char) (tk : List (Nat × Nat)) (h : Hit)
    (hm : h ∈ passIban t tk ∨ h ∈ passBic t tk ∨ h ∈ passEmail t tk ∨ h ∈ passDob t tk ∨
          h ∈ passDate t tk ∨ h ∈ passYear t tk ∨ h ∈ passAmountCurrency t tk ∨
          h ∈ passPan t tk ∨ h ∈ passStatus t tk ∨ h ∈ passTransferId t tk ∨
          h ∈ passPhone t tk ∨ h ∈ passName t tk) :
    h.hstart < h.hstop ∧ h.hstop ≤ t.length := by
  rcases hm with hm | hm | hm | hm | hm | hm | hm | hm | hm | hm | hm | hm
  · rcases List.mem_map.mp hm with ⟨m, hmf, rfl⟩
    exact finditer_span_bounds IBAN_RX t (by decide) m hmf
  · rcases List.mem_map.mp hm with ⟨m, hmf, rfl⟩
    exact finditer_span_bounds BIC_RX t (by decide) m (List.mem_of_mem_filter hmf)
  · rcases List.mem_map.mp hm with ⟨m, hmf, rfl⟩
    exact finditer_span_bounds EMAIL_RX t (by decide) m hmf
  · rcases List.mem_filterMap.mp hm with ⟨m, hmf, hsome⟩
    rcases Option.map_eq_some'.mp hsome with ⟨sp, hsp, rfl⟩
    exact finditer_group_bounds DOB_CTX_RX t (by decide) (by decide) m hmf 1 sp hsp
  · rcases List.mem_map.mp hm with ⟨m, hmf, rfl⟩
    exact finditer_span_bounds DATE_RX t (by decide) m hmf
  · rcases List.mem_map.mp hm with ⟨m, hmf, rfl⟩
    exact finditer_span_bounds YEAR_RX t (by decide) m hmf
  · unfold passAmountCurrency at hm
    rcases List.mem_append.mp hm with hm | hm
    · rcases List.mem_flatMap.mp hm with ⟨m, hmf, hin⟩
      cases hg1 : groupSpan m 1 with
      | none => rw [hg1] at hin; exact absurd hin (List.not_mem_nil h)
      | some sp1 =>
        cases hg2 : groupSpan m 2 with
        | none => rw [hg1, hg2] at hin; exact absurd hin (List.not_mem_nil h)
        | some sp2 =>
          rw [hg1, hg2] at hin
          have hb1 := finditer_group_bounds CUR_AMT_RX1 t (by decide) (by decide) m hmf 1 sp1 hg1
          have hb2 := finditer_group_bounds CUR_AMT_RX1 t (by decide) (by decide) m hmf 2 sp2 hg2
          rcases emitAC_span hin with ⟨he1, he2⟩ | ⟨he1, he2⟩ <;> rw [he1, he2]
          · exact hb1
          · exact hb2
    · rcases List.mem_flatMap.mp hm with ⟨m, hmf, hin⟩
      cases hg1 : groupSpan m 1 with
      | none => rw [hg1] at hin; exact absurd hin (List.not_mem_nil h)
      | some sp1 =>
        cases hg2 : groupSpan m 2 with
        | none => rw [hg1, hg2] at hin; exact absurd hin (List.not_mem_nil h)
        | some sp2 =>
          rw [hg1, hg2] at hin
          have hb1 := finditer_group_bounds CUR_AMT_RX2 t (by decide) (by decide) m hmf 1 sp1 hg1
          have hb2 := finditer_group_bounds CUR_AMT_RX2 t (by decide) (by decide) m hmf 2 sp2 hg2
          rcases emitAC_span hin with ⟨he1, he2⟩ | ⟨he1, he2⟩ <;> rw [he1, he2]
          · exact hb2
          · exact hb1
  · rcases List.mem_filterMap.mp hm with ⟨m, hmf, hsome⟩
    simp only at hsome
    split at hsome
    · exact Option.noConfusion hsome
    · split at hsome
      · exact Option.noConfusion hsome
      · split at hsome
        · rcases Option.some.inj hsome with rfl
          exact finditer_span_bounds PAN_RX t (by decide) m hmf
        · exact Option.noConfusion hsome
  · rcases List.mem_filterMap.mp hm with ⟨m, hmf, hsome⟩
    rcases Option.map_eq_some'.mp hsome with ⟨sp, hsp, rfl⟩
    exact finditer_group_bounds STATUS_RX t (by decide) (by decide) m hmf 1 sp hsp
  · rcases List.mem_filterMap.mp hm with ⟨m, hmf, hsome⟩
    rcases Option.map_eq_some'.mp hsome with ⟨sp, hsp, rfl⟩
    exact finditer_group_bounds XFER_RX t (by decide) (by decide) m hmf 1 sp hsp
  · rcases List.mem_map.mp hm with ⟨m, hmf, rfl⟩
    exact finditer_span_bounds PHONE_RX t (by decide) m hmf
  · rcases List.mem_map.mp hm with ⟨m, hmf, rfl⟩
    exact finditer_span_bounds NAME_RX t (by decide) m (List.mem_of_mem_filter hmf)

end Secureprompt

namespace Secureprompt

/-- `_append_non_overlapping` only emits hits that were already accepted or
are among its candidates. -/
theorem appendNO_mem : ∀ (cands : List Hit) (out : List Hit) (taken : List (Nat × Nat))
    (h : Hit), h ∈ (appendNO out taken cands).1 → h ∈ out ∨ h ∈ cands := by
  intro cands
  induction cands with
  | nil =>
    intro out taken h hm
    exact Or.inl hm
  | cons e rest ih =>
    intro out taken h hm
    unfold appendNO at hm
    by_cases hfree : spanFree (e.hstart, e.hstop) taken = true
    · rw [if_pos hfree] at hm
      rcases ih _ _ h hm with hm | hm
      · rcases List.mem_append.mp hm with hm | hm
        · exact Or.inl hm
        · exact Or.inr (List.mem_cons.mpr (Or.inl (List.mem_singleton.mp hm)))
      · exact Or.inr (List.mem_cons_of_mem e hm)
    · rw [if_neg hfree] at hm
      rcases ih _ _ h hm with hm | hm
      · exact Or.inl hm
      · exact Or.inr (List.mem_cons_of_mem e hm)

/-- Through a chain of passes, every accepted hit comes from the initial
state or from one of the passes at some `taken` list. -/
theorem appendNO_chain_mem (passes : List (List (Nat × Nat) → List Hit)) :
    ∀ (st : List Hit × List (Nat × Nat)) (h : Hit),
    h ∈ (passes.foldl (fun st2 p => appendNO st2.1 st2.2 (p st2.2)) st).1 →
      h ∈ st.1 ∨ ∃ p ∈ passes, ∃ tk, h ∈ p tk := by
  induction passes with
  | nil =>
    intro st h hm
    exact Or.inl hm
  | cons p rest ih =>
    intro st h hm
    rw [List.foldl_cons] at hm
    rcases ih (appendNO st.1 st.2 (p st.2)) h hm with hm | ⟨q, hq, tk, hqm⟩
    · rcases appendNO_mem (p st.2) st.1 st.2 h hm with hm | hm
      · exact Or.inl hm
      · exact Or.inr ⟨p, List.mem_cons_self p rest, st.2, hm⟩
    · exact Or.inr ⟨q, List.mem_cons_of_mem p hq, tk, hqm⟩

/-- Every entity `detect` returns has a non-empty half-open span inside the
input text. -/
theorem detect_hit_bounds (text : String) :
    ∀ h ∈ detect text, h.hstart < h.hstop ∧ h.hstop ≤ text.data.length := by
  intro h hm
  unfold detect at hm
  by_cases hemp : text.data.isEmpty = true
  · simp [hemp] at hm
  · simp only [hemp, Bool.false_eq_true, if_false] at hm
    have hm2 := (List.perm_insertionSort detectLe _).mem_iff.mp hm
    have hchain := appendNO_chain_mem
      [fun tk => passIban text.data tk, fun tk => passBic text.data tk,
       fun tk => passEmail text.data tk, fun tk => passDob text.data tk,
       fun tk => passDate text.data tk, fun tk => passYear text.data tk,
       fun tk => passAmountCurrency text.data tk, fun tk => passPan text.data tk,
       fun tk => passStatus text.data tk, fun tk => passTransferId text.data tk,
       fun tk => passPhone text.data tk, fun tk => passName text.data tk]
      ([], []) h hm2
    rcases hchain with hnil | ⟨p, hp, tk, hpm⟩
    · exact absurd hnil (List.not_mem_nil h)
    · simp only [List.mem_cons, List.not_mem_nil, or_false] at hp
      rcases hp with rfl | rfl | rfl | rfl | rfl | rfl | rfl | rfl | rfl | rfl | rfl | rfl
      · exact pass_hit_bounds text.data tk h (Or.inl hpm)
      · exact pass_hit_bounds text.data tk h (Or.inr (Or.inl hpm))
      · exact pass_hit_bounds text.data tk h (Or.inr (Or.inr (Or.inl hpm)))
      · exact pass_hit_bounds text.data tk h (Or.inr (Or.inr (Or.inr (Or.inl hpm))))
      · exact pass_hit_bounds text.data tk h (Or.inr (Or.inr (Or.inr (Or.inr (Or.inl hpm)))))
      · exact pass_hit_bounds text.data tk h (Or.inr (Or.inr (Or.inr (Or.inr (Or.inr (Or.inl hpm))))))
      · exact pass_hit_bounds text.data tk h (Or.inr (Or.inr (Or.inr (Or.inr (Or.inr (Or.inr (Or.inl hpm)))))))
      · exact pass_hit_bounds text.data tk h (Or.inr (Or.inr (Or.inr (Or.inr (Or.inr (Or.inr (Or.inr (Or.inl hpm))))))))
      · exact pass_hit_bounds text.data tk h (Or.inr (Or.inr (Or.inr (Or.inr (Or.inr (Or.inr (Or.inr (Or.inr (Or.inl hpm)))))))))
      · exact pass_hit_bounds text.data tk h (Or.inr (Or.inr (Or.inr (Or.inr (Or.inr (Or.inr (Or.inr (Or.inr (Or.inr (Or.inl hpm))))))))))
      · exact pass_hit_bounds text.data tk h (Or.inr (Or.inr (Or.inr (Or.inr (Or.inr (Or.inr (Or.inr (Or.inr (Or.inr (Or.inr (Or.inl hpm)))))))))))
      · exact pass_hit_bounds text.data tk h (Or.inr (Or.inr (Or.inr (Or.inr (Or.inr (Or.inr (Or.inr (Or.inr (Or.inr (Or.inr (Or.inr hpm)))))))))))

end Secureprompt

namespace Secureprompt

/-- The first component of one scrub step: splice the identifier over the
hit's span. -/
theorem scrubStep_fst (L : String) (st : List Char × List PublicEntity × List RcptPre)
    (h : CHit) :
    (scrubStep L st h).1 = spliceL st.1 h.hstart h.hstop (scrubIdentOf L h).data := rfl

/-- The public-entity component of one scrub step appends the hit's public
row. -/
theorem scrubStep_pub (L : String) (st : List Char × List PublicEntity × List RcptPre)
    (h : CHit) :
    (scrubStep L st h).2.1 = st.2.1 ++ [pubOf L h] := rfl

end Secureprompt

namespace Secureprompt

/-- Lexicographic comparison of nonempty key lists bounds the heads. -/
theorem natListLt_cons_le {x y : Nat} {xs ys : List Nat}
    (h : natListLt (x :: xs) (y :: ys) = true) : x ≤ y := by
  unfold natListLt at h
  simp only [Bool.or_eq_true, Bool.and_eq_true, decide_eq_true_eq, beq_iff_eq] at h
  rcases h with h | ⟨h, _⟩ <;> omega

/-- The detect ordering is monotone in the start offset. -/
theorem detectLe_start {a b : Hit} (h : detectLe a b) : a.hstart ≤ b.hstart := by
  unfold detectLe detectKey at h
  simp only [Bool.or_eq_true, beq_iff_eq] at h
  rcases h with h | h
  · exact natListLt_cons_le h
  · exact le_of_eq (List.cons.inj h).1

/-- In detect output order, each hit ends before the next begins. -/
theorem detect_span_chain (text : String) :
    List.Pairwise (fun a b => a.hstop ≤ b.hstart) (detect text) := by
  have hd := detect_disjoint text
  have hs := detect_le_sorted text
  have hb := detect_hit_bounds text
  refine List.Pairwise.imp_of_mem ?_ (hd.and hs)
  intro a b ha hbm hab
  have h2 := detectLe_start hab.2
  obtain ⟨hb1a, hb1b⟩ := hb a ha
  obtain ⟨hb2a, hb2b⟩ := hb b hbm
  have h1 := hab.1
  unfold hitsDisjoint overlapsB at h1
  simp only [Bool.not_eq_false', Bool.or_eq_true, decide_eq_true_eq] at h1
  omega

/-- The span chain survives confidence annotation. -/
theorem scrub_hits_chain (text : String) :
    List.Pairwise (fun a b : CHit => a.hstop ≤ b.hstart) (addConfidence (detect text)) := by
  unfold addConfidence
  rw [List.pairwise_map]
  exact detect_span_chain text

/-- Hit bounds survive confidence annotation. -/
theorem scrub_hits_bounds (text : String) :
    ∀ h ∈ addConfidence (detect text), h.hstart < h.hstop ∧ h.hstop ≤ text.data.length := by
  intro h hm
  unfold addConfidence at hm
  rcases List.mem_map.mp hm with ⟨h0, hm0, rfl⟩
  exact detect_hit_bounds text h0 hm0

end Secureprompt

namespace Secureprompt

/-- Inserting an element that sorts after everything appends it. -/
theorem orderedInsert_forall_neg (a : CHit) : ∀ (l : List CHit),
    (∀ b ∈ l, ¬ descByStart a b) →
    List.orderedInsert descByStart a l = l ++ [a] := by
  intro l
  induction l with
  | nil => intro _; rfl
  | cons b rest ih =>
    intro hall
    rw [List.orderedInsert, if_neg (hall b (List.mem_cons_self b rest)),
      ih (fun x hx => hall x (List.mem_cons_of_mem b hx))]
    rfl

/-- On a list with strictly increasing starts, the descending-start sort is
exactly the reverse. -/
theorem insertionSort_desc_reverse : ∀ (l : List CHit),
    List.Pairwise (fun a b : CHit => a.hstart < b.hstart) l →
    List.insertionSort descByStart l = l.reverse := by
  intro l
  induction l with
  | nil => intro _; rfl
  | cons a rest ih =>
    intro hp
    rw [List.insertionSort, ih hp.of_cons,
      orderedInsert_forall_neg a rest.reverse ?_, List.reverse_cons]
    intro b hb
    have hlt := (List.pairwise_cons.mp hp).1 b (List.mem_reverse.mp hb)
    unfold descByStart
    omega

end Secureprompt

namespace Secureprompt

/-- The scrub loop processed right-to-left over chained in-bounds hits
produces the untouched prefix followed by the segment interleaving. -/
theorem scrub_foldr_splice (L : String) (t : List Char) :
    ∀ (hits : List CHit) (P : List PublicEntity) (R : List RcptPre) (m : Nat),
    (∀ h ∈ hits, h.hstart ≤ h.hstop ∧ h.hstop ≤ t.length) →
    List.Pairwise (fun a b : CHit => a.hstop ≤ b.hstart) hits →
    (∀ h ∈ hits, m ≤ h.hstart) →
    (hits.foldr (fun h st => scrubStep L st h) (t, P, R)).1 =
      t.take m ++ scrubSegments t m
        (hits.map (fun h => (h.hstart, h.hstop, scrubIdentOf L h))) := by
  intro hits
  induction hits with
  | nil =>
    intro P R m _ _ _
    exact (List.take_append_drop m t).symm
  | cons h rest ih =>
    intro P R m hb hp hm
    rw [List.foldr_cons, scrubStep_fst]
    obtain ⟨hse, hel⟩ := hb h (List.mem_cons_self h rest)
    have hms := hm h (List.mem_cons_self h rest)
    rw [ih P R h.hstop (fun x hx => hb x (List.mem_cons_of_mem h hx)) hp.of_cons
      (fun x hx => (List.pairwise_cons.mp hp).1 x hx)]
    rw [List.map_cons]
    show (t.take h.hstop ++ _).take h.hstart ++ _ ++ (t.take h.hstop ++ _).drop h.hstop =
      t.take m ++ (sliceL t m h.hstart ++ _ ++ _)
    have hlen : (t.take h.hstop).length = h.hstop := by
      rw [List.length_take]
      omega
    rw [List.take_append_of_le_length (by omega), List.take_take, min_eq_left hse]
    rw [List.drop_append_of_le_length (by omega), List.drop_eq_nil_of_le (by omega),
      List.nil_append]
    unfold sliceL
    have hpre : t.take m ++ ((t.take h.hstart).drop m) = t.take h.hstart := by
      conv_rhs => rw [← List.take_append_drop m (t.take h.hstart)]
      rw [List.take_take, min_eq_left hms]
    conv_lhs => rw [← hpre]
    simp [List.append_assoc]

end Secureprompt

namespace Secureprompt

/-- Every public entity the scrub loop accumulates is the public row of one
of the hits. -/
theorem scrub_foldr_pub (L : String) (t : List Char) :
    ∀ (hits : List CHit) (P : List PublicEntity) (R : List RcptPre) (pe : PublicEntity),
    pe ∈ (hits.foldr (fun h st => scrubStep L st h) (t, P, R)).2.1 →
    pe ∈ P ∨ ∃ h ∈ hits, pe = pubOf L h := by
  intro hits
  induction hits with
  | nil =>
    intro P R pe hm
    exact Or.inl hm
  | cons h rest ih =>
    intro P R pe hm
    rw [List.foldr_cons, scrubStep_pub] at hm
    rcases List.mem_append.mp hm with hm | hm
    · rcases ih P R pe hm with hm | ⟨x, hx, hpe⟩
      · exact Or.inl hm
      · exact Or.inr ⟨x, List.mem_cons_of_mem h hx, hpe⟩
    · exact Or.inr ⟨h, List.mem_cons_self h rest, List.mem_singleton.mp hm⟩

/-- `round1` preserves the length of the state vector. -/
theorem round1_length (st : List Nat) (kw : Nat × Nat) :
    (round1 st kw).length = st.length := by
  unfold round1
  split
  · rfl
  · rfl

/-- The 64 compression rounds preserve the state length. -/
theorem foldl_round1_length : ∀ (l : List (Nat × Nat)) (st : List Nat),
    (l.foldl (fun s kw => round1 s kw) st).length = st.length := by
  intro l
  induction l with
  | nil => intro st; rfl
  | cons kw rest ih =>
    intro st
    rw [List.foldl_cons, ih, round1_length]

/-- `compress` keeps an 8-word state. -/
theorem compress_length (st : List Nat) (block : List Nat) (h : st.length = 8) :
    (compress st block).length = 8 := by
  unfold compress
  rw [List.length_map, List.length_zip, foldl_round1_length, h, min_self]

/-- Folding `compress` over any chunk list keeps an 8-word state. -/
theorem foldl_compress_length : ∀ (chunks : List (List Nat)) (st : List Nat),
    st.length = 8 → (chunks.foldl compress st).length = 8 := by
  intro chunks
  induction chunks with
  | nil => intro st h; exact h
  | cons b rest ih =>
    intro st h
    rw [List.foldl_cons]
    exact ih _ (compress_length st b h)

/-- Hex digits of values below 16 are lowercase hex characters. -/
theorem hexDigit_hex (n : Nat) (h : n < 16) : isHexChar (hexDigit n) = true := by
  interval_cases n <;> decide

/-- Every character `wordHex` produces is a hex character. -/
theorem wordHex_hex (w : Nat) : ∀ ch ∈ wordHex w, isHexChar ch = true := by
  intro ch hch
  unfold wordHex at hch
  simp only [List.mem_cons, List.not_mem_nil, or_false] at hch
  rcases hch with rfl | rfl | rfl | rfl | rfl | rfl | rfl | rfl <;>
    exact hexDigit_hex _ (Nat.mod_lt _ (by omega))

/-- A SHA-256 hex digest has 64 characters, all lowercase hex. -/
theorem sha256HexChars_shape (s : List Char) :
    (sha256HexChars s).length = 64 ∧ ∀ ch ∈ sha256HexChars s, isHexChar ch = true := by
  unfold sha256HexChars
  have hst : ((chunks64 ((padMsg (utf8Bytes s)).length + 1)
      (padMsg (utf8Bytes s))).foldl compress sha256Init).length = 8 :=
    foldl_compress_length _ _ rfl
  constructor
  · rw [List.length_flatMap]
    have hsum : ∀ (l : List Nat), (l.map (List.length ∘ wordHex)).sum = 8 * l.length := by
      intro l
      induction l with
      | nil => rfl
      | cons w rest ih =>
        rw [List.map_cons, List.sum_cons, ih, List.length_cons]
        show 8 + 8 * rest.length = 8 * (rest.length + 1)
        ring
    rw [hsum, hst]
  · intro ch hch
    rcases List.mem_flatMap.mp hch with ⟨w, _, hw⟩
    exact wordHex_hex w ch hw

end Secureprompt

namespace Secureprompt

/-- A list is a prefix of itself followed by anything. -/
theorem startsWithL_self_append : ∀ (p rest : List Char), startsWithL p (p ++ rest) = true := by
  intro p
  induction p with
  | nil => intro rest; rfl
  | cons c cs ih =>
    intro rest
    show (c == c && startsWithL cs (cs ++ rest)) = true
    rw [ih, beq_self_eq_true]
    rfl

/-- The identifiers `_identifier` builds match the
`{tier}::{label}::[0-9a-f]{10}` pattern. -/
theorem matchesIdPattern_identifierOf (l v cl : String) :
    matchesIdPattern cl l (identifierOf l v cl) = true := by
  have hdata : ∀ (a b : String), (a ++ b).data = a.data ++ b.data := fun _ _ => rfl
  unfold matchesIdPattern identifierOf
  simp only [hdata]
  rw [List.append_assoc (cl.data ++ "::".data ++ l.data) ("::".data)]
  rw [← List.append_assoc (cl.data ++ "::".data ++ l.data) ("::".data)]
  rw [startsWithL_self_append, List.drop_left]
  obtain ⟨hlen, hhex⟩ := sha256HexChars_shape (saltDefault.data ++ v.data)
  have h10 : (List.take 10 (sha256HexChars (saltDefault.data ++ v.data))).length = 10 := by
    rw [List.length_take, hlen]
    decide
  rw [h10]
  have hall : (List.take 10 (sha256HexChars (saltDefault.data ++ v.data))).all isHexChar = true := by
    rw [List.all_eq_true]
    intro ch hch
    exact hhex ch (List.mem_of_mem_take hch)
  rw [hall]
  rfl

end Secureprompt

namespace Secureprompt

/-- C1 (corrected): for every crypto backend, operation id, input text and
requested tier, the scrubbed text is exactly the input with each detected
span replaced by its identifier (the segment interleaving), and every public
entity carries an identifier of the `tier::label::hex10` shape together
with, at most, a mask preview of at least three asterisks — never a
raw-value field; the original claim's stronger "no byte-exact substring"
property fails (see the counterexample). -/
theorem C1_scrub_shape (c : Crypto) (op text L : String) :
    (scrubText c op text L).scrubbed.data =
      scrubSegments text.data 0
        ((addConfidence (detect text)).map
          (fun h => (h.hstart, h.hstop, scrubIdentOf L h))) ∧
    ∀ pe ∈ (scrubText c op text L).entities,
      matchesIdPattern pe.clevel pe.label pe.identifier = true ∧
      ∀ mp, pe.maskPreview = some mp → 3 ≤ mp.data.length ∧ ∀ ch ∈ mp.data, ch = '*' := by
  have hchain := scrub_hits_chain text
  have hbounds := scrub_hits_bounds text
  have hstrict : List.Pairwise (fun a b : CHit => a.hstart < b.hstart)
      (addConfidence (detect text)) := by
    refine List.Pairwise.imp_of_mem ?_ hchain
    intro a b ha _ hab
    have h1 := (hbounds a ha).1
    omega
  constructor
  · have h1 : (scrubText c op text L).scrubbed.data =
        ((List.insertionSort descByStart (addConfidence (detect text))).foldl
          (scrubStep L) (text.data, [], [])).1 := rfl
    rw [h1, insertionSort_desc_reverse _ hstrict, List.foldl_reverse]
    rw [scrub_foldr_splice L text.data _ [] [] 0
      (fun h hm => ⟨le_of_lt (hbounds h hm).1, (hbounds h hm).2⟩) hchain
      (fun h _ => Nat.zero_le _)]
    rw [List.take_zero, List.nil_append]
  · intro pe hm
    have he : (scrubText c op text L).entities =
        List.insertionSort pubLe
          (((List.insertionSort descByStart (addConfidence (detect text))).foldl
            (scrubStep L) (text.data, [], [])).2.1.reverse) := rfl
    rw [he, insertionSort_desc_reverse _ hstrict, List.foldl_reverse] at hm
    have hm2 := (List.perm_insertionSort pubLe _).mem_iff.mp hm
    rw [List.mem_reverse] at hm2
    rcases scrub_foldr_pub L text.data _ [] [] pe hm2 with hnil | ⟨h, _, rfl⟩
    · exact absurd hnil (List.not_mem_nil pe)
    · constructor
      · exact matchesIdPattern_identifierOf h.label h.value
          (entityDefaultCLevel h.label L)
      · intro mp hmp
        have hmpv : mp = maskValue h.value := by
          unfold pubOf at hmp
          simp only at hmp
          split at hmp <;> split at hmp <;>
            first
            | exact (Option.some.inj hmp).symm
            | exact Option.noConfusion hmp
        subst hmpv
        unfold maskValue
        constructor
        · rw [List.length_replicate]
          exact le_max_right _ _
        · intro ch hch
          exact (List.mem_replicate.mp hch).2

end Secureprompt

namespace Secureprompt

/-- Facts about digit characters: they are digits, word characters, match
`\d`, and carry their value. -/
theorem digit_char_facts (d : Nat) (hd : d < 10) :
    ccMatches digitCC (digitChar d) = true ∧ isWordC (digitChar d) = true ∧
    isDigitC (digitChar d) = true ∧ digitVal (digitChar d) = d := by
  interval_cases d <;> exact ⟨by decide, by decide, by decide, by decide⟩

/-- The named classes that reject every digit character. -/
theorem ccFalse_digit (cc : CC)
    (hcc : cc ∈ [panSepCC, upperCI, upperCC, bBCC, dateSepCC]) (d : Nat) (hd : d < 10) :
    ccMatches cc (digitChar d) = false := by
  fin_cases hcc <;> interval_cases d <;> decide

/-- A single-character class whose character is not a digit rejects every
digit character. -/
theorem ccMatches_single_digit (c : Char) (hc : isDigitC c = false) (ci : Bool)
    (d : Nat) (hd : d < 10) : ccMatches ⟨[], [c], false, ci⟩ (digitChar d) = false := by
  have key : ∀ x : Char, isDigitC x = true → asciiLower x = x → asciiUpper x = x →
      ccMatches ⟨[], [c], false, ci⟩ x = false := by
    intro x hxd hl hu
    have hxc : (x == c) = false := by
      cases hb : x == c with
      | false => rfl
      | true =>
        rw [← eq_of_beq hb] at hc
        rw [hxd] at hc
        exact Bool.noConfusion hc
    unfold ccMatches inBase
    simp only [hxc, hl, hu, List.contains]
    have hne : ¬ x = c := by
      intro he
      rw [he, beq_self_eq_true] at hxc
      exact Bool.noConfusion hxc
    simp [hne]
  interval_cases d <;> exact key _ (by decide) (by decide) (by decide)

end Secureprompt

namespace Secureprompt

/-- A class that rejects every character of the text never matches. -/
theorem run_cls_digit_nil (t : List Char) (hT : ∀ c ∈ t, ∃ d, d < 10 ∧ c = digitChar d)
    (cc : CC) (hcc : ∀ d, d < 10 → ccMatches cc (digitChar d) = false) (p : Nat) :
    run t (.cls cc) p = [] := by
  simp only [run]
  cases hg : t.get? p with
  | none => rfl
  | some c =>
    obtain ⟨d, hd, rfl⟩ := hT c (List.get?_mem hg)
    show (if ccMatches cc (digitChar d) = true then [(([] : Caps), p + 1)] else []) = []
    rw [hcc d hd]
    rfl

/-- A sequence whose head never matches never matches. -/
theorem run_seq_nil_left (t : List Char) (a b : RE) (p : Nat) (h : run t a p = []) :
    run t (.seq a b) p = [] := by
  rw [run, h]
  rfl

/-- A sequence whose tail never matches anywhere never matches. -/
theorem run_seq_nil_right (t : List Char) (a b : RE) (h : ∀ q, run t b q = []) (p : Nat) :
    run t (.seq a b) p = [] := by
  rw [run]
  refine List.flatMap_eq_nil_iff.mpr ?_
  intro cp _
  rw [h cp.2]
  rfl

/-- A mandatory repetition of a never-matching body never matches. -/
theorem run_rep_pos_nil (t : List Char) (r : RE) (lo hi p : Nat) (hlo : lo ≠ 0)
    (h : ∀ q, run t r q = []) : run t (.rep lo hi r) p = [] := by
  rw [run]
  cases hi with
  | zero =>
    unfold repAux
    rw [if_neg hlo]
  | succ n =>
    unfold repAux
    rw [h p]
    simp [hlo]

/-- A group over a never-matching body never matches. -/
theorem run_grp_nil (t : List Char) (i : Nat) (r : RE) (p : Nat) (h : run t r p = []) :
    run t (.grp i r) p = [] := by
  rw [run, h]
  rfl

/-- An alternation of never-matching branches never matches. -/
theorem run_altL_nil (t : List Char) : ∀ (l : List RE), l ≠ [] →
    (∀ r ∈ l, ∀ q, run t r q = []) → ∀ p, run t (altL l) p = [] := by
  intro l
  induction l with
  | nil => intro h; exact absurd rfl h
  | cons r rest ih =>
    intro _ hall p
    cases rest with
    | nil => exact hall r (List.mem_singleton.mpr rfl) p
    | cons a as =>
      show run t (.alt r (altL (a :: as))) p = []
      rw [run, hall r (List.mem_cons_self r _) p,
        ih (List.cons_ne_nil a as) (fun x hx => hall x (List.mem_cons_of_mem r hx)) p]
      rfl

/-- A sequence list whose first element never matches never matches. -/
theorem run_seqL_first_nil (t : List Char) (r : RE) (rest : List RE)
    (h : ∀ q, run t r q = []) (p : Nat) : run t (seqL (r :: rest)) p = [] := by
  cases rest with
  | nil => exact h p
  | cons a as =>
    show run t (.seq r (seqL (a :: as))) p = []
    exact run_seq_nil_left t r _ p (h p)

/-- If the pattern never matches, the scan finds nothing, from any start. -/
theorem finditerAux_nil (re : RE) (t : List Char) (h : ∀ q, run t re q = []) :
    ∀ (f p : Nat), finditerAux re t f p = [] := by
  intro f
  induction f with
  | zero => intro p; rfl
  | succ n ih =>
    intro p
    unfold finditerAux
    by_cases hl : t.length < p
    · rw [if_pos hl]
    · rw [if_neg hl, h p]
      exact ih (p + 1)

/-- If the pattern never matches, `finditer` returns nothing. -/
theorem finditer_nil (re : RE) (t : List Char) (h : ∀ q, run t re q = []) :
    finditer re t = [] := finditerAux_nil re t h (t.length + 1) 0

end Secureprompt

namespace Secureprompt

/-- On an all-digit text, `[A-Z]` (ci) never matches. -/
theorem run_upperCI_nil (t : List Char) (hT : ∀ c ∈ t, ∃ d, d < 10 ∧ c = digitChar d)
    (q : Nat) : run t (.cls upperCI) q = [] :=
  run_cls_digit_nil t hT upperCI (fun d hd => ccFalse_digit upperCI (by decide) d hd) q

/-- On an all-digit text, `[A-Z]` never matches. -/
theorem run_upperCC_nil (t : List Char) (hT : ∀ c ∈ t, ∃ d, d < 10 ∧ c = digitChar d)
    (q : Nat) : run t (.cls upperCC) q = [] :=
  run_cls_digit_nil t hT upperCC (fun d hd => ccFalse_digit upperCC (by decide) d hd) q

/-- On an all-digit text, a non-digit literal character never matches. -/
theorem run_chC_nil (t : List Char) (hT : ∀ c ∈ t, ∃ d, d < 10 ∧ c = digitChar d)
    (c : Char) (hc : isDigitC c = false) (q : Nat) : run t (chC c) q = [] :=
  run_cls_digit_nil t hT _ (fun d hd => ccMatches_single_digit c hc false d hd) q

/-- On an all-digit text, a non-digit case-insensitive literal never
matches. -/
theorem run_chCI_nil (t : List Char) (hT : ∀ c ∈ t, ∃ d, d < 10 ∧ c = digitChar d)
    (c : Char) (hc : isDigitC c = false) (q : Nat) : run t (chCI c) q = [] :=
  run_cls_digit_nil t hT _ (fun d hd => ccMatches_single_digit c hc true d hd) q

/-- On an all-digit text, `IBAN_RX` never matches. -/
theorem run_IBAN_nil (t : List Char) (hT : ∀ c ∈ t, ∃ d, d < 10 ∧ c = digitChar d)
    (p : Nat) : run t IBAN_RX p = [] := by
  have hgrp : ∀ q, run t (.grp 1 (seqL [.rep 2 2 (.cls upperCI), .rep 2 2 (.cls digitCI),
      .rep 2 7 (.seq (.opt (chCI ' ')) (.rep 3 4 (.cls alnumUpCI)))])) q = [] := by
    intro q
    refine run_grp_nil t 1 _ q ?_
    exact run_seqL_first_nil t _ _
      (fun q2 => run_rep_pos_nil t _ 2 2 q2 (by decide) (run_upperCI_nil t hT)) q
  refine run_seq_nil_right t _ _ ?_ p
  intro q
  refine run_seq_nil_right t _ _ ?_ q
  intro q2
  exact run_seq_nil_left t _ _ q2 (hgrp q2)

/-- On an all-digit text, `BIC_RX` never matches. -/
theorem run_BIC_nil (t : List Char) (hT : ∀ c ∈ t, ∃ d, d < 10 ∧ c = digitChar d)
    (p : Nat) : run t BIC_RX p = [] := by
  refine run_seq_nil_right t _ _ ?_ p
  intro q
  refine run_seq_nil_right t _ _ ?_ q
  intro q2
  refine run_seq_nil_left t _ _ q2 ?_
  refine run_grp_nil t 1 _ q2 ?_
  exact run_seqL_first_nil t _ _
    (fun q3 => run_rep_pos_nil t _ 4 4 q3 (by decide) (run_upperCC_nil t hT)) q2

/-- On an all-digit text, `EMAIL_RX` never matches. -/
theorem run_EMAIL_nil (t : List Char) (hT : ∀ c ∈ t, ∃ d, d < 10 ∧ c = digitChar d)
    (p : Nat) : run t EMAIL_RX p = [] := by
  refine run_seq_nil_right t _ _ ?_ p
  intro q
  refine run_seq_nil_right t _ _ ?_ q
  intro q2
  exact run_seq_nil_left t _ _ q2 (run_chC_nil t hT '@' (by decide) q2)

/-- On an all-digit text, `DOB_CTX_RX` never matches. -/
theorem run_DOB_nil (t : List Char) (hT : ∀ c ∈ t, ∃ d, d < 10 ∧ c = digitChar d)
    (p : Nat) : run t DOB_CTX_RX p = [] := by
  refine run_seq_nil_right t _ _ ?_ p
  intro q
  refine run_seq_nil_left t _ _ q ?_
  refine run_altL_nil t _ (by decide) ?_ q
  intro r hr
  simp only [List.mem_cons, List.not_mem_nil, or_false] at hr
  rcases hr with rfl | rfl | rfl
  · exact fun q2 => run_seqL_first_nil t _ _ (run_chC_nil t hT 'D' (by decide)) q2
  · exact fun q2 => run_seqL_first_nil t _ _
      (run_cls_digit_nil t hT bBCC (fun d hd => ccFalse_digit bBCC (by decide) d hd)) q2
  · exact fun q2 => run_seqL_first_nil t (litS ("born")) _
      (fun q3 => run_seqL_first_nil t _ _ (run_chC_nil t hT 'b' (by decide)) q3) q2

/-- On an all-digit text, `DATE_RX` never matches. -/
theorem run_DATE_nil (t : List Char) (hT : ∀ c ∈ t, ∃ d, d < 10 ∧ c = digitChar d)
    (p : Nat) : run t DATE_RX p = [] := by
  refine run_seq_nil_right t _ _ ?_ p
  intro q
  refine run_seq_nil_left t _ _ q ?_
  refine run_altL_nil t _ (by decide) ?_ q
  intro r hr
  simp only [List.mem_cons, List.not_mem_nil, or_false] at hr
  rcases hr with rfl | rfl
  · intro q2
    refine run_seq_nil_right t _ _ ?_ q2
    intro q3
    exact run_seq_nil_left t _ _ q3 (run_chC_nil t hT '-' (by decide) q3)
  · intro q2
    refine run_seq_nil_right t _ _ ?_ q2
    intro q3
    refine run_seq_nil_left t _ _ q3 ?_
    exact run_cls_digit_nil t hT dateSepCC (fun d hd => ccFalse_digit dateSepCC (by decide) d hd) q3

/-- On an all-digit text, the currency alternation never matches. -/
theorem run_cur_nil (t : List Char) (hT : ∀ c ∈ t, ∃ d, d < 10 ∧ c = digitChar d)
    (q : Nat) : run t curRE q = [] := by
  refine run_altL_nil t _ (by decide) ?_ q
  intro r hr
  simp only [curRE, curCodes, List.map_cons, List.map_nil, List.append_eq, List.cons_append,
    List.nil_append, List.mem_cons, List.not_mem_nil, or_false] at hr
  rcases hr with rfl | rfl | rfl | rfl | rfl | rfl | rfl | rfl | rfl | rfl | rfl | rfl | rfl |
    rfl | rfl | rfl | rfl | rfl | rfl | rfl | rfl | rfl | rfl | rfl | rfl | rfl | rfl | rfl
  · exact run_chCI_nil t hT '€' (by decide)
  · exact run_chCI_nil t hT '$' (by decide)
  · exact run_chCI_nil t hT '£' (by decide)
  · exact run_chCI_nil t hT '¥' (by decide)
  all_goals
    exact fun q2 => run_seqL_first_nil t _ _ (fun q3 => run_chCI_nil t hT _ (by decide) q3) q2

/-- On an all-digit text, `CUR_AMT_RX1` never matches. -/
theorem run_CUR1_nil (t : List Char) (hT : ∀ c ∈ t, ∃ d, d < 10 ∧ c = digitChar d)
    (p : Nat) : run t CUR_AMT_RX1 p = [] := by
  refine run_seq_nil_right t _ _ ?_ p
  intro q
  exact run_seq_nil_left t _ _ q (run_grp_nil t 1 _ q (run_cur_nil t hT q))

/-- On an all-digit text, `CUR_AMT_RX2` never matches. -/
theorem run_CUR2_nil (t : List Char) (hT : ∀ c ∈ t, ∃ d, d < 10 ∧ c = digitChar d)
    (p : Nat) : run t CUR_AMT_RX2 p = [] := by
  refine run_seq_nil_right t _ _ ?_ p
  intro q
  refine run_seq_nil_right t _ _ ?_ q
  intro q2
  refine run_seq_nil_right t _ _ ?_ q2
  intro q3
  exact run_seq_nil_left t _ _ q3 (run_grp_nil t 2 _ q3 (run_cur_nil t hT q3))

/-- On an all-digit text, `STATUS_RX` never matches. -/
theorem run_STATUS_nil (t : List Char) (hT : ∀ c ∈ t, ∃ d, d < 10 ∧ c = digitChar d)
    (p : Nat) : run t STATUS_RX p = [] := by
  refine run_seq_nil_right t _ _ ?_ p
  intro q
  refine run_seq_nil_left t _ _ q ?_
  refine run_grp_nil t 1 _ q ?_
  refine run_altL_nil t _ (by decide) ?_ q
  intro r hr
  simp only [statusWords, List.map_cons, List.map_nil, List.mem_cons, List.not_mem_nil,
    or_false] at hr
  rcases hr with rfl | rfl | rfl | rfl | rfl | rfl | rfl | rfl | rfl | rfl | rfl | rfl | rfl |
    rfl | rfl
  all_goals
    exact fun q2 => run_seqL_first_nil t _ _ (fun q3 => run_chCI_nil t hT _ (by decide) q3) q2

/-- On an all-digit text, `XFER_RX` never matches. -/
theorem run_XFER_nil (t : List Char) (hT : ∀ c ∈ t, ∃ d, d < 10 ∧ c = digitChar d)
    (p : Nat) : run t XFER_RX p = [] := by
  refine run_seq_nil_right t _ _ ?_ p
  intro q
  refine run_seq_nil_left t _ _ q ?_
  refine run_altL_nil t _ (by decide) ?_ q
  intro r hr
  simp only [List.mem_cons, List.not_mem_nil, or_false] at hr
  rcases hr with rfl | rfl | rfl | rfl
  · exact fun q2 => run_seqL_first_nil t _ _ (fun q3 => run_chCI_nil t hT 'T' (by decide) q3) q2
  · exact fun q2 => run_seqL_first_nil t _ _ (fun q3 => run_chCI_nil t hT 'T' (by decide) q3) q2
  · exact fun q2 => run_seqL_first_nil t _ _ (fun q3 => run_chCI_nil t hT 'T' (by decide) q3) q2
  · exact fun q2 => run_seq_nil_left t _ _ q2
      (run_seqL_first_nil t _ _ (fun q3 => run_chCI_nil t hT 'T' (by decide) q3) q2)

/-- On an all-digit text, `NAME_RX` never matches. -/
theorem run_NAME_nil (t : List Char) (hT : ∀ c ∈ t, ∃ d, d < 10 ∧ c = digitChar d)
    (p : Nat) : run t NAME_RX p = [] := by
  refine run_seq_nil_right t _ _ ?_ p
  intro q
  refine run_seq_nil_left t _ _ q ?_
  refine run_grp_nil t 1 _ q ?_
  exact run_seqL_first_nil t _ _ (run_upperCC_nil t hT) q

end Secureprompt

namespace Secureprompt

/-- Bounded repetition of a fixed-width body consumes a multiple of the
width between the bounds. -/
theorem repAux_fixedWidth (t : List Char) (r : RE) (v : Nat)
    (hr : ∀ p, ∀ cp ∈ run t r p, cp.2 = p + v) :
    ∀ (hi lo p : Nat), ∀ cp ∈ repAux (run t r) lo hi p,
      ∃ k, lo ≤ k ∧ k ≤ hi ∧ cp.2 = p + k * v := by
  intro hi
  induction hi with
  | zero =>
    intro lo p cp hm
    unfold repAux at hm
    by_cases hlo : lo = 0
    · rw [if_pos hlo] at hm
      rcases List.mem_singleton.mp hm with rfl
      exact ⟨0, by omega, by omega, by omega⟩
    · rw [if_neg hlo] at hm
      exact absurd hm (List.not_mem_nil cp)
  | succ n ih =>
    intro lo p cp hm
    unfold repAux at hm
    rcases List.mem_append.mp hm with hm | hm
    · rcases List.mem_flatMap.mp hm with ⟨cp0, hcp0, hin⟩
      rcases List.mem_map.mp hin with ⟨cq, hcq, rfl⟩
      obtain ⟨k, hk1, hk2, hk3⟩ := ih (lo - 1) cp0.2 cq hcq
      refine ⟨k + 1, by omega, by omega, ?_⟩
      show cq.2 = p + (k + 1) * v
      rw [hk3, hr p cp0 hcp0]
      ring
    · by_cases hlo : lo = 0
      · rw [if_pos hlo] at hm
        rcases List.mem_singleton.mp hm with rfl
        exact ⟨0, by omega, by omega, by omega⟩
      · rw [if_neg hlo] at hm
        exact absurd hm (List.not_mem_nil cp)

/-- A fixed-width regex consumes exactly its width. -/
theorem runFixedWidth (t : List Char) : ∀ (r : RE) (w : Nat), fixedWidth r = some w →
    ∀ (p : Nat), ∀ cp ∈ run t r p, cp.2 = p + w := by
  intro r
  induction r with
  | eps =>
    intro w hw p cp hm
    rcases Option.some.inj hw with rfl
    rcases List.mem_singleton.mp hm with rfl
    rfl
  | cls cc =>
    intro w hw p cp hm
    rcases Option.some.inj hw with rfl
    simp only [run] at hm
    cases hg : t.get? p with
    | none => rw [hg] at hm; exact absurd hm (List.not_mem_nil cp)
    | some c =>
      rw [hg] at hm
      have hm2 : cp ∈ (if ccMatches cc c = true then [(([] : Caps), p + 1)] else []) := hm
      by_cases hc : ccMatches cc c = true
      · rw [if_pos hc] at hm2
        rcases List.mem_singleton.mp hm2 with rfl
        rfl
      · rw [if_neg hc] at hm2
        exact absurd hm2 (List.not_mem_nil cp)
  | seq a b iha ihb =>
    intro w hw p cp hm
    unfold fixedWidth at hw
    cases ha : fixedWidth a with
    | none => rw [ha] at hw; exact Option.noConfusion hw
    | some x =>
      cases hb : fixedWidth b with
      | none => rw [ha, hb] at hw; exact Option.noConfusion hw
      | some y =>
        rw [ha, hb] at hw
        rcases Option.some.inj hw with rfl
        rw [run] at hm
        rcases List.mem_flatMap.mp hm with ⟨cp0, hcp0, hin⟩
        rcases List.mem_map.mp hin with ⟨cq, hcq, rfl⟩
        show cq.2 = p + (x + y)
        rw [ihb y hb cp0.2 cq hcq, iha x ha p cp0 hcp0]
        ring
  | alt a b iha ihb =>
    intro w hw p cp hm
    unfold fixedWidth at hw
    cases ha : fixedWidth a with
    | none => rw [ha] at hw; exact Option.noConfusion hw
    | some x =>
      cases hb : fixedWidth b with
      | none => rw [ha, hb] at hw; exact Option.noConfusion hw
      | some y =>
        rw [ha, hb] at hw
        have hw2 : (if x = y then some x else none) = some w := hw
        by_cases hxy : x = y
        · rw [if_pos hxy] at hw2
          rcases Option.some.inj hw2 with rfl
          rw [run] at hm
          rcases List.mem_append.mp hm with hm | hm
          · exact iha x ha p cp hm
          · rw [hxy]
            exact ihb y hb p cp hm
        · rw [if_neg hxy] at hw2
          exact Option.noConfusion hw2
  | rep lo hi r ihr =>
    intro w hw p cp hm
    unfold fixedWidth at hw
    by_cases hlh : lo = hi
    · rw [if_pos hlh] at hw
      cases hr : fixedWidth r with
      | none => rw [hr] at hw; exact Option.noConfusion hw
      | some v =>
        rw [hr] at hw
        rcases Option.some.inj hw with rfl
        rw [run] at hm
        obtain ⟨k, hk1, hk2, hk3⟩ :=
          repAux_fixedWidth t r v (fun q cq hq => ihr v hr q cq hq) hi lo p cp hm
        have hke : k = lo := by omega
        rw [hk3, hke]
    · rw [if_neg hlh] at hw
      exact Option.noConfusion hw
  | star r _ =>
    intro w hw
    exact Option.noConfusion hw
  | opt r _ =>
    intro w hw
    exact Option.noConfusion hw
  | wb =>
    intro w hw p cp hm
    rcases Option.some.inj hw with rfl
    rw [run] at hm
    by_cases hb : isWB t p = true
    · rw [if_pos hb] at hm
      rcases List.mem_singleton.mp hm with rfl
      rfl
    · rw [if_neg hb] at hm
      exact absurd hm (List.not_mem_nil cp)
  | grp i r ihr =>
    intro w hw p cp hm
    rw [run] at hm
    rcases List.mem_map.mp hm with ⟨cq, hcq, rfl⟩
    exact ihr w hw p cq hcq
  | lbn wd r _ =>
    intro w hw p cp hm
    rcases Option.some.inj hw with rfl
    rw [run] at hm
    by_cases hb : (wd ≤ p && (run t r (p - wd)).any (fun cq => cq.2 == p)) = true
    · rw [if_pos hb] at hm
      exact absurd hm (List.not_mem_nil cp)
    · rw [if_neg hb] at hm
      rcases List.mem_singleton.mp hm with rfl
      rfl

end Secureprompt

namespace Secureprompt

/-- On an all-digit text, a position is on a word character exactly when it
is inside the text. -/
theorem wordAt_digit (t : List Char) (hT : ∀ c ∈ t, ∃ d, d < 10 ∧ c = digitChar d)
    (q : Nat) : wordAt t q = decide (q < t.length) := by
  unfold wordAt
  cases hg : t.get? q with
  | none =>
    have := List.get?_eq_none.mp hg
    simp [Nat.not_lt_of_le this]
  | some c =>
    obtain ⟨d, hd, rfl⟩ := hT c (List.get?_mem hg)
    have hlt : q < t.length := by
      by_contra hq
      rw [List.get?_eq_none.mpr (Nat.le_of_not_lt hq)] at hg
      exact Option.noConfusion hg
    simp [hlt, (digit_char_facts d hd).2.1]

/-- On an all-digit text, word boundaries sit only at the two ends. -/
theorem isWB_digit (t : List Char) (hT : ∀ c ∈ t, ∃ d, d < 10 ∧ c = digitChar d)
    (p : Nat) (h : isWB t p = true) : 0 < t.length ∧ (p = 0 ∨ p = t.length) := by
  unfold isWB at h
  rw [wordAt_digit t hT p] at h
  by_cases hp : p = 0
  · rw [if_pos hp] at h
    subst hp
    simp only [bne_iff_ne, ne_eq] at h
    constructor
    · by_contra hn
      have h0 : t.length = 0 := by omega
      rw [h0] at h
      exact h (by decide)
    · exact Or.inl rfl
  · rw [if_neg hp, wordAt_digit t hT (p - 1)] at h
    simp only [bne_iff_ne, ne_eq, decide_eq_decide] at h
    constructor
    · omega
    · right
      omega

/-- On an all-digit text of length at least five, `YEAR_RX` never
matches. -/
theorem run_YEAR_nil (t : List Char) (hT : ∀ c ∈ t, ∃ d, d < 10 ∧ c = digitChar d)
    (hn : 4 < t.length) (p : Nat) : run t YEAR_RX p = [] := by
  show run t (.seq .wb (.seq (.grp 1 (altL [.seq (litS ("19")) (.rep 2 2 (.cls digitCC)),
    .seq (litS ("20")) (.rep 2 2 (.cls digitCC))])) .wb)) p = []
  rw [run]
  refine List.flatMap_eq_nil_iff.mpr ?_
  intro cp hcp
  have hcp2 : cp ∈ (if isWB t p = true then [(([] : Caps), p)] else []) := hcp
  by_cases hb : isWB t p = true
  · rw [if_pos hb] at hcp2
    rcases List.mem_singleton.mp hcp2 with rfl
    rcases isWB_digit t hT p hb with ⟨hpos, hp0 | hpn⟩
    · subst hp0
      show (run t (.seq _ .wb) 0).map _ = []
      rw [run]
      rw [List.flatMap_eq_nil_iff.mpr ?_]
      · rfl
      · intro cq hcq
        have hw : cq.2 = 0 + 4 := runFixedWidth t _ 4 (by decide) 0 cq hcq
        have hwb4 : isWB t 4 = false := by
          unfold isWB
          rw [wordAt_digit t hT, wordAt_digit t hT]
          have h3 : (3 : Nat) < t.length := by omega
          simp [h3, hn]
        show (run t .wb cq.2).map _ = []
        rw [hw, run]
        show ((if isWB t (0 + 4) = true then [(([] : Caps), 0 + 4)] else []).map _) = []
        rw [show (0 + 4 : Nat) = 4 by rfl, hwb4]
        rfl
    · subst hpn
      show (run t (.seq _ .wb) t.length).map _ = []
      rw [run]
      rw [List.flatMap_eq_nil_iff.mpr ?_]
      · rfl
      · intro cq hcq
        have hw : cq.2 = t.length + 4 := runFixedWidth t _ 4 (by decide) t.length cq hcq
        have hle := (runWF t _ t.length (le_refl _) cq hcq).2.1
        omega
  · rw [if_neg hb] at hcp2
    exact absurd hcp2 (List.not_mem_nil cp)

end Secureprompt

namespace Secureprompt

/-- Appending one element to the checked list adds its (parity-dependent)
contribution. -/
theorem specLuhnGo_append (x : Nat) : ∀ (l : List Nat) (dbl : Bool),
    specLuhnGo dbl (l ++ [x]) =
      specLuhnGo dbl l +
        (if xor dbl (decide (l.length % 2 = 1)) then (if x * 2 > 9 then x * 2 - 9 else x * 2)
         else x) := by
  intro l
  induction l with
  | nil =>
    intro dbl
    show (if dbl then (if x * 2 > 9 then x * 2 - 9 else x * 2) else x) + specLuhnGo (!dbl) [] =
      0 + _
    rw [show specLuhnGo (!dbl) [] = 0 from rfl]
    cases dbl <;> simp
  | cons y ys ih =>
    intro dbl
    show specLuhnGo dbl (y :: (ys ++ [x])) = specLuhnGo dbl (y :: ys) + _
    unfold specLuhnGo
    rw [ih (!dbl)]
    have hflag : xor (!dbl) (decide (ys.length % 2 = 1)) =
        xor dbl (decide ((y :: ys).length % 2 = 1)) := by
      have hlen : (y :: ys).length = ys.length + 1 := rfl
      rw [hlen]
      by_cases hq : ys.length % 2 = 1
      · have hq2 : ¬((ys.length + 1) % 2 = 1) := by omega
        simp [hq, hq2]
      · have hq2 : (ys.length + 1) % 2 = 1 := by omega
        simp [hq, hq2]
    rw [hflag]
    ring

/-- Shifting the start index flips the doubling parity. -/
theorem luhnSum_shift (P : Nat) (hP : P < 2) : ∀ (l : List Nat) (i : Nat),
    luhnSum P (i + 1) l = luhnSum ((P + 1) % 2) i l := by
  intro l
  induction l with
  | nil => intro i; rfl
  | cons d r ih =>
    intro i
    unfold luhnSum
    rw [ih (i + 1)]
    have hcond : ((i + 1) % 2 = P) ↔ (i % 2 = (P + 1) % 2) := by omega
    by_cases hq : (i + 1) % 2 = P
    · rw [if_pos hq, if_pos (hcond.mp hq)]
    · rw [if_neg hq, if_neg (fun hc => hq (hcond.mpr hc))]

/-- The spec's right-to-left Luhn pass equals the parity-indexed sum. -/
theorem specLuhnGo_reverse : ∀ (ds : List Nat) (dbl : Bool),
    specLuhnGo dbl ds.reverse =
      luhnSum ((ds.length + if dbl then 1 else 0) % 2) 0 ds := by
  intro ds
  induction ds with
  | nil => intro dbl; rfl
  | cons d r ih =>
    intro dbl
    rw [List.reverse_cons, specLuhnGo_append d r.reverse dbl, List.length_reverse, ih dbl]
    have hrhs : luhnSum (((d :: r).length + if dbl = true then 1 else 0) % 2) 0 (d :: r) =
        (if 0 % 2 = ((d :: r).length + if dbl = true then 1 else 0) % 2 then
          (if d * 2 > 9 then d * 2 - 9 else d * 2) else d) +
        luhnSum (((d :: r).length + if dbl = true then 1 else 0) % 2) (0 + 1) r := rfl
    rw [hrhs, luhnSum_shift _ (Nat.mod_lt _ (by omega)) r 0]
    have hP2 : ((((d :: r).length + if dbl = true then 1 else 0) % 2) + 1) % 2 =
        (r.length + if dbl = true then 1 else 0) % 2 := by
      have hl : (d :: r).length = r.length + 1 := rfl
      rw [hl]
      omega
    rw [hP2]
    have hiff : (xor dbl (decide (r.length % 2 = 1)) = true) ↔
        (0 % 2 = ((d :: r).length + if dbl = true then 1 else 0) % 2) := by
      have hl : (d :: r).length = r.length + 1 := rfl
      rw [hl]
      cases dbl <;> by_cases hq : r.length % 2 = 1 <;> simp [hq] <;> omega
    rw [if_congr hiff rfl rfl]
    ring

end Secureprompt

namespace Secureprompt

/-- The source's `enumerate` fold computes the parity-indexed sum. -/
theorem enumFrom_luhn (P : Nat) : ∀ (l : List Nat) (i acc : Nat),
    (List.enumFrom i l).foldl
      (fun acc iv =>
        acc + (if iv.1 % 2 = P then (if iv.2 * 2 > 9 then iv.2 * 2 - 9 else iv.2 * 2) else iv.2))
      acc = acc + luhnSum P i l := by
  intro l
  induction l with
  | nil => intro i acc; rfl
  | cons d r ih =>
    intro i acc
    show (List.enumFrom (i + 1) r).foldl _ (acc + _) = acc + luhnSum P i (d :: r)
    rw [ih (i + 1)]
    show acc + _ + luhnSum P (i + 1) r = acc + (_ + luhnSum P (i + 1) r)
    ring

/-- Splitting off an undoubled last element. -/
theorem luhnSum_dropLast (P : Nat) : ∀ (l : List Nat) (i : Nat) (a : Nat), l ≠ [] →
    ¬((i + l.length - 1) % 2 = P) →
    luhnSum P i l = luhnSum P i l.dropLast + l.getLastD a := by
  intro l
  induction l with
  | nil => intro i a h; exact absurd rfl h
  | cons d r ih =>
    intro i a _ hlast
    cases r with
    | nil =>
      show (if i % 2 = P then _ else d) + 0 = 0 + d
      have hi : ¬(i % 2 = P) := by
        have : i + 1 - 1 = i := by omega
        rw [show (d :: ([] : List Nat)).length = 1 from rfl] at hlast
        rw [this] at hlast
        exact hlast
      rw [if_neg hi]
      omega
    | cons e s =>
      show _ + luhnSum P (i + 1) (e :: s) = _ + luhnSum P (i + 1) (d :: e :: s).dropLast.tail +
        (d :: e :: s).getLastD a
      have hd : (d :: e :: s).dropLast = d :: (e :: s).dropLast := rfl
      have hg : (d :: e :: s).getLastD a = (e :: s).getLastD d := List.getLastD_cons d a (e :: s)
      rw [ih (i + 1) d (List.cons_ne_nil e s) ?_]
      · show _ + (luhnSum P (i + 1) (e :: s).dropLast + (e :: s).getLastD d) =
          _ + luhnSum P (i + 1) (e :: s).dropLast + (d :: e :: s).getLastD a
        rw [hg]
        ring
      · have h1 : (d :: e :: s).length = (e :: s).length + 1 := rfl
        rw [h1] at hlast
        have h2 : i + 1 + (e :: s).length - 1 = i + ((e :: s).length + 1) - 1 := by omega
        rw [h2]
        exact hlast

end Secureprompt

namespace Secureprompt

/-- `_luhn_ok` expressed over the extracted digit values. -/
theorem luhnOk_eq (number : List Char) (dg : List Nat)
    (h : (number.filter isDigitC).map digitVal = dg) :
    luhnOk number =
      (if dg.length < 13 then false
       else ((dg.dropLast.enum.foldl
          (fun acc iv => acc +
            (if iv.1 % 2 = (dg.length - 2) % 2 then
              (if iv.2 * 2 > 9 then iv.2 * 2 - 9 else iv.2 * 2)
             else iv.2)) 0 +
          dg.getLastD 0) % 10 == 0)) := by
  subst h
  rfl

/-- On a pure digit string, `_luhn_ok` accepts exactly the sequences of at
least 13 digits whose (spec-side) Luhn checksum is zero. -/
theorem luhnOk_digit (ds : List Nat) (hds : ∀ d ∈ ds, d < 10) :
    luhnOk (ds.map digitChar) = true ↔ 13 ≤ ds.length ∧ specLuhn ds = 0 := by
  have hfilter : (ds.map digitChar).filter isDigitC = ds.map digitChar := by
    rw [List.filter_eq_self]
    intro c hc
    rcases List.mem_map.mp hc with ⟨d, hd, rfl⟩
    exact (digit_char_facts d (hds d hd)).2.2.1
  have hdigits : ((ds.map digitChar).filter isDigitC).map digitVal = ds := by
    rw [hfilter, List.map_map]
    have hcong : ∀ d ∈ ds, (digitVal ∘ digitChar) d = d :=
      fun d hd => (digit_char_facts d (hds d hd)).2.2.2
    rw [List.map_congr_left hcong]
    exact List.map_id ds
  rw [luhnOk_eq (ds.map digitChar) ds hdigits]
  by_cases hlen : ds.length < 13
  · rw [if_pos hlen]
    exact ⟨fun h => absurd h (by simp), fun h => absurd h.1 (by omega)⟩
  · rw [if_neg hlen]
    have hL : 13 ≤ ds.length := by omega
    have hne : ds.dropLast.enum = List.enumFrom 0 ds.dropLast := rfl
    rw [hne, enumFrom_luhn]
    have hpar : (ds.length - 2) % 2 = ds.length % 2 := by omega
    rw [hpar]
    have hnil : ds ≠ [] := by
      intro he
      rw [he] at hL
      exact absurd hL (by decide)
    rw [Nat.zero_add]
    rw [← luhnSum_dropLast (ds.length % 2) ds 0 0 hnil (by omega)]
    have hspec : specLuhn ds = luhnSum (ds.length % 2) 0 ds % 10 := by
      unfold specLuhn
      rw [specLuhnGo_reverse ds false]
      simp
    constructor
    · intro h
      exact ⟨hL, by rw [hspec]; exact beq_iff_eq.mp h⟩
    · rintro ⟨_, h2⟩
      rw [hspec] at h2
      exact beq_iff_eq.mpr h2

end Secureprompt

namespace Secureprompt

/-- On an all-digit text, the PAN repetition body consumes exactly one
character. -/
theorem run_panBody (t : List Char) (hT : ∀ c ∈ t, ∃ d, d < 10 ∧ c = digitChar d) (p : Nat) :
    run t (.seq (.cls digitCC) (.opt (.cls panSepCC))) p =
      if p < t.length then [(([] : Caps), p + 1)] else [] := by
  rw [run]
  by_cases hp : p < t.length
  · rw [if_pos hp]
    cases hg : t.get? p with
    | none =>
      have := List.get?_eq_none.mp hg
      omega
    | some c =>
      obtain ⟨d, hd, rfl⟩ := hT c (List.get?_mem hg)
      have hcls : run t (.cls digitCC) p = [(([] : Caps), p + 1)] := by
        simp only [run]
        rw [hg]
        show (if ccMatches digitCC (digitChar d) = true then [(([] : Caps), p + 1)] else []) = _
        rw [(digit_char_facts d hd).1]
        rfl
      rw [hcls]
      have hsep : run t (.cls panSepCC) (p + 1) = [] :=
        run_cls_digit_nil t hT panSepCC (fun e he => ccFalse_digit panSepCC (by decide) e he) (p + 1)
      show (run t (.opt (.cls panSepCC)) (p + 1)).map _ ++ [] = _
      rw [run, hsep]
      rfl
  · rw [if_neg hp]
    have hcls : run t (.cls digitCC) p = [] := by
      simp only [run]
      rw [List.get?_eq_none.mpr (by omega)]
    rw [hcls]
    rfl

/-- On an all-digit text, the final digit-plus-boundary tail matches exactly
at the second-to-last position. -/
theorem run_panTail (t : List Char) (hT : ∀ c ∈ t, ∃ d, d < 10 ∧ c = digitChar d) (q : Nat) :
    run t (.seq (.cls digitCC) .wb) q =
      if q + 1 = t.length then [(([] : Caps), t.length)] else [] := by
  rw [run]
  by_cases hq : q < t.length
  · cases hg : t.get? q with
    | none =>
      have := List.get?_eq_none.mp hg
      omega
    | some c =>
      obtain ⟨d, hd, rfl⟩ := hT c (List.get?_mem hg)
      have hcls : run t (.cls digitCC) q = [(([] : Caps), q + 1)] := by
        simp only [run]
        rw [hg]
        show (if ccMatches digitCC (digitChar d) = true then [(([] : Caps), q + 1)] else []) = _
        rw [(digit_char_facts d hd).1]
        rfl
      rw [hcls]
      have hwb : isWB t (q + 1) = decide (q + 1 = t.length) := by
        unfold isWB
        rw [if_neg (by omega), wordAt_digit t hT, wordAt_digit t hT]
        have hq1 : q + 1 - 1 = q := by omega
        rw [hq1]
        by_cases he : q + 1 = t.length
        · simp [he, hq]
        · have hlt : q + 1 < t.length := by omega
          simp [hq, hlt, he]
      show (run t .wb (q + 1)).map _ ++ [] = _
      rw [run, hwb]
      by_cases he : q + 1 = t.length
      · rw [if_pos (by simp [he])]
        simp [he]
      · rw [if_neg (by simp [he]), if_neg he]
        rfl
  · have hcls : run t (.cls digitCC) q = [] := by
      simp only [run]
      rw [List.get?_eq_none.mpr (by omega)]
    rw [hcls, if_neg (by omega)]
    rfl

end Secureprompt

namespace Secureprompt

/-- On an all-digit text, the PAN repetition followed by the digit-boundary
tail matches exactly when the remaining length fits the repetition range,
always ending at the end of the text. -/
theorem pan_rep_tail (t : List Char) (hT : ∀ c ∈ t, ∃ d, d < 10 ∧ c = digitChar d) :
    ∀ (hi lo p : Nat), p ≤ t.length →
    (repAux (run t (.seq (.cls digitCC) (.opt (.cls panSepCC)))) lo hi p).flatMap
      (fun cp => (run t (.seq (.cls digitCC) .wb) cp.2).map (fun cq => (cp.1 ++ cq.1, cq.2)))
    = if lo ≤ t.length - 1 - p ∧ t.length - 1 - p ≤ hi ∧ p < t.length
      then [(([] : Caps), t.length)] else [] := by
  intro hi
  induction hi with
  | zero =>
    intro lo p hp
    unfold repAux
    by_cases hlo : lo = 0
    · rw [if_pos hlo]
      show (run t (.seq (.cls digitCC) .wb) p).map _ ++ [] = _
      rw [run_panTail t hT p, List.append_nil]
      by_cases he : p + 1 = t.length
      · rw [if_pos he, if_pos (by omega)]
        rfl
      · rw [if_neg he, if_neg (by omega)]
        rfl
    · rw [if_neg hlo]
      rw [if_neg (by omega)]
      rfl
  | succ m ih =>
    intro lo p hp
    unfold repAux
    rw [run_panBody t hT p]
    by_cases hp2 : p < t.length
    · rw [if_pos hp2]
      rw [List.flatMap_append]
      have hmapid : (fun cq : Caps × Nat => ((([] : Caps) ++ cq.1, cq.2))) =
        (id : Caps × Nat → Caps × Nat) := rfl
      have hfirst :
          (([(([] : Caps), p + 1)].flatMap
            (fun cp => (repAux (run t (.seq (.cls digitCC) (.opt (.cls panSepCC))))
              (lo - 1) m cp.2).map (fun cq => (cp.1 ++ cq.1, cq.2)))).flatMap
            (fun cp => (run t (.seq (.cls digitCC) .wb) cp.2).map
              (fun cq => (cp.1 ++ cq.1, cq.2))))
          = if lo - 1 ≤ t.length - 1 - (p + 1) ∧ t.length - 1 - (p + 1) ≤ m ∧
              p + 1 < t.length then [(([] : Caps), t.length)] else [] := by
        show ((repAux (run t (.seq (.cls digitCC) (.opt (.cls panSepCC)))) (lo - 1) m
            (p + 1)).map (fun cq : Caps × Nat => ((([] : Caps) ++ cq.1, cq.2))) ++
            []).flatMap _ = _
        rw [List.append_nil, hmapid, List.map_id]
        exact ih (lo - 1) (p + 1) (by omega)
      rw [hfirst]
      by_cases hlo : lo = 0
      · rw [if_pos hlo]
        have hsecond :
            (([(([] : Caps), p)]).flatMap
              (fun cp => (run t (.seq (.cls digitCC) .wb) cp.2).map
                (fun cq => (cp.1 ++ cq.1, cq.2))))
            = if p + 1 = t.length then [(([] : Caps), t.length)] else [] := by
          show (run t (.seq (.cls digitCC) .wb) p).map _ ++ [] = _
          rw [run_panTail t hT p, List.append_nil]
          by_cases he : p + 1 = t.length
          · rw [if_pos he]
            rfl
          · rw [if_neg he]
            rfl
        rw [hsecond]
        by_cases he : p + 1 = t.length
        · rw [if_pos he, if_neg (by omega), if_pos (by omega)]
          rfl
        · rw [if_neg he]
          by_cases hk : t.length - 1 - (p + 1) ≤ m
          · rw [if_pos (by omega), if_pos (by omega)]
            rfl
          · rw [if_neg (by omega), if_neg (by omega)]
            rfl
      · rw [if_neg hlo]
        have hY : (([] : List (Caps × Nat)).flatMap (fun cp =>
            (run t (.seq (.cls digitCC) .wb) cp.2).map
              (fun cq => (cp.1 ++ cq.1, cq.2)))) = [] := rfl
        rw [hY, List.append_nil]
        by_cases hR : lo ≤ t.length - 1 - p ∧ t.length - 1 - p ≤ m + 1 ∧ p < t.length
        · rw [if_pos (by omega), if_pos hR]
        · rw [if_neg (by omega), if_neg hR]
    · rw [if_neg hp2]
      by_cases hlo : lo = 0
      · rw [if_pos hlo]
        show (run t (.seq (.cls digitCC) .wb) p).map _ ++ [] = _
        rw [run_panTail t hT p, List.append_nil, if_neg (by omega), if_neg (by omega)]
        rfl
      · rw [if_neg hlo]
        rw [if_neg (by omega)]
        rfl

end Secureprompt

namespace Secureprompt

/-- On an all-digit text, `PAN_RX` matches only the whole text, and only
when its length is 14-20. -/
theorem run_PAN_digit (t : List Char) (hT : ∀ c ∈ t, ∃ d, d < 10 ∧ c = digitChar d)
    (p : Nat) (hp : p ≤ t.length) :
    run t PAN_RX p =
      if p = 0 ∧ 14 ≤ t.length ∧ t.length ≤ 20 then [(([] : Caps), t.length)] else [] := by
  show run t (.seq .wb (.seq (.rep 13 19 (.seq (.cls digitCC) (.opt (.cls panSepCC))))
    (.seq (.cls digitCC) .wb))) p = _
  rw [run]
  by_cases hwb : isWB t p = true
  · have hrun_wb : run t .wb p = [(([] : Caps), p)] := by rw [run, if_pos hwb]
    rw [hrun_wb]
    have hinner : run t (.seq (.rep 13 19 (.seq (.cls digitCC) (.opt (.cls panSepCC))))
        (.seq (.cls digitCC) .wb)) p =
        if 13 ≤ t.length - 1 - p ∧ t.length - 1 - p ≤ 19 ∧ p < t.length
        then [(([] : Caps), t.length)] else [] := by
      rw [run]
      have hrep : run t (.rep 13 19 (.seq (.cls digitCC) (.opt (.cls panSepCC)))) p =
          repAux (run t (.seq (.cls digitCC) (.opt (.cls panSepCC)))) 13 19 p := by rw [run]
      rw [hrep]
      exact pan_rep_tail t hT 19 13 p hp
    show (run t _ p).map _ ++ [] = _
    rw [hinner, List.append_nil]
    rcases isWB_digit t hT p hwb with ⟨hpos, hp0 | hpn⟩
    · subst hp0
      by_cases hc : 14 ≤ t.length ∧ t.length ≤ 20
      · rw [if_pos (by omega), if_pos ⟨rfl, hc⟩]
        rfl
      · rw [if_neg (by omega), if_neg (by intro hcon; exact hc hcon.2)]
        rfl
    · subst hpn
      rw [if_neg (by omega), if_neg (by omega)]
      rfl
  · have hrun_wb : run t .wb p = [] := by rw [run, if_neg hwb]
    rw [hrun_wb]
    rw [if_neg ?_]
    · rfl
    · rintro ⟨rfl, h14, _⟩
      apply hwb
      unfold isWB
      rw [if_pos rfl, wordAt_digit t hT]
      have hpos : 0 < t.length := by omega
      simp [hpos]

/-- A pattern that never matches between `p` and the end is never found from
`p` on. -/
theorem finditerAux_nil_bounded (re : RE) (t : List Char) :
    ∀ (f p : Nat), (∀ q, p ≤ q → q ≤ t.length → run t re q = []) →
    finditerAux re t f p = [] := by
  intro f
  induction f with
  | zero => intro p _; rfl
  | succ n ih =>
    intro p h
    unfold finditerAux
    by_cases hl : t.length < p
    · rw [if_pos hl]
    · rw [if_neg hl, h p (le_refl p) (by omega)]
      exact ih (p + 1) (fun q hq1 hq2 => h q (by omega) hq2)

/-- On an all-digit text, `finditer PAN_RX` finds exactly the whole text
when its length is 14-20, and nothing otherwise. -/
theorem finditer_PAN_digit (t : List Char) (hT : ∀ c ∈ t, ∃ d, d < 10 ∧ c = digitChar d) :
    finditer PAN_RX t =
      if 14 ≤ t.length ∧ t.length ≤ 20 then [⟨0, t.length, []⟩] else [] := by
  unfold finditer
  by_cases hc : 14 ≤ t.length ∧ t.length ≤ 20
  · rw [if_pos hc]
    have h0 : run t PAN_RX 0 = [(([] : Caps), t.length)] := by
      rw [run_PAN_digit t hT 0 (by omega), if_pos ⟨rfl, hc⟩]
    unfold finditerAux
    rw [if_neg (by omega), h0]
    show (⟨0, t.length, []⟩ : MatchData) ::
      finditerAux PAN_RX t t.length (max t.length (0 + 1)) = _
    rw [Nat.max_eq_left (by omega)]
    rw [finditerAux_nil_bounded PAN_RX t t.length t.length ?_]
    intro q hq1 hq2
    rw [run_PAN_digit t hT q hq2, if_neg (by omega)]
  · rw [if_neg hc]
    refine finditerAux_nil_bounded PAN_RX t (t.length + 1) 0 ?_
    intro q _ hq2
    rw [run_PAN_digit t hT q hq2, if_neg (by intro hcon; exact hc hcon.2)]

end Secureprompt

namespace Secureprompt

/-- On an all-digit text the first seven passes and the trailing keyword
passes emit nothing. -/
theorem passes_digit_nil (t : List Char) (hT : ∀ c ∈ t, ∃ d, d < 10 ∧ c = digitChar d)
    (tk : List (Nat × Nat)) :
    passIban t tk = [] ∧ passBic t tk = [] ∧ passEmail t tk = [] ∧ passDob t tk = [] ∧
    passDate t tk = [] ∧ passAmountCurrency t tk = [] ∧ passStatus t tk = [] ∧
    passTransferId t tk = [] ∧ passName t tk = [] := by
  refine ⟨?_, ?_, ?_, ?_, ?_, ?_, ?_, ?_, ?_⟩
  · unfold passIban
    rw [finditer_nil IBAN_RX t (run_IBAN_nil t hT)]
    rfl
  · unfold passBic
    rw [finditer_nil BIC_RX t (run_BIC_nil t hT)]
    rfl
  · unfold passEmail
    rw [finditer_nil EMAIL_RX t (run_EMAIL_nil t hT)]
    rfl
  · unfold passDob
    rw [finditer_nil DOB_CTX_RX t (run_DOB_nil t hT)]
    rfl
  · unfold passDate
    rw [finditer_nil DATE_RX t (run_DATE_nil t hT)]
    rfl
  · unfold passAmountCurrency
    rw [finditer_nil CUR_AMT_RX1 t (run_CUR1_nil t hT),
      finditer_nil CUR_AMT_RX2 t (run_CUR2_nil t hT)]
    rfl
  · unfold passStatus
    rw [finditer_nil STATUS_RX t (run_STATUS_nil t hT)]
    rfl
  · unfold passTransferId
    rw [finditer_nil XFER_RX t (run_XFER_nil t hT)]
    rfl
  · unfold passName
    rw [finditer_nil NAME_RX t (run_NAME_nil t hT)]
    rfl

/-- On an all-digit text of length at least five, the year pass emits
nothing. -/
theorem passYear_digit_nil (t : List Char) (hT : ∀ c ∈ t, ∃ d, d < 10 ∧ c = digitChar d)
    (hn : 4 < t.length) (tk : List (Nat × Nat)) : passYear t tk = [] := by
  unfold passYear
  rw [finditer_nil YEAR_RX t (run_YEAR_nil t hT hn)]
  rfl

/-- When every candidate span collides with `taken`,
`_append_non_overlapping` changes nothing. -/
theorem appendNO_reject (out : List Hit) (tk : List (Nat × Nat)) :
    ∀ (cands : List Hit), (∀ h ∈ cands, spanFree (h.hstart, h.hstop) tk = false) →
    appendNO out tk cands = (out, tk) := by
  intro cands
  induction cands with
  | nil => intro _; rfl
  | cons e rest ih =>
    intro hall
    unfold appendNO
    rw [hall e (List.mem_cons_self e rest)]
    show appendNO out tk rest = (out, tk)
    exact ih (fun x hx => hall x (List.mem_cons_of_mem e hx))

end Secureprompt

namespace Secureprompt

/-- A full-text slice is the text. -/
theorem sliceL_full (t : List Char) : sliceL t 0 t.length = t := by
  unfold sliceL
  rw [List.take_length, List.drop_zero]

/-- Cleaning an all-digit text keeps it unchanged. -/
theorem cleanPan_digit (t : List Char) (hT : ∀ c ∈ t, ∃ d, d < 10 ∧ c = digitChar d) :
    cleanPan t = t := by
  unfold cleanPan
  rw [List.filter_eq_self]
  intro c hc
  obtain ⟨d, hd, rfl⟩ := hT c hc
  exact (digit_char_facts d hd).2.2.1

/-- The PAN pass on a pure digit string: one entity over the whole text
exactly when the length is 14-19, the Luhn checksum is zero and the span is
free. -/
theorem passPan_digit (ds : List Nat) (hds : ∀ d ∈ ds, d < 10) (tk : List (Nat × Nat)) :
    passPan (ds.map digitChar) tk =
      if 14 ≤ ds.length ∧ ds.length ≤ 19 ∧ specLuhn ds = 0 ∧
          spanFree (0, ds.length) tk = true
      then [⟨"PAN", 0, ds.length, "PAN_luhn", ⟨ds.map digitChar⟩, "C4", "redact", 98⟩]
      else [] := by
  have hT : ∀ c ∈ ds.map digitChar, ∃ d, d < 10 ∧ c = digitChar d := by
    intro c hc
    rcases List.mem_map.mp hc with ⟨d, hd, rfl⟩
    exact ⟨d, hds d hd, rfl⟩
  have hlen : (ds.map digitChar).length = ds.length := List.length_map ds digitChar
  unfold passPan
  rw [finditer_PAN_digit _ hT, hlen]
  by_cases hA : 14 ≤ ds.length ∧ ds.length ≤ 20
  · rw [if_pos hA]
    rw [List.filterMap_cons, List.filterMap_nil]
    have hslice : sliceL (ds.map digitChar) 0 ds.length = ds.map digitChar := by
      rw [← hlen]
      exact sliceL_full _
    have hclean : cleanPan (ds.map digitChar) = ds.map digitChar :=
      cleanPan_digit _ hT
    simp only [hslice, hclean, hlen]
    by_cases h19 : ds.length ≤ 19
    · have hcond1 : (decide (ds.length < 13) || decide (19 < ds.length)) = false := by
        simp
        omega
      rw [hcond1, if_neg (by decide : ¬((false : Bool) = true))]
      by_cases hsl : specLuhn ds = 0
      · have hlo : luhnOk (ds.map digitChar) = true :=
          (luhnOk_digit ds hds).mpr ⟨by omega, hsl⟩
        rw [hlo, if_neg (by decide : ¬(((!true) : Bool) = true))]
        by_cases hsf : spanFree (0, ds.length) tk = true
        · rw [if_pos hsf, if_pos ⟨by omega, h19, hsl, hsf⟩]
        · rw [if_neg hsf, if_neg (fun hcon => hsf hcon.2.2.2)]
      · have hlo : luhnOk (ds.map digitChar) = false := by
          cases hb : luhnOk (ds.map digitChar)
          · rfl
          · exact absurd ((luhnOk_digit ds hds).mp hb).2 hsl
        rw [hlo, if_pos (by decide : ((!false) : Bool) = true),
          if_neg (fun hcon => hsl hcon.2.2.1)]
    · have hcond1 : (decide (ds.length < 13) || decide (19 < ds.length)) = true := by
        simp
        omega
      rw [hcond1, if_pos (rfl : (true : Bool) = true),
        if_neg (fun hcon => h19 hcon.2.1)]
  · rw [if_neg hA, if_neg (by intro hcon; exact hA ⟨hcon.1, by omega⟩)]
    rfl

end Secureprompt

namespace Secureprompt

set_option maxHeartbeats 2000000 in
/-- On a Luhn-valid pure digit string of length 14-19, `detect` finds
exactly one PAN entity covering the whole text. -/
theorem detect_digit (ds : List Nat) (hds : ∀ d ∈ ds, d < 10)
    (h14 : 14 ≤ ds.length) (h19 : ds.length ≤ 19) (hsl : specLuhn ds = 0) :
    detect (digitStr ds) =
      [⟨"PAN", 0, ds.length, "PAN_luhn", ⟨ds.map digitChar⟩, "C4", "redact", 98⟩] := by
  have hT : ∀ c ∈ ds.map digitChar, ∃ d, d < 10 ∧ c = digitChar d := by
    intro c hc
    rcases List.mem_map.mp hc with ⟨d, hd, rfl⟩
    exact ⟨d, hds d hd, rfl⟩
  have hlen : (ds.map digitChar).length = ds.length := List.length_map ds digitChar
  have hne : (digitStr ds).data.isEmpty = false := by
    cases hb : (digitStr ds).data.isEmpty
    · rfl
    · exfalso
      have h0 : (ds.map digitChar) = [] := List.isEmpty_iff.mp hb
      rw [h0] at hlen
      simp at hlen
      omega
  have hfree : ∀ (s e : Nat), 0 < e → s < ds.length →
      spanFree (s, e) [(0, ds.length)] = false := by
    intro s e he hs
    unfold spanFree overlapsB
    simp only [List.all_cons, List.all_nil, Bool.and_true]
    have h1 : ¬(e ≤ 0) := by omega
    have h2 : ¬(ds.length ≤ s) := by omega
    simp [h1, h2]
  have hphone : appendNO [⟨"PAN", 0, ds.length, "PAN_luhn", ⟨ds.map digitChar⟩, "C4", "redact", 98⟩] [(0, ds.length)]
      (passPhone (ds.map digitChar) [(0, ds.length)]) =
      ([⟨"PAN", 0, ds.length, "PAN_luhn", ⟨ds.map digitChar⟩, "C4", "redact", 98⟩], [(0, ds.length)]) := by
    refine appendNO_reject _ _ _ ?_
    intro h hm
    obtain ⟨hb1, hb2⟩ := pass_hit_bounds (ds.map digitChar) [(0, ds.length)] h
      (Or.inr (Or.inr (Or.inr (Or.inr (Or.inr (Or.inr (Or.inr (Or.inr (Or.inr (Or.inr
        (Or.inl hm)))))))))))
    rw [hlen] at hb2
    exact hfree h.hstart h.hstop (by omega) (by omega)
  have hfold : detect (digitStr ds) =
      List.insertionSort detectLe
        ((([fun tk => passIban (ds.map digitChar) tk, fun tk => passBic (ds.map digitChar) tk, fun tk => passEmail (ds.map digitChar) tk, fun tk => passDob (ds.map digitChar) tk, fun tk => passDate (ds.map digitChar) tk, fun tk => passYear (ds.map digitChar) tk, fun tk => passAmountCurrency (ds.map digitChar) tk, fun tk => passPan (ds.map digitChar) tk, fun tk => passStatus (ds.map digitChar) tk, fun tk => passTransferId (ds.map digitChar) tk, fun tk => passPhone (ds.map digitChar) tk, fun tk => passName (ds.map digitChar) tk] : List (List (Nat × Nat) → List Hit)).foldl
          (fun st p => appendNO st.1 st.2 (p st.2)) ([], [])).1) := by
    unfold detect
    simp only [hne, Bool.false_eq_true, if_false]
    rfl
  rw [hfold]
  show (List.insertionSort detectLe ((([fun tk => passBic (ds.map digitChar) tk, fun tk => passEmail (ds.map digitChar) tk, fun tk => passDob (ds.map digitChar) tk, fun tk => passDate (ds.map digitChar) tk, fun tk => passYear (ds.map digitChar) tk, fun tk => passAmountCurrency (ds.map digitChar) tk, fun tk => passPan (ds.map digitChar) tk, fun tk => passStatus (ds.map digitChar) tk, fun tk => passTransferId (ds.map digitChar) tk, fun tk => passPhone (ds.map digitChar) tk, fun tk => passName (ds.map digitChar) tk] : List (List (Nat × Nat) → List Hit)).foldl
    (fun st p => appendNO st.1 st.2 (p st.2)) (appendNO [] [] (passIban (ds.map digitChar) []))).1)) = _
  rw [(passes_digit_nil _ hT []).1]
  show (List.insertionSort detectLe ((([fun tk => passEmail (ds.map digitChar) tk, fun tk => passDob (ds.map digitChar) tk, fun tk => passDate (ds.map digitChar) tk, fun tk => passYear (ds.map digitChar) tk, fun tk => passAmountCurrency (ds.map digitChar) tk, fun tk => passPan (ds.map digitChar) tk, fun tk => passStatus (ds.map digitChar) tk, fun tk => passTransferId (ds.map digitChar) tk, fun tk => passPhone (ds.map digitChar) tk, fun tk => passName (ds.map digitChar) tk] : List (List (Nat × Nat) → List Hit)).foldl
    (fun st p => appendNO st.1 st.2 (p st.2)) (appendNO [] [] (passBic (ds.map digitChar) []))).1)) = _
  rw [(passes_digit_nil _ hT []).2.1]
  show (List.insertionSort detectLe ((([fun tk => passDob (ds.map digitChar) tk, fun tk => passDate (ds.map digitChar) tk, fun tk => passYear (ds.map digitChar) tk, fun tk => passAmountCurrency (ds.map digitChar) tk, fun tk => passPan (ds.map digitChar) tk, fun tk => passStatus (ds.map digitChar) tk, fun tk => passTransferId (ds.map digitChar) tk, fun tk => passPhone (ds.map digitChar) tk, fun tk => passName (ds.map digitChar) tk] : List (List (Nat × Nat) → List Hit)).foldl
    (fun st p => appendNO st.1 st.2 (p st.2)) (appendNO [] [] (passEmail (ds.map digitChar) []))).1)) = _
  rw [(passes_digit_nil _ hT []).2.2.1]
  show (List.insertionSort detectLe ((([fun tk => passDate (ds.map digitChar) tk, fun tk => passYear (ds.map digitChar) tk, fun tk => passAmountCurrency (ds.map digitChar) tk, fun tk => passPan (ds.map digitChar) tk, fun tk => passStatus (ds.map digitChar) tk, fun tk => passTransferId (ds.map digitChar) tk, fun tk => passPhone (ds.map digitChar) tk, fun tk => passName (ds.map digitChar) tk] : List (List (Nat × Nat) → List Hit)).foldl
    (fun st p => appendNO st.1 st.2 (p st.2)) (appendNO [] [] (passDob (ds.map digitChar) []))).1)) = _
  rw [(passes_digit_nil _ hT []).2.2.2.1]
  show (List.insertionSort detectLe ((([fun tk => passYear (ds.map digitChar) tk, fun tk => passAmountCurrency (ds.map digitChar) tk, fun tk => passPan (ds.map digitChar) tk, fun tk => passStatus (ds.map digitChar) tk, fun tk => passTransferId (ds.map digitChar) tk, fun tk => passPhone (ds.map digitChar) tk, fun tk => passName (ds.map digitChar) tk] : List (List (Nat × Nat) → List Hit)).foldl
    (fun st p => appendNO st.1 st.2 (p st.2)) (appendNO [] [] (passDate (ds.map digitChar) []))).1)) = _
  rw [(passes_digit_nil _ hT []).2.2.2.2.1]
  show (List.insertionSort detectLe ((([fun tk => passAmountCurrency (ds.map digitChar) tk, fun tk => passPan (ds.map digitChar) tk, fun tk => passStatus (ds.map digitChar) tk, fun tk => passTransferId (ds.map digitChar) tk, fun tk => passPhone (ds.map digitChar) tk, fun tk => passName (ds.map digitChar) tk] : List (List (Nat × Nat) → List Hit)).foldl
    (fun st p => appendNO st.1 st.2 (p st.2)) (appendNO [] [] (passYear (ds.map digitChar) []))).1)) = _
  rw [passYear_digit_nil _ hT (by omega) []]
  show (List.insertionSort detectLe ((([fun tk => passPan (ds.map digitChar) tk, fun tk => passStatus (ds.map digitChar) tk, fun tk => passTransferId (ds.map digitChar) tk, fun tk => passPhone (ds.map digitChar) tk, fun tk => passName (ds.map digitChar) tk] : List (List (Nat × Nat) → List Hit)).foldl
    (fun st p => appendNO st.1 st.2 (p st.2)) (appendNO [] [] (passAmountCurrency (ds.map digitChar) []))).1)) = _
  rw [(passes_digit_nil _ hT []).2.2.2.2.2.1]
  show (List.insertionSort detectLe ((([fun tk => passStatus (ds.map digitChar) tk, fun tk => passTransferId (ds.map digitChar) tk, fun tk => passPhone (ds.map digitChar) tk, fun tk => passName (ds.map digitChar) tk] : List (List (Nat × Nat) → List Hit)).foldl
    (fun st p => appendNO st.1 st.2 (p st.2)) (appendNO [] [] (passPan (ds.map digitChar) []))).1)) = _
  rw [passPan_digit ds hds [], if_pos ⟨h14, h19, hsl, rfl⟩]
  show (List.insertionSort detectLe ((([fun tk => passTransferId (ds.map digitChar) tk, fun tk => passPhone (ds.map digitChar) tk, fun tk => passName (ds.map digitChar) tk] : List (List (Nat × Nat) → List Hit)).foldl
    (fun st p => appendNO st.1 st.2 (p st.2)) (appendNO [⟨"PAN", 0, ds.length, "PAN_luhn", ⟨ds.map digitChar⟩, "C4", "redact", 98⟩] [(0, ds.length)] (passStatus (ds.map digitChar) [(0, ds.length)]))).1)) = _
  rw [(passes_digit_nil _ hT [(0, ds.length)]).2.2.2.2.2.2.1]
  show (List.insertionSort detectLe ((([fun tk => passPhone (ds.map digitChar) tk, fun tk => passName (ds.map digitChar) tk] : List (List (Nat × Nat) → List Hit)).foldl
    (fun st p => appendNO st.1 st.2 (p st.2)) (appendNO [⟨"PAN", 0, ds.length, "PAN_luhn", ⟨ds.map digitChar⟩, "C4", "redact", 98⟩] [(0, ds.length)] (passTransferId (ds.map digitChar) [(0, ds.length)]))).1)) = _
  rw [(passes_digit_nil _ hT [(0, ds.length)]).2.2.2.2.2.2.2.1]
  show (List.insertionSort detectLe ((([fun tk => passName (ds.map digitChar) tk] : List (List (Nat × Nat) → List Hit)).foldl
    (fun st p => appendNO st.1 st.2 (p st.2)) (appendNO [⟨"PAN", 0, ds.length, "PAN_luhn", ⟨ds.map digitChar⟩, "C4", "redact", 98⟩] [(0, ds.length)] (passPhone (ds.map digitChar) [(0, ds.length)]))).1)) = _
  rw [hphone]
  show (List.insertionSort detectLe ((([] : List (List (Nat × Nat) → List Hit)).foldl
    (fun st p => appendNO st.1 st.2 (p st.2)) (appendNO [⟨"PAN", 0, ds.length, "PAN_luhn", ⟨ds.map digitChar⟩, "C4", "redact", 98⟩] [(0, ds.length)] (passName (ds.map digitChar) [(0, ds.length)]))).1)) = _
  rw [(passes_digit_nil _ hT [(0, ds.length)]).2.2.2.2.2.2.2.2]
  rfl

end Secureprompt

namespace Secureprompt

/-- Amount/currency hits carry one of the two amount-pass labels. -/
theorem emitAC_label {t : List Char} {amtSpan curSpan : Nat × Nat}
    {taken : List (Nat × Nat)} {h : Hit}
    (hm : h ∈ emitAmountCurrency t amtSpan curSpan taken) :
    h.label = "CURRENCY" ∨ h.label = "AMOUNT" := by
  unfold emitAmountCurrency at hm
  rcases List.mem_append.mp hm with hin | hin
  · by_cases hfree : spanFree curSpan taken = true
    · rw [if_pos hfree] at hin
      rcases List.mem_singleton.mp hin with rfl
      exact Or.inl rfl
    · rw [if_neg hfree] at hin
      exact absurd hin (List.not_mem_nil h)
  · by_cases hfree : spanFree amtSpan taken = true
    · rw [if_pos hfree] at hin
      rcases List.mem_singleton.mp hin with rfl
      exact Or.inr rfl
    · rw [if_neg hfree] at hin
      exact absurd hin (List.not_mem_nil h)

/-- No pass other than the PAN pass emits a PAN-labelled hit. -/
theorem non_pan_label (t : List Char) (tk : List (Nat × Nat)) (h : Hit)
    (hm : h ∈ passIban t tk ∨ h ∈ passBic t tk ∨ h ∈ passEmail t tk ∨ h ∈ passDob t tk ∨
          h ∈ passDate t tk ∨ h ∈ passYear t tk ∨ h ∈ passAmountCurrency t tk ∨
          h ∈ passStatus t tk ∨ h ∈ passTransferId t tk ∨ h ∈ passPhone t tk ∨
          h ∈ passName t tk) : (h.label == "PAN") = false := by
  rcases hm with hm | hm | hm | hm | hm | hm | hm | hm | hm | hm | hm
  · rcases List.mem_map.mp hm with ⟨m, _, rfl⟩
    rfl
  · rcases List.mem_map.mp hm with ⟨m, _, rfl⟩
    rfl
  · rcases List.mem_map.mp hm with ⟨m, _, rfl⟩
    rfl
  · rcases List.mem_filterMap.mp hm with ⟨m, _, hsome⟩
    rcases Option.map_eq_some'.mp hsome with ⟨sp, _, rfl⟩
    rfl
  · rcases List.mem_map.mp hm with ⟨m, _, rfl⟩
    rfl
  · rcases List.mem_map.mp hm with ⟨m, _, rfl⟩
    rfl
  · unfold passAmountCurrency at hm
    rcases List.mem_append.mp hm with hm | hm <;>
    · rcases List.mem_flatMap.mp hm with ⟨m, _, hin⟩
      cases hg1 : groupSpan m 1 with
      | none => rw [hg1] at hin; exact absurd hin (List.not_mem_nil h)
      | some sp1 =>
        cases hg2 : groupSpan m 2 with
        | none => rw [hg1, hg2] at hin; exact absurd hin (List.not_mem_nil h)
        | some sp2 =>
          rw [hg1, hg2] at hin
          rcases emitAC_label hin with he | he <;> rw [he] <;> rfl
  · rcases List.mem_filterMap.mp hm with ⟨m, _, hsome⟩
    rcases Option.map_eq_some'.mp hsome with ⟨sp, _, rfl⟩
    rfl
  · rcases List.mem_filterMap.mp hm with ⟨m, _, hsome⟩
    rcases Option.map_eq_some'.mp hsome with ⟨sp, _, rfl⟩
    rfl
  · rcases List.mem_map.mp hm with ⟨m, _, rfl⟩
    rfl
  · rcases List.mem_map.mp hm with ⟨m, _, rfl⟩
    rfl

/-- Every hit `detect` reports comes from one of the twelve passes. -/
theorem detect_mem_pass (text : String) (h : Hit) (hm : h ∈ detect text) :
    ∃ tk, h ∈ passIban text.data tk ∨ h ∈ passBic text.data tk ∨ h ∈ passEmail text.data tk ∨
      h ∈ passDob text.data tk ∨ h ∈ passDate text.data tk ∨ h ∈ passYear text.data tk ∨
      h ∈ passAmountCurrency text.data tk ∨ h ∈ passPan text.data tk ∨
      h ∈ passStatus text.data tk ∨ h ∈ passTransferId text.data tk ∨
      h ∈ passPhone text.data tk ∨ h ∈ passName text.data tk := by
  unfold detect at hm
  by_cases hemp : text.data.isEmpty = true
  · simp [hemp] at hm
  · simp only [hemp, Bool.false_eq_true, if_false] at hm
    have hm2 := (List.perm_insertionSort detectLe _).mem_iff.mp hm
    have hchain := appendNO_chain_mem
      [fun tk => passIban text.data tk, fun tk => passBic text.data tk,
       fun tk => passEmail text.data tk, fun tk => passDob text.data tk,
       fun tk => passDate text.data tk, fun tk => passYear text.data tk,
       fun tk => passAmountCurrency text.data tk, fun tk => passPan text.data tk,
       fun tk => passStatus text.data tk, fun tk => passTransferId text.data tk,
       fun tk => passPhone text.data tk, fun tk => passName text.data tk]
      ([], []) h hm2
    rcases hchain with hnil | ⟨p, hp, tk, hpm⟩
    · exact absurd hnil (List.not_mem_nil h)
    · simp only [List.mem_cons, List.not_mem_nil, or_false] at hp
      refine ⟨tk, ?_⟩
      rcases hp with rfl | rfl | rfl | rfl | rfl | rfl | rfl | rfl | rfl | rfl | rfl | rfl
      · exact Or.inl hpm
      · exact Or.inr (Or.inl hpm)
      · exact Or.inr (Or.inr (Or.inl hpm))
      · exact Or.inr (Or.inr (Or.inr (Or.inl hpm)))
      · exact Or.inr (Or.inr (Or.inr (Or.inr (Or.inl hpm))))
      · exact Or.inr (Or.inr (Or.inr (Or.inr (Or.inr (Or.inl hpm)))))
      · exact Or.inr (Or.inr (Or.inr (Or.inr (Or.inr (Or.inr (Or.inl hpm))))))
      · exact Or.inr (Or.inr (Or.inr (Or.inr (Or.inr (Or.inr (Or.inr (Or.inl hpm)))))))
      · exact Or.inr (Or.inr (Or.inr (Or.inr (Or.inr (Or.inr (Or.inr (Or.inr (Or.inl hpm))))))))
      · exact Or.inr (Or.inr (Or.inr (Or.inr (Or.inr (Or.inr (Or.inr (Or.inr (Or.inr
          (Or.inl hpm)))))))))
      · exact Or.inr (Or.inr (Or.inr (Or.inr (Or.inr (Or.inr (Or.inr (Or.inr (Or.inr (Or.inr
          (Or.inl hpm))))))))))
      · exact Or.inr (Or.inr (Or.inr (Or.inr (Or.inr (Or.inr (Or.inr (Or.inr (Or.inr (Or.inr
          (Or.inr hpm))))))))))

end Secureprompt

namespace Secureprompt

/-- C7 (corrected): on a pure digit sequence the detector set emits a PAN
entity exactly when the length is 14-19 and the Luhn checksum is zero;
in particular a Luhn-valid 13-digit sequence produces no PAN entity, because
`PAN_RX` requires at least 14 digits. -/
theorem C7_pan_digit_iff (ds : List Nat) (hds : ∀ d ∈ ds, d < 10) :
    (detect (digitStr ds)).filter (fun h => h.label == "PAN") ≠ [] ↔
      14 ≤ ds.length ∧ ds.length ≤ 19 ∧ specLuhn ds = 0 := by
  constructor
  · intro hne
    obtain ⟨h, hdm, hlab⟩ : ∃ h, h ∈ detect (digitStr ds) ∧ (h.label == "PAN") = true := by
      by_contra hcon
      apply hne
      rw [List.filter_eq_nil_iff]
      intro a ha hp
      exact hcon ⟨a, ha, hp⟩
    obtain ⟨tk, hp⟩ := detect_mem_pass (digitStr ds) h hdm
    rcases hp with hm | hm | hm | hm | hm | hm | hm | hm | hm | hm | hm | hm
    · rw [non_pan_label (digitStr ds).data tk h (Or.inl hm)] at hlab
      exact Bool.noConfusion hlab
    · rw [non_pan_label (digitStr ds).data tk h (Or.inr (Or.inl hm))] at hlab
      exact Bool.noConfusion hlab
    · rw [non_pan_label (digitStr ds).data tk h (Or.inr (Or.inr (Or.inl hm)))] at hlab
      exact Bool.noConfusion hlab
    · rw [non_pan_label (digitStr ds).data tk h (Or.inr (Or.inr (Or.inr (Or.inl hm))))] at hlab
      exact Bool.noConfusion hlab
    · rw [non_pan_label (digitStr ds).data tk h
        (Or.inr (Or.inr (Or.inr (Or.inr (Or.inl hm)))))] at hlab
      exact Bool.noConfusion hlab
    · rw [non_pan_label (digitStr ds).data tk h
        (Or.inr (Or.inr (Or.inr (Or.inr (Or.inr (Or.inl hm))))))] at hlab
      exact Bool.noConfusion hlab
    · rw [non_pan_label (digitStr ds).data tk h
        (Or.inr (Or.inr (Or.inr (Or.inr (Or.inr (Or.inr (Or.inl hm)))))))] at hlab
      exact Bool.noConfusion hlab
    · have hm2 : h ∈ passPan (ds.map digitChar) tk := hm
      rw [passPan_digit ds hds tk] at hm2
      by_cases hcond : 14 ≤ ds.length ∧ ds.length ≤ 19 ∧ specLuhn ds = 0 ∧
          spanFree (0, ds.length) tk = true
      · exact ⟨hcond.1, hcond.2.1, hcond.2.2.1⟩
      · rw [if_neg hcond] at hm2
        exact absurd hm2 (List.not_mem_nil h)
    · rw [non_pan_label (digitStr ds).data tk h
        (Or.inr (Or.inr (Or.inr (Or.inr (Or.inr (Or.inr (Or.inr (Or.inl hm))))))))] at hlab
      exact Bool.noConfusion hlab
    · rw [non_pan_label (digitStr ds).data tk h
        (Or.inr (Or.inr (Or.inr (Or.inr (Or.inr (Or.inr (Or.inr (Or.inr
          (Or.inl hm)))))))))] at hlab
      exact Bool.noConfusion hlab
    · rw [non_pan_label (digitStr ds).data tk h
        (Or.inr (Or.inr (Or.inr (Or.inr (Or.inr (Or.inr (Or.inr (Or.inr (Or.inr
          (Or.inl hm))))))))))] at hlab
      exact Bool.noConfusion hlab
    · rw [non_pan_label (digitStr ds).data tk h
        (Or.inr (Or.inr (Or.inr (Or.inr (Or.inr (Or.inr (Or.inr (Or.inr (Or.inr
          (Or.inr hm))))))))))] at hlab
      exact Bool.noConfusion hlab
  · rintro ⟨h14, h19, hsl⟩
    rw [detect_digit ds hds h14 h19 hsl]
    intro hcon
    have heq : ([(⟨"PAN", 0, ds.length, "PAN_luhn", ⟨ds.map digitChar⟩, "C4", "redact",
        98⟩ : Hit)].filter (fun h => h.label == "PAN")) =
        [⟨"PAN", 0, ds.length, "PAN_luhn", ⟨ds.map digitChar⟩, "C4", "redact", 98⟩] := rfl
    rw [heq] at hcon
    exact List.cons_ne_nil _ _ hcon

/-- Witness: the Luhn-valid 16-digit sequence 4111111111111111 satisfies the
hypothesis, and the equivalence holds for it. -/
theorem C7_pan_digit_iff_witness :
    (∀ d ∈ ([4, 1, 1, 1, 1, 1, 1, 1, 1, 1, 1, 1, 1, 1, 1, 1] : List Nat), d < 10) ∧
    ((detect (digitStr [4, 1, 1, 1, 1, 1, 1, 1, 1, 1, 1, 1, 1, 1, 1, 1])).filter
        (fun h => h.label == "PAN") ≠ [] ↔
      14 ≤ ([4, 1, 1, 1, 1, 1, 1, 1, 1, 1, 1, 1, 1, 1, 1, 1] : List Nat).length ∧
      ([4, 1, 1, 1, 1, 1, 1, 1, 1, 1, 1, 1, 1, 1, 1, 1] : List Nat).length ≤ 19 ∧
      specLuhn [4, 1, 1, 1, 1, 1, 1, 1, 1, 1, 1, 1, 1, 1, 1, 1] = 0) :=
  ⟨by decide, C7_pan_digit_iff [4, 1, 1, 1, 1, 1, 1, 1, 1, 1, 1, 1, 1, 1, 1, 1] (by decide)⟩

end Secureprompt

namespace Secureprompt

/-- Hex digits decode back to their value. -/
theorem hexVal_hexDigit (k : Nat) (hk : k < 16) : hexVal (hexDigit k) = k := by
  interval_cases k <;> decide

/-- Four-digit hex encoding decodes to the encoded value. -/
theorem unhex4_hex4 (m : Nat) (hm : m < 65536) :
    unhex4 (hexDigit (m / 4096 % 16)) (hexDigit (m / 256 % 16)) (hexDigit (m / 16 % 16))
      (hexDigit (m % 16)) = m := by
  unfold unhex4
  rw [hexVal_hexDigit _ (Nat.mod_lt _ (by omega)), hexVal_hexDigit _ (Nat.mod_lt _ (by omega)),
    hexVal_hexDigit _ (Nat.mod_lt _ (by omega)), hexVal_hexDigit _ (Nat.mod_lt _ (by omega))]
  omega

end Secureprompt

namespace Secureprompt

/-- Characters never code for surrogates. -/
theorem char_not_surrogate (c : Char) : c.toNat < 55296 ∨ 57343 < c.toNat := by
  have h := c.valid
  have he : c.toNat = c.val.toNat := rfl
  rcases h with h | ⟨h1, h2⟩
  · left
    omega
  · right
    omega

end Secureprompt

namespace Secureprompt

/-- The characters of any code point stay clear of the surrogate range. -/
theorem char_lt (c : Char) : c.toNat < 1114112 := by
  have h := c.valid
  have he : c.toNat = c.val.toNat := rfl
  rcases h with h | ⟨_, h2⟩ <;> omega

/-- Decoding a non-surrogate escape. -/
theorem unescOne_u (a b c d : Char) (x : List Char)
    (hns : ¬(55296 ≤ unhex4 a b c d ∧ unhex4 a b c d ≤ 56319)) :
    unescOne ('\\' :: 'u' :: a :: b :: c :: d :: x) =
      some (Char.ofNat (unhex4 a b c d), x) := by
  unfold unescOne
  rw [show ('\\' :: 'u' :: a :: b :: c :: d :: x).headI = '\\' from rfl]
  rw [show ('\\' :: 'u' :: a :: b :: c :: d :: x).tail.headI = 'u' from rfl]
  rw [show (('\\' :: 'u' :: a :: b :: c :: d :: x).drop 2).headI = a from rfl]
  rw [show (('\\' :: 'u' :: a :: b :: c :: d :: x).drop 3).headI = b from rfl]
  rw [show (('\\' :: 'u' :: a :: b :: c :: d :: x).drop 4).headI = c from rfl]
  rw [show (('\\' :: 'u' :: a :: b :: c :: d :: x).drop 5).headI = d from rfl]
  rw [show ('\\' :: 'u' :: a :: b :: c :: d :: x).drop 6 = x from rfl]
  rw [if_neg (by decide), if_pos rfl, if_neg (by decide), if_neg (by decide),
    if_neg (by decide), if_neg (by decide), if_neg (by decide), if_neg (by decide),
    if_neg (by decide), if_neg hns]

theorem unescOne_uu (a b c d e f g h : Char) (x : List Char)
    (hs : 55296 ≤ unhex4 a b c d ∧ unhex4 a b c d ≤ 56319) :
    unescOne ('\\' :: 'u' :: a :: b :: c :: d :: '\\' :: 'u' :: e :: f :: g :: h :: x) =
      some (Char.ofNat (65536 + (unhex4 a b c d - 55296) * 1024 + (unhex4 e f g h - 56320)),
        x) := by
  unfold unescOne
  rw [show ('\\' :: 'u' :: a :: b :: c :: d :: '\\' :: 'u' :: e :: f :: g :: h :: x).headI =
    '\\' from rfl]
  rw [show ('\\' :: 'u' :: a :: b :: c :: d :: '\\' :: 'u' :: e :: f :: g :: h ::
    x).tail.headI = 'u' from rfl]
  rw [show (('\\' :: 'u' :: a :: b :: c :: d :: '\\' :: 'u' :: e :: f :: g :: h ::
    x).drop 2).headI = a from rfl]
  rw [show (('\\' :: 'u' :: a :: b :: c :: d :: '\\' :: 'u' :: e :: f :: g :: h ::
    x).drop 3).headI = b from rfl]
  rw [show (('\\' :: 'u' :: a :: b :: c :: d :: '\\' :: 'u' :: e :: f :: g :: h ::
    x).drop 4).headI = c from rfl]
  rw [show (('\\' :: 'u' :: a :: b :: c :: d :: '\\' :: 'u' :: e :: f :: g :: h ::
    x).drop 5).headI = d from rfl]
  rw [show (('\\' :: 'u' :: a :: b :: c :: d :: '\\' :: 'u' :: e :: f :: g :: h ::
    x).drop 8).headI = e from rfl]
  rw [show (('\\' :: 'u' :: a :: b :: c :: d :: '\\' :: 'u' :: e :: f :: g :: h ::
    x).drop 9).headI = f from rfl]
  rw [show (('\\' :: 'u' :: a :: b :: c :: d :: '\\' :: 'u' :: e :: f :: g :: h ::
    x).drop 10).headI = g from rfl]
  rw [show (('\\' :: 'u' :: a :: b :: c :: d :: '\\' :: 'u' :: e :: f :: g :: h ::
    x).drop 11).headI = h from rfl]
  rw [show ('\\' :: 'u' :: a :: b :: c :: d :: '\\' :: 'u' :: e :: f :: g :: h ::
    x).drop 12 = x from rfl]
  rw [if_neg (by decide), if_pos rfl, if_neg (by decide), if_neg (by decide),
    if_neg (by decide), if_neg (by decide), if_neg (by decide), if_neg (by decide),
    if_neg (by decide), if_pos hs]

theorem unescOne_pyEsc (c : Char) (x : List Char) :
    unescOne (pyEsc c ++ x) = some (c, x) := by
  unfold pyEsc
  split_ifs with h1 h2 h3 h4 h5 h6 h7 h8 h9
  · subst h1; rfl
  · subst h2; rfl
  · subst h3; rfl
  · subst h4; rfl
  · subst h5; rfl
  · subst h6; rfl
  · subst h7; rfl
  · show unescOne (c :: x) = some (c, x)
    unfold unescOne
    rw [show (c :: x).headI = c from rfl]
    rw [if_neg h1, if_neg h2]
    rfl
  · show unescOne ('\\' :: 'u' :: hexDigit (c.toNat / 4096 % 16) ::
      hexDigit (c.toNat / 256 % 16) :: hexDigit (c.toNat / 16 % 16) ::
      hexDigit (c.toNat % 16) :: x) = some (c, x)
    have hns : ¬(55296 ≤ unhex4 (hexDigit (c.toNat / 4096 % 16))
        (hexDigit (c.toNat / 256 % 16)) (hexDigit (c.toNat / 16 % 16))
        (hexDigit (c.toNat % 16)) ∧
        unhex4 (hexDigit (c.toNat / 4096 % 16)) (hexDigit (c.toNat / 256 % 16))
        (hexDigit (c.toNat / 16 % 16)) (hexDigit (c.toNat % 16)) ≤ 56319) := by
      rw [unhex4_hex4 c.toNat h9]
      rcases char_not_surrogate c with hs | hs <;> omega
    rw [unescOne_u _ _ _ _ x hns]
    rw [unhex4_hex4 c.toNat h9, Char.ofNat_toNat]
  · have hl := char_lt c
    show unescOne ('\\' :: 'u' ::
      hexDigit ((55296 + (c.toNat - 65536) / 1024) / 4096 % 16) ::
      hexDigit ((55296 + (c.toNat - 65536) / 1024) / 256 % 16) ::
      hexDigit ((55296 + (c.toNat - 65536) / 1024) / 16 % 16) ::
      hexDigit ((55296 + (c.toNat - 65536) / 1024) % 16) ::
      '\\' :: 'u' ::
      hexDigit ((56320 + (c.toNat - 65536) % 1024) / 4096 % 16) ::
      hexDigit ((56320 + (c.toNat - 65536) % 1024) / 256 % 16) ::
      hexDigit ((56320 + (c.toNat - 65536) % 1024) / 16 % 16) ::
      hexDigit ((56320 + (c.toNat - 65536) % 1024) % 16) :: x) = some (c, x)
    have hsr : 55296 ≤ unhex4 (hexDigit ((55296 + (c.toNat - 65536) / 1024) / 4096 % 16))
        (hexDigit ((55296 + (c.toNat - 65536) / 1024) / 256 % 16))
        (hexDigit ((55296 + (c.toNat - 65536) / 1024) / 16 % 16))
        (hexDigit ((55296 + (c.toNat - 65536) / 1024) % 16)) ∧
        unhex4 (hexDigit ((55296 + (c.toNat - 65536) / 1024) / 4096 % 16))
        (hexDigit ((55296 + (c.toNat - 65536) / 1024) / 256 % 16))
        (hexDigit ((55296 + (c.toNat - 65536) / 1024) / 16 % 16))
        (hexDigit ((55296 + (c.toNat - 65536) / 1024) % 16)) ≤ 56319 := by
      rw [unhex4_hex4 (55296 + (c.toNat - 65536) / 1024) (by omega)]
      omega
    rw [unescOne_uu _ _ _ _ _ _ _ _ x hsr]
    rw [unhex4_hex4 (55296 + (c.toNat - 65536) / 1024) (by omega),
      unhex4_hex4 (56320 + (c.toNat - 65536) % 1024) (by omega)]
    have harith : 65536 + (55296 + (c.toNat - 65536) / 1024 - 55296) * 1024 +
        (56320 + (c.toNat - 65536) % 1024 - 56320) = c.toNat := by omega
    rw [harith, Char.ofNat_toNat]

end Secureprompt

namespace Secureprompt

/-- A quote at the head of the input decodes to nothing. -/
theorem unescOne_quote (x : List Char) : unescOne ('"' :: x) = none := rfl

/-- Escaped string bodies followed by a closing quote are uniquely
decodable: the encoded string and the trailing input are both determined. -/
theorem flatMap_quote_inj : (s s' x y : List Char) →
    s.flatMap pyEsc ++ '"' :: x = s'.flatMap pyEsc ++ '"' :: y → s = s' ∧ x = y
  | [], [], x, y, h => by
    simp only [List.flatMap_nil, List.nil_append, List.cons.injEq, true_and] at h
    exact ⟨rfl, h⟩
  | [], c' :: cs', x, y, h => by
    rw [List.flatMap_nil, List.nil_append, List.flatMap_cons, List.append_assoc] at h
    have h2 := congrArg unescOne h
    rw [unescOne_quote, unescOne_pyEsc] at h2
    exact absurd h2 (by simp)
  | c :: cs, [], x, y, h => by
    rw [List.flatMap_nil, List.nil_append, List.flatMap_cons, List.append_assoc] at h
    have h2 := congrArg unescOne h
    rw [unescOne_quote, unescOne_pyEsc] at h2
    exact absurd h2 (by simp)
  | c :: cs, c' :: cs', x, y, h => by
    rw [List.flatMap_cons, List.append_assoc, List.flatMap_cons, List.append_assoc] at h
    have h2 := congrArg unescOne h
    rw [unescOne_pyEsc, unescOne_pyEsc] at h2
    simp only [Option.some.injEq, Prod.mk.injEq] at h2
    obtain ⟨hc, ht⟩ := h2
    obtain ⟨hs, hxy⟩ := flatMap_quote_inj cs cs' x y ht
    exact ⟨by rw [hc, hs], hxy⟩

/-- The canonical serialisation, right-normalised into an explicit
character spine around the escaped field bodies. -/
theorem canon_shape (r : AuditRecord) : canonNoHash r =
    '\x7b' :: '"' :: 'e' :: 'v' :: 'e' :: 'n' :: 't' :: '"' :: ':' :: '"' ::
      (r.event.data.flatMap pyEsc ++ '"' :: ',' :: '"' :: 'o' :: 'p' :: 'e' :: 'r' :: 'a' ::
        't' :: 'i' :: 'o' :: 'n' :: '_' :: 'i' :: 'd' :: '"' :: ':' :: '"' ::
      (r.operationId.data.flatMap pyEsc ++ '"' :: ',' :: '"' :: 'p' :: 'r' :: 'e' :: 'v' ::
        '_' :: 'h' :: 'a' :: 's' :: 'h' :: '"' :: ':' ::
      (jopt r.prevHash ++ ',' :: '"' :: 't' :: 's' :: '"' :: ':' :: '"' ::
      (r.ts.data.flatMap pyEsc ++ ['"', '\x7d'])))) := by
  simp [canonNoHash, jstr, List.append_assoc]

/-- Records with equal previous-hash fields and equal canonical
serialisations agree on every serialised field. -/
theorem canon_fields (r r' : AuditRecord) (hp : r.prevHash = r'.prevHash)
    (h : canonNoHash r = canonNoHash r') :
    r.event = r'.event ∧ r.operationId = r'.operationId ∧ r.ts = r'.ts := by
  rw [canon_shape, canon_shape] at h
  simp only [List.cons.injEq, true_and] at h
  obtain ⟨he, h⟩ := flatMap_quote_inj _ _ _ _ h
  simp only [List.cons.injEq, true_and] at h
  obtain ⟨ho, h⟩ := flatMap_quote_inj _ _ _ _ h
  simp only [List.cons.injEq, true_and] at h
  rw [← hp] at h
  have h2 := List.append_cancel_left h
  simp only [List.cons.injEq, true_and] at h2
  obtain ⟨ht, _⟩ := flatMap_quote_inj _ _ _ _ h2
  refine ⟨?_, ?_, ?_⟩
  · cases hre : r.event with | mk d => ?_
    cases hre' : r'.event with | mk d' => ?_
    rw [hre, hre'] at he
    simp_all
  · cases hro : r.operationId with | mk d => ?_
    cases hro' : r'.operationId with | mk d' => ?_
    rw [hro, hro'] at ho
    simp_all
  · cases hrt : r.ts with | mk d => ?_
    cases hrt' : r'.ts with | mk d' => ?_
    rw [hrt, hrt'] at ht
    simp_all

/-- After a first record, `linkOf` reads the last record's hash. -/
theorem linkOf_cons_hash : ∀ (xs : List AuditRecord) (x0 : AuditRecord),
    linkOf (some x0.hash) xs = ((x0 :: xs).getLast?).map (fun x => x.hash) := by
  intro xs
  induction xs with
  | nil => intro x0; rfl
  | cons y ys ih =>
    intro x0
    show linkOf (some y.hash) ys = _
    rw [ih y, List.getLast?_cons_cons]

/-- From genesis, `linkOf` is the last stored hash. -/
theorem linkOf_none : ∀ xs : List AuditRecord,
    linkOf none xs = (xs.getLast?).map (fun x => x.hash) := by
  intro xs
  cases xs with
  | nil => rfl
  | cons y ys => exact linkOf_cons_hash ys y

/-- A verified chain checks every record against its stored predecessor. -/
theorem chainOkGo_get (H : String → String) :
    ∀ (rs : List AuditRecord) (prev : Option String), chainOkGo H prev rs = true →
      ∀ k r, rs.get? k = some r → recordOk H (prevAt prev rs k) r = true := by
  intro rs
  induction rs with
  | nil => intro prev _ k r hr; simp at hr
  | cons x xs ih =>
    intro prev h k r hr
    simp only [chainOkGo, Bool.and_eq_true] at h
    cases k with
    | zero =>
      have hx : x = r := by simpa using hr
      subst hx
      exact h.1
    | succ j =>
      have hr' : xs.get? j = some r := hr
      have hp : prevAt prev (x :: xs) (j + 1) = prevAt (some x.hash) xs j := by
        cases j <;> rfl
      rw [hp]
      exact ih (some x.hash) h.2 j r hr'

/-- Verifying `xs ++ [r]` is verifying `xs` and checking `r` against the
last link of `xs`. -/
theorem chainOkGo_append (H : String → String) (r : AuditRecord) :
    ∀ (xs : List AuditRecord) (prev : Option String),
      chainOkGo H prev (xs ++ [r]) =
        (chainOkGo H prev xs && recordOk H (linkOf prev xs) r) := by
  intro xs
  induction xs with
  | nil =>
    intro prev
    simp [chainOkGo, linkOf]
  | cons x xs ih =>
    intro prev
    rw [List.cons_append]
    simp only [chainOkGo]
    rw [ih (some x.hash), Bool.and_assoc]
    rfl

/-- Unfolding `appendLog` into a plain append of the fully computed record. -/
theorem appendLog_eq (H : String → String) (chain : List AuditRecord) (e : AuditEvent) :
    appendLog H chain e = chain ++
      [⟨e.event, e.operationId, e.ts, (chain.getLast?).map (fun r => r.hash),
        H (chainInput ((chain.getLast?).map (fun r => r.hash))
          (canonNoHash ⟨e.event, e.operationId, e.ts,
            (chain.getLast?).map (fun r => r.hash), ""⟩))⟩] := rfl

/-- Appending through `append` preserves chain verification. -/
theorem appendLog_ok (H : String → String) (chain : List AuditRecord) (e : AuditEvent)
    (h : chainOkGo H none chain = true) :
    chainOkGo H none (appendLog H chain e) = true := by
  rw [appendLog_eq, chainOkGo_append, h, Bool.true_and]
  rw [linkOf_none]
  simp only [recordOk, Bool.and_eq_true, beq_iff_eq]
  exact ⟨rfl, trivial⟩

/-- Folding `append` over events preserves chain verification. -/
theorem buildLog_ok_aux (H : String → String) :
    ∀ (events : List AuditEvent) (chain : List AuditRecord),
      chainOkGo H none chain = true →
      chainOkGo H none (events.foldl (appendLog H) chain) = true := by
  intro events
  induction events with
  | nil => intro chain h; exact h
  | cons e es ih =>
    intro chain h
    rw [List.foldl_cons]
    exact ih (appendLog H chain e) (appendLog_ok H chain e h)

/-- C4: every audit log built by `append` satisfies the chain invariant --
each stored record's hash equals `H` of the previous hash, a newline, and
the canonical serialisation of the record without its hash field, and each
record's `prev_hash` equals its predecessor's hash (`None` for the first
record); and, for an injective `H`, replacing any single record that has a
successor with a different record makes whole-chain verification fail.
(The claim's further text -- that the last record is equally protected and
that recomputation fails for every subsequent record -- is refuted
separately.) -/
theorem C4_audit_chain :
    (∀ (H : String → String) (events : List AuditEvent),
        chainOk H (buildLog H events) = true) ∧
    (∀ (H : String → String), Function.Injective H →
      ∀ (rs : List AuditRecord) (k : Nat) (r' : AuditRecord),
        chainOk H rs = true → k + 1 < rs.length → rs.get? k ≠ some r' →
        chainOk H (rs.set k r') = false) := by
  constructor
  · intro H events
    exact buildLog_ok_aux H events [] rfl
  · intro H hinj rs k r' hok hk hne
    rcases Bool.eq_false_or_eq_true (chainOk H (rs.set k r')) with hset | hset
    swap
    · exact hset
    exfalso
    have hklt : k < rs.length := by omega
    obtain ⟨r, hr⟩ : ∃ r, rs.get? k = some r := by
      cases hx : rs.get? k with
      | none => exact absurd (List.get?_eq_none.mp hx) (by omega)
      | some r => exact ⟨r, rfl⟩
    obtain ⟨s, hs⟩ : ∃ s, rs.get? (k + 1) = some s := by
      cases hx : rs.get? (k + 1) with
      | none => exact absurd (List.get?_eq_none.mp hx) (by omega)
      | some s => exact ⟨s, rfl⟩
    have A1 := chainOkGo_get H rs none hok k r hr
    have A2 := chainOkGo_get H rs none hok (k + 1) s hs
    have hL1 : (rs.set k r').get? k = some r' := List.get?_set_eq_of_lt r' hklt
    have hL2 : (rs.set k r').get? (k + 1) = some s := by
      rw [List.get?_set_ne r' rs (by omega)]
      exact hs
    have B1 := chainOkGo_get H (rs.set k r') none hset k r' hL1
    have B2 := chainOkGo_get H (rs.set k r') none hset (k + 1) s hL2
    have hPk : prevAt none (rs.set k r') k = prevAt none rs k := by
      cases k with
      | zero => rfl
      | succ j =>
        show ((rs.set (j + 1) r').get? j).map (fun x => x.hash) =
          (rs.get? j).map (fun x => x.hash)
        rw [List.get?_set_ne r' rs (by omega)]
    have hPk1 : prevAt none rs (k + 1) = some r.hash := by
      show (rs.get? k).map (fun x => x.hash) = _
      rw [hr]
      rfl
    have hPk1s : prevAt none (rs.set k r') (k + 1) = some r'.hash := by
      show ((rs.set k r').get? k).map (fun x => x.hash) = _
      rw [hL1]
      rfl
    rw [hPk1] at A2
    rw [hPk1s] at B2
    rw [hPk] at B1
    simp only [recordOk, Bool.and_eq_true, beq_iff_eq] at A1 A2 B1 B2
    have hhash : r'.hash = r.hash := Option.some.inj (B2.2.symm.trans A2.2)
    have hprev : r'.prevHash = r.prevHash := B1.2.trans A1.2.symm
    have hH : H (chainInput r'.prevHash (canonNoHash r')) =
        H (chainInput r.prevHash (canonNoHash r)) := by
      rw [← B1.1, ← A1.1, hhash]
    have hci := hinj hH
    rw [hprev] at hci
    have hdata : (r.prevHash.getD "").data ++ '\n' :: canonNoHash r' =
        (r.prevHash.getD "").data ++ '\n' :: canonNoHash r := congrArg String.data hci
    have h4 := List.append_cancel_left hdata
    have hc : canonNoHash r' = canonNoHash r := by
      injection h4
    obtain ⟨he, ho, ht⟩ := canon_fields r' r hprev hc
    have hrr : r' = r := by
      obtain ⟨e1, o1, t1, p1, h1⟩ := r
      obtain ⟨e2, o2, t2, p2, h2⟩ := r'
      simp only [AuditRecord.mk.injEq]
      exact ⟨he, ho, ht, hprev, hhash⟩
    exact hne (by rw [hrr]; exact hr)

/-- Witness: a concrete two-record chain under an injective hash verifies,
and tampering its first record is detected. -/
theorem C4_audit_chain_witness :
    chainOk hashSharp (buildLog hashSharp [⟨"e", "o", "t"⟩, ⟨"f", "p", "u"⟩]) = true ∧
    chainOk hashSharp ((buildLog hashSharp [⟨"e", "o", "t"⟩, ⟨"f", "p", "u"⟩]).set 0
      ⟨"e", "o", "X", none, "h"⟩) = false := by
  have hinj : Function.Injective hashSharp := by
    intro a b h
    obtain ⟨d1⟩ := a
    obtain ⟨d2⟩ := b
    have h2 : '#' :: d1 = '#' :: d2 := congrArg String.data h
    have h3 : d1 = d2 := by injection h2
    rw [h3]
  exact ⟨C4_audit_chain.1 hashSharp _,
    C4_audit_chain.2 hashSharp hinj _ 0 _ (C4_audit_chain.1 hashSharp _) (by decide) (by decide)⟩

/-- Against C4's universal tamper-evidence: a tampered last record with a
recomputed hash passes whole-chain verification unchanged, and after
tampering an interior record the next record's own hash recomputation
still succeeds -- only its `prev_hash` link to the tampered record breaks. -/
theorem C4_counterexample :
    ((buildLog sha256Hex [⟨"scrub", "op1", "2025-01-01T00:00:00Z"⟩]).get? 0 ≠
      some ⟨"scrub", "op1", "TAMPERED", none,
        sha256Hex (chainInput none (canonNoHash ⟨"scrub", "op1", "TAMPERED", none, ""⟩))⟩) ∧
    chainOk sha256Hex ((buildLog sha256Hex [⟨"scrub", "op1", "2025-01-01T00:00:00Z"⟩]).set 0
      ⟨"scrub", "op1", "TAMPERED", none,
        sha256Hex (chainInput none (canonNoHash ⟨"scrub", "op1", "TAMPERED", none, ""⟩))⟩) =
      true ∧
    (((buildLog sha256Hex [⟨"scrub", "op1", "t0"⟩, ⟨"descrub", "op2", "t1"⟩]).set 0
        ⟨"scrub", "op1", "TAMPERED", none, "h"⟩).get? 1).all
      (fun r => r.hash == sha256Hex (chainInput r.prevHash (canonNoHash r))) = true :=
  ⟨by decide, by decide, by decide⟩

end Secureprompt
